import Mathlib

/-!
# Vivi: the instance Factory and the ModuleFactory registry

A shallow embedding of `src/factory/factory.js` and of the constructors and lookups of
`src/factory/module-factory.js` and `src/factory/module-factory.ts`.

* JavaScript values that can be handed in as an id are `JSValue`: every primitive value,
  Symbols, and objects.  A template literal converts an id to a string, which throws for
  a Symbol and for an object whose conversion throws: `JSValue.toJSString` is a completion,
  and a report evaluates its message after it has fetched the Logger.  The counter of a
  Factory is a JavaScript number that only ever counts up from 1 and is a `Nat` here.
* A JavaScript `Map` is a list of slots in insertion order.  Deleting an entry empties
  its slot (the slot stays in the list), setting a key that is absent appends a slot,
  setting a key that is present overwrites the value in place.  This is the record list
  of the language standard, and it is what `Map.prototype.forEach` walks by index.
* A method is a function from the state of the object to a completion (returned value
  or thrown error) paired with the state after the call: what a method did before it
  threw stays done.
* Calls that leave the Factory (the logging sink and the cleanup hook of an instance)
  are appended to the `trace` of the Factory in the order they are made; the context
  argument of a report is not recorded.
* A cleanup hook returns or throws.  A hook that calls back into its own Factory is
  covered by `exec`, where the calls a hook makes are given as a list; without such calls
  `exec` is the method of the Factory.  `runWith` is a sequence of calls of a client with
  such hooks, and `run` the same without them.  The Logger is reached through the registry
  on every report, and the lookup can fail: `ViviView` says what it yields.
* The constructor of a registry is its loops over the lists it is given, each a run of
  `set` calls on a Map.  The list of the baked-in services is not among the sources and is
  a parameter of both constructors.
* The regular expression of the TypeScript lookups is a backtracking matcher on the
  characters of the name, which is proved to test the word the name ends with.
* Classes that are not among the sources (Instance, ServiceFactory, ComponentFactory and
  the two Factory classes of the TypeScript variant) are parameters or are modelled from
  the spec, which is said at the definition.
-/

namespace Vivi

/-! ## JavaScript values, errors and completions -/

/-- How the conversion of an object to a string ends. The conversion runs methods of the
object, which are code of the caller: they give a text or they throw, and they are taken
to make no call on the Factory. A plain object gives `[object Object]`. -/
inductive Printed
  | text (s : String)
  | typeError (message : String)
  | error (message : String)
  deriving DecidableEq, Repr

/-- The JavaScript values an id argument can take.
* `num n` is the number that prints as the decimal numeral of `n`; every integer of a
  magnitude below 2^53 is such a number, and 0 stands for both zeros. No number prints as
  a numeral of more than 21 digits: such a `num n` stands for no value.
* `real text` is any other number but NaN (a fraction, a magnitude from 1e21 on, an
  infinity), given by the text it prints as, which tells two such numbers apart.
* `bigint n` is the BigInt `n`.
* `symbol ref` and `obj ref printed` carry a reference that tells two of them apart; an
  object carries how its conversion to a string ends. -/
inductive JSValue
  | undefined
  | null
  | bool (b : Bool)
  | num (n : Int)
  | nan
  | real (text : String)
  | bigint (n : Int)
  | str (s : String)
  | symbol (ref : Nat)
  | obj (ref : Nat) (printed : Printed)
  deriving DecidableEq, Repr

namespace JSValue

/-- ToBoolean: the test made by `if (id)`. -/
def truthy : JSValue → Bool
  | undefined => false
  | null => false
  | bool b => b
  | num n => decide (n ≠ 0)
  | nan => false
  | real _ => true
  | bigint n => decide (n ≠ 0)
  | str s => decide (s ≠ "")
  | symbol _ => true
  | obj _ _ => true

end JSValue

/-- What a `throw` carries. -/
inductive JSError
  | error (message : String)
  | referenceError (message : String)
  | typeError (message : String)
  | thrown (value : JSValue)
  deriving DecidableEq, Repr

/-- How a call ends: it returns a value or it throws. -/
inductive Completion (α : Type)
  | returned (value : α)
  | threw (e : JSError)
  deriving DecidableEq, Repr

/-- ToString, as applied to `${id}` by a template literal: it gives a text, or it throws
(for a Symbol always, for an object when its conversion does). -/
def JSValue.toJSString : JSValue → Completion String
  | .undefined => .returned "undefined"
  | .null => .returned "null"
  | .bool true => .returned "true"
  | .bool false => .returned "false"
  | .num n => .returned (toString n)
  | .nan => .returned "NaN"
  | .real text => .returned text
  | .bigint n => .returned (toString n)
  | .str s => .returned s
  | .symbol _ => .threw (.typeError "Cannot convert a Symbol value to a string")
  | .obj _ (.text s) => .returned s
  | .obj _ (.typeError message) => .threw (.typeError message)
  | .obj _ (.error message) => .threw (.error message)

/-! ## The JavaScript Map -/

/-- A Map as its list of slots, in insertion order; `none` is an emptied slot. -/
abbrev JSMap (κ ν : Type) := List (Option (κ × ν))

namespace JSMap

variable {κ ν : Type} [DecidableEq κ]

/-- The live entries, in insertion order. -/
def entries (m : JSMap κ ν) : List (κ × ν) := m.reduceOption

/-- The iterator `values()`, spread into an array. -/
def values (m : JSMap κ ν) : List ν := (entries m).map Prod.snd

/-- The property `size`. -/
def size (m : JSMap κ ν) : Nat := (entries m).length

/-- The method `get(key)`: `none` stands for undefined. -/
def get (k : κ) : JSMap κ ν → Option ν
  | [] => none
  | none :: m => get k m
  | some (k', v) :: m => if k' = k then some v else get k m

/-- The method `set(key, value)`. -/
def set (k : κ) (v : ν) : JSMap κ ν → JSMap κ ν
  | [] => [some (k, v)]
  | none :: m => none :: set k v m
  | some (k', v') :: m => if k' = k then some (k', v) :: m else some (k', v') :: set k v m

/-- The method `delete(key)`: the slot of the key is emptied and kept. -/
def delete (k : κ) : JSMap κ ν → JSMap κ ν
  | [] => []
  | none :: m => none :: delete k m
  | some (k', v') :: m => if k' = k then none :: m else some (k', v') :: delete k m

end JSMap

/-! ## Instances, constructors and the registry seen from a Factory -/

/-- An instance, as far as its Factory looks at it. -/
structure Instance where
  id : JSValue
  data : JSValue
  deriving DecidableEq, Repr

/-- Modelled from the spec: `setData(id, data)` of the Instance base class, which is not
among the sources. The instance records the id its Factory hands it, and the data. -/
def Instance.setData (id data : JSValue) (_self : Instance) : Instance :=
  { id := id, data := data }

/-- A constructor reference: the name of the class and what the `destroy()` hook of
one of its instances does when the Factory calls it (it returns or it throws). -/
structure Ctor where
  name : String
  destroy : Instance → Completion Unit

/-- The object `new construct(vivi)` builds, before `setData` has run. -/
def Ctor.make (_c : Ctor) : Instance :=
  { id := .undefined, data := .undefined }

/-- What `vivi.get('Logger')` yields for the registry a Factory belongs to. -/
inductive LoggerLookup
  | sink
  | null
  | threw (e : JSError)
  deriving DecidableEq, Repr

/-- The owning ModuleFactory, as far as a Factory uses it. -/
structure ViviView where
  logger : LoggerLookup
  deriving DecidableEq, Repr

/-- A call that leaves the Factory. -/
inductive Event
  | error (message : String)
  | warn (message : String)
  | cleanup (inst : Instance)
  deriving DecidableEq, Repr

/-! ## Factory -/

/-- The fields of a constructed Factory, and the calls it has made so far. -/
structure Factory where
  counter : Nat
  construct : Ctor
  instances : JSMap JSValue Instance
  vivi : ViviView
  trace : List Event

/-- What `get` hands back. -/
inductive Fetched
  | inst (i : Instance)
  | null
  | undefined
  deriving DecidableEq, Repr

/-- The object under construction: a field is `none` until it has been assigned. -/
structure Fields where
  counter : Option Nat := none
  construct : Option Ctor := none
  instances : Option (JSMap JSValue Instance) := none
  vivi : Option ViviView := none

/-- What `new Factory(constructorFn, vivi)` evaluates to when it does not throw. -/
inductive Built
  | ready (f : Factory)
  | inert (trace : List Event)

namespace Factory

/-- A report whose message is a template literal with `${id}` in it, `mk` being the rest of
the call: the Logger is fetched and its method read first, then the message is evaluated,
which throws when the conversion of the id throws, and then the call is made. -/
def report (mk : String → Event) (id : JSValue) (s : Factory) : Completion Unit × Factory :=
  match s.vivi.logger with
  | .sink =>
    match id.toJSString with
    | .returned text => (.returned (), { s with trace := s.trace ++ [mk text] })
    | .threw e => (.threw e, s)
  | .null => (.threw (.typeError "null has no properties"), s)
  | .threw e => (.threw e, s)

/-- The Factory that the constructor leaves when both arguments are given. -/
def fresh (constructorFn : Ctor) (vivi : ViviView) : Factory :=
  { counter := 1, construct := constructorFn, instances := [], vivi := vivi, trace := [] }

/-- The constructor. An argument that is missing is `none`. -/
def new (constructorFn : Option Ctor) (vivi : Option ViviView) : Completion Built :=
  let this : Fields := {}
  match vivi with
  | none => .threw (.referenceError "ModuleFactory is required.")
  | some v =>
    match constructorFn with
    | none =>
      -- the receiver of `.get('Logger')` is the field `this.vivi`, not the parameter
      match this.vivi with
      | none => .threw (.typeError "this.vivi is undefined")
      | some w =>
        match w.logger with
        | .sink => .returned (.inert [.error "Constructor function for Instance class required."])
        | .null => .threw (.typeError "null has no properties")
        | .threw e => .threw e
    | some c => .returned (.ready (fresh c v))

/-- The method `create(data)`. -/
def create (data : JSValue) (s : Factory) : Instance × Factory :=
  let inst := (s.construct.make).setData (.num s.counter) data
  (inst, { s with counter := s.counter + 1,
                  instances := s.instances.set inst.id inst })

/-- The expression `[...this.instances.values()][this.instances.size - 1] || null`. -/
def latest (s : Factory) : Fetched :=
  if s.instances.size = 0 then .null
  else
    match s.instances.values[s.instances.size - 1]? with
    | some inst => .inst inst
    | none => .null

/-- The method `get(id)`; an omitted id is `undefined`. -/
def get (id : JSValue) (s : Factory) : Completion Fetched × Factory :=
  if id.truthy then
    match s.instances.get id with
    | some inst => (.returned (.inst inst), s)
    | none =>
      match s.report
          (fun text => .error (s.construct.name ++ ": No instance found with id: " ++ text)) id with
      | (.threw e, s1) => (.threw e, s1)
      | (.returned _, s1) => (.returned .undefined, s1)
  else
    (.returned s.latest, s)

/-- The method `destroy(id)` when the cleanup hook of the instance makes no call on the
Factory: the hook returns or throws, as `Ctor.destroy` says. For hooks that call back the
method is `exec`, which is proved to be this function when the hook makes no call. -/
def destroy (id : JSValue) (s : Factory) : Completion Unit × Factory :=
  match s.get id with
  | (.threw e, s1) => (.threw e, s1)
  | (.returned (.inst inst), s1) =>
    let s2 : Factory := { s1 with trace := s1.trace ++ [.cleanup inst] }
    match s2.construct.destroy inst with
    | .threw e => (.threw e, s2)
    | .returned _ => (.returned (), { s2 with instances := s2.instances.delete id })
  | (.returned _, s1) =>
    s1.report
      (fun text => .warn ("Error destroying instance " ++ text ++ ". Id does not exist in factory."))
      id

/-- The loop of `this.instances.forEach(instance => this.destroy(instance.id))` from slot
`i` on, when no cleanup hook makes a call on the Factory (the loop for hooks that call back
is in `exec`). The slot list is read afresh at every step; `none` means the fuel ran
out. -/
def forEachDestroy : Nat → Nat → Factory → Option (Completion Unit × Factory)
  | 0, _, _ => none
  | fuel + 1, i, s =>
    match s.instances[i]? with
    | none => some (.returned (), s)
    | some none => forEachDestroy fuel (i + 1) s
    | some (some (_, inst)) =>
      match s.destroy inst.id with
      | (.threw e, s1) => some (.threw e, s1)
      | (.returned _, s1) => forEachDestroy fuel (i + 1) s1

end Factory

/-! ## Runs of calls on one Factory -/

/-- A call a client makes on a Factory. -/
inductive Call
  | create (data : JSValue)
  | get (id : JSValue)
  | destroy (id : JSValue)
  deriving DecidableEq, Repr

/-- The state after one call (a client may catch what the call throws and go on). -/
def Call.step : Call → Factory → Factory
  | .create data, s => (s.create data).2
  | .get id, s => (s.get id).2
  | .destroy id, s => (s.destroy id).2

/-- The state after a sequence of calls. -/
def run : List Call → Factory → Factory
  | [], s => s
  | c :: cs, s => run cs (c.step s)

/-- The instances the `create` calls of a sequence return, in the order of the calls. -/
def made : List Call → Factory → List Instance
  | [], _ => []
  | .create data :: cs, s => (s.create data).1 :: made cs (s.create data).2
  | c :: cs, s => made cs (c.step s)

/-- The state a Factory is in after `new Factory(c, v)` and then the calls `cs`. -/
def reached (c : Ctor) (v : ViviView) (cs : List Call) : Factory :=
  run cs (Factory.fresh c v)

/-- The invariant of the states a Factory reaches: live keys are pairwise distinct, every
live instance sits under its own id, and every live id is a number from 1 up to, but
not including, the counter. -/
def Inv (s : Factory) : Prop :=
  1 ≤ s.counter ∧
  (s.instances.entries).Pairwise (fun a b => a.1 ≠ b.1) ∧
  ∀ e ∈ s.instances.entries, e.2.id = e.1 ∧ ∃ n : Nat, e.1 = .num n ∧ 1 ≤ n ∧ n < s.counter

/-! ## ModuleFactory (module-factory.js): the lookups -/

/-- The two classes of Factory a registry holds. -/
inductive Kind
  | service
  | component
  deriving DecidableEq, Repr

/-- Modelled from the spec: ServiceFactory and ComponentFactory, which are not among the
sources. Both are the Factory above, tagged with its kind. -/
structure Registered where
  kind : Kind
  factory : Factory

/-- The argument of a lookup: a constructor or a string. -/
inductive TypeRef
  | ctor (c : Ctor)
  | name (s : String)

/-- The expression `typeof instance === 'string' ? instance : instance.name`. -/
def TypeRef.instanceName : TypeRef → String
  | .ctor c => c.name
  | .name s => s

/-- The registry: the Map `factories`, and the calls the registry itself has made on the
Logger it resolved. A Factory object that is changed through the registry is written back
under its name, which overwrites the slot in place. -/
structure ModuleFactory where
  factories : JSMap String Registered
  trace : List Event

namespace ModuleFactory

/-- The message of a failed lookup. -/
def notFound (instanceName : String) : String :=
  "No service factory or component factory found for " ++ instanceName

/-- The call `getFactory('Logger')` that `get('Logger')` makes: for this name a miss
throws, it never reports. -/
def getFactoryOfLogger (m : ModuleFactory) : Completion Registered :=
  match m.factories.get "Logger" with
  | some inst => .returned inst
  | none => .threw (.error (notFound "Logger"))

/-- The call `this.get('Logger')`, which is `getFactory('Logger').get(undefined)`. -/
def getLogger (m : ModuleFactory) : Completion Fetched :=
  match m.getFactoryOfLogger with
  | .threw e => .threw e
  | .returned inst => (inst.factory.get .undefined).1

/-- The method `getFactory(instance)`; `none` is the undefined it returns after it has
reported a miss. -/
def getFactory (ref : TypeRef) (m : ModuleFactory) :
    Completion (Option Registered) × ModuleFactory :=
  let instanceName := ref.instanceName
  match m.factories.get instanceName with
  | some inst => (.returned (some inst), m)
  | none =>
    if instanceName = "Logger" then
      (.threw (.error (notFound instanceName)), m)
    else
      match m.getLogger with
      | .threw e => (.threw e, m)
      | .returned (.inst _) =>
        (.returned none, { m with trace := m.trace ++ [.error (notFound instanceName)] })
      | .returned _ => (.threw (.typeError "null has no properties"), m)

/-- Writing a Factory object back under its name. -/
def store (instanceName : String) (r : Registered) (m : ModuleFactory) : ModuleFactory :=
  { m with factories := m.factories.set instanceName r }

/-- The method `get(constructor, id)`, which is `this.getFactory(constructor).get(id)`. -/
def get (ref : TypeRef) (id : JSValue) (m : ModuleFactory) :
    Completion Fetched × ModuleFactory :=
  match m.getFactory ref with
  | (.threw e, m1) => (.threw e, m1)
  | (.returned none, m1) => (.threw (.typeError "undefined has no properties"), m1)
  | (.returned (some inst), m1) =>
    ((inst.factory.get id).1,
      m1.store ref.instanceName { inst with factory := (inst.factory.get id).2 })

end ModuleFactory

/-! ## ModuleFactory (module-factory.ts): the lookups -/

namespace TS

/-- The test `s` ends with `suffix`. -/
def endsWith (s suffix : String) : Bool := suffix.toList.isSuffixOf s.toList

/-- The rule in the words of the spec: a name is a Service or a Component purely by the
word it ends with, and a name that ends with neither is unresolvable. -/
def classify (name : String) : Option Kind :=
  if endsWith name "Service" then some .service
  else if endsWith name "Component" then some .component
  else none

/-- The characters that `.` does not match: the line terminators. -/
def isLineTerminator (c : Char) : Bool :=
  c = Char.ofNat 10 || c = Char.ofNat 13 || c = Char.ofNat 8232 || c = Char.ofNat 8233

/-- The alternatives of the second group, in the order the alternation tries them. -/
def words : List (List Char) := ["Component".toList, "Service".toList]

/-- The part `(Component|Service)$` at the front of `rest`: the first alternative that is
followed by the end of the input. -/
def matchWord (rest : List Char) : Option (List Char) :=
  words.find? (fun w => decide (w = rest))

/-- The pattern `(.*)(Component|Service)$` with its start at the front of `s`; the result
is the pair of the two groups. The star is greedy: it first takes one more character (never
a line terminator), and gives characters back one by one while the rest fails. -/
def matchHere : List Char → Option (List Char × List Char)
  | [] => (matchWord []).map (fun w => ([], w))
  | c :: cs =>
    if isLineTerminator c then (matchWord (c :: cs)).map (fun w => ([], w))
    else
      match matchHere cs with
      | some (g1, g2) => some (c :: g1, g2)
      | none => (matchWord (c :: cs)).map (fun w => ([], w))

/-- The call `name.match(/(.*)(Component|Service)$/)` on the characters of the name: the
match with the leftmost start, or `none` for null. -/
def regexMatch : List Char → Option (List Char × List Char)
  | [] => matchHere []
  | c :: cs =>
    match matchHere (c :: cs) with
    | some r => some r
    | none => regexMatch cs

/-- The two tests `matches && matches[2] && matches[2] === 'Service'` and the same with
`'Component'`, in this order; `none` when both fail. -/
def suffixOf (name : String) : Option Kind :=
  match regexMatch name.toList with
  | some (_, g2) =>
    if g2 = "Service".toList then some .service
    else if g2 = "Component".toList then some .component
    else none
  | none => none

/-- The registry of the TypeScript variant. Its two Factory classes are not among the
sources: they are the parameters `SF` and `CF`. -/
structure ModuleFactory (SF CF : Type) where
  services : JSMap String SF
  components : JSMap String CF

/-- What a Factory lookup yields: one of the two classes, or undefined. -/
inductive Found (SF CF : Type)
  | service (f : SF)
  | component (f : CF)
  | undefined

variable {SF CF R : Type}

/-- What the string thrown for a name with neither suffix is. -/
def noSuch (name : String) : JSError := .thrown (.str ("No service or component for " ++ name))

/-- The method `getFactoryByString(name)`. -/
def getFactoryByString (name : String) (m : ModuleFactory SF CF) : Completion (Found SF CF) :=
  match suffixOf name with
  | some .service =>
    .returned (match m.services.get name with
      | some f => .service f
      | none => .undefined)
  | some .component =>
    .returned (match m.components.get name with
      | some f => .component f
      | none => .undefined)
  | none => .threw (noSuch name)

/-- The method `getFactory(constructor)`. -/
def getFactory (constructor : Ctor) (m : ModuleFactory SF CF) : Completion (Found SF CF) :=
  getFactoryByString constructor.name m

/-- The method `getByString(name, id)`. The `get` methods of the two Factory classes are
the parameters `sget` and `cget`. -/
def getByString (sget : SF → JSValue → Completion R) (cget : CF → JSValue → Completion R)
    (name : String) (id : JSValue) (m : ModuleFactory SF CF) : Completion R :=
  match suffixOf name with
  | some .service =>
    match m.services.get name with
    | some f => sget f id
    | none => .threw (.typeError "undefined has no properties")
  | some .component =>
    match m.components.get name with
    | some f => cget f id
    | none => .threw (.typeError "undefined has no properties")
  | none => .threw (noSuch name)

/-- The method `get(constructor, id)`. -/
def get (sget : SF → JSValue → Completion R) (cget : CF → JSValue → Completion R)
    (constructor : Ctor) (id : JSValue) (m : ModuleFactory SF CF) : Completion R :=
  getByString sget cget constructor.name id m

/-- The expression `f.get(id)` on what a Factory lookup returned. -/
def Found.get (sget : SF → JSValue → Completion R) (cget : CF → JSValue → Completion R)
    (id : JSValue) : Found SF CF → Completion R
  | .service f => sget f id
  | .component f => cget f id
  | .undefined => .threw (.typeError "undefined has no properties")

end TS

/-- What `destroy(id)` hands to the logging sink when `id` resolves to no instance and
prints as `text`: the error of `get` when the id is truthy, then the warning of `destroy`
itself. -/
def unknownIdReports (c : Ctor) (id : JSValue) (text : String) : List Event :=
  (if id.truthy then [Event.error (c.name ++ ": No instance found with id: " ++ text)]
   else []) ++
  [Event.warn ("Error destroying instance " ++ text ++ ". Id does not exist in factory.")]

/-! ## Sample inputs -/

namespace Sample

/-- A class whose cleanup hook returns. -/
def widget : Ctor := { name := "Widget", destroy := fun _ => .returned () }

/-- A class whose cleanup hook throws. -/
def brittle : Ctor := { name := "Brittle", destroy := fun _ => .threw (.error "cleanup failed") }

/-- The logging service; what its instances do on a report is outside the model. -/
def logger : Ctor := { name := "Logger", destroy := fun _ => .returned () }

/-- A registry whose Logger factory has a live instance. -/
def logging : ViviView := { logger := .sink }

/-- A registry whose Logger factory has no live instance. -/
def silent : ViviView := { logger := .null }

/-- A registry without a Logger factory. -/
def bare : ViviView := { logger := .threw (.error (ModuleFactory.notFound "Logger")) }

/-- Two create calls. -/
def calls : List Call := [.create .undefined, .create .null]

/-- The instance the first of the two calls returns. -/
def first : Instance := { id := .num 1, data := .undefined }

/-- The instance the second of the two calls returns. -/
def second : Instance := { id := .num 2, data := .null }

/-- A registry that holds a Logger factory with one live Logger, and a Widget factory
with the two instances of `calls`. -/
def wired : ModuleFactory :=
  { factories :=
      [some ("Logger", { kind := .service,
                         factory := run [.create .undefined] (Factory.fresh logger logging) }),
       some ("Widget", { kind := .component,
                         factory := run calls (Factory.fresh widget logging) })],
    trace := [] }

/-- A registry whose Logger factory has lost its only instance. -/
def mute : ModuleFactory :=
  { factories :=
      [some ("Logger", { kind := .service,
                         factory := run [.create .undefined, .destroy (.num 1)]
                           (Factory.fresh logger silent) })],
    trace := [] }

/-- A registry that holds no Logger factory. -/
def unwired : ModuleFactory :=
  { factories := [some ("Widget", { kind := .component, factory := Factory.fresh widget bare })],
    trace := [] }

end Sample

/-! ## ModuleFactory (module-factory.js): the constructor -/

/-- A class where its identity matters: `ref` tells two classes apart, `parent` is the
class it extends, which is what `Reflect.getPrototypeOf` returns for a class. -/
structure Class where
  ref : Nat
  ctor : Ctor
  parent : Option Nat

/-- An entry of the array `overrides`: a class, or an object `{key, override}`. -/
inductive Override
  | cls (c : Class)
  | keyed (key : String) (override : Ctor)

namespace Override

/-- The test `override.key === service.name || Reflect.getPrototypeOf(override) === service`.
A class has no `key`, and the prototype of an object literal is not a class. -/
def fits (service : Class) : Override → Bool
  | .cls c => decide (c.parent = some service.ref)
  | .keyed key _ => decide (key = service.ctor.name)

/-- The entry `{key, override}` itself where it is handed over as the constructor: an
object without a name. -/
def asCtor (_key : String) (_override : Ctor) : Ctor :=
  { name := "undefined", destroy := fun _ => .returned () }

/-- The expression `override.key ? override.override : override`. -/
def constructorFn : Override → Ctor
  | .cls c => c.ctor
  | .keyed key override => if key ≠ "" then override else asCtor key override

end Override

/-- The argument `module`. A list that is not given as an array is `none`, and so is a
root component that is not given. -/
structure Module where
  modules : Option (List ModuleFactory) := none
  serviceConstructors : Option (List Ctor) := none
  componentConstructors : Option (List Ctor) := none
  rootComponent : Option TypeRef := none

namespace Registered

/-- Modelled from the spec: `new ServiceFactory(constructorFn, vivi)`; the class is not
among the sources. It is the Factory the constructor of Factory leaves, tagged service. -/
def service (constructorFn : Ctor) (vivi : ViviView) : Registered :=
  { kind := .service, factory := Factory.fresh constructorFn vivi }

/-- Modelled from the spec: `new ComponentFactory(constructorFn, vivi)`; the class is not
among the sources. It is the Factory the constructor of Factory leaves, tagged component. -/
def component (constructorFn : Ctor) (vivi : ViviView) : Registered :=
  { kind := .component, factory := Factory.fresh constructorFn vivi }

/-- Modelled from the spec: `createRoot()`, which only a ComponentFactory has. It creates
one instance, the root; mounting it is outside the model. -/
def createRoot (r : Registered) : Completion Registered :=
  match r.kind with
  | .component => .returned { r with factory := (r.factory.create .undefined).2 }
  | .service => .threw (.typeError "createRoot is not a function")

end Registered

namespace ModuleFactory

/-- The Factory that the loop over the baked-in services registers for `service`. -/
def bakedIn (overrides : List Override) (vivi : ViviView) (service : Class) : Registered :=
  match overrides.find? (Override.fits service) with
  | some override => Registered.service override.constructorFn vivi
  | none => Registered.service service.ctor vivi

/-- The loop `childModule.factories.forEach((value, key) => this.factories.set(key, value))`
over all child modules. -/
def loadModules (modules : List ModuleFactory) (m : ModuleFactory) : ModuleFactory :=
  modules.foldl (fun t childModule =>
    childModule.factories.entries.foldl (fun t e => t.store e.1 e.2) t) m

/-- The loop over `loadViviServices()`, the list of the baked-in services, which is not
among the sources and is a parameter. -/
def loadServices (loadViviServices : List Class) (overrides : List Override) (vivi : ViviView)
    (m : ModuleFactory) : ModuleFactory :=
  loadViviServices.foldl (fun t service =>
    t.store service.ctor.name (bakedIn overrides vivi service)) m

/-- The loop over `module.serviceConstructors`. -/
def initServices (serviceConstructors : List Ctor) (vivi : ViviView) (m : ModuleFactory) :
    ModuleFactory :=
  serviceConstructors.foldl (fun t serviceConstructor =>
    t.store serviceConstructor.name (Registered.service serviceConstructor vivi)) m

/-- The loop over `module.componentConstructors`. -/
def initComponents (componentConstructors : List Ctor) (vivi : ViviView) (m : ModuleFactory) :
    ModuleFactory :=
  componentConstructors.foldl (fun t constructor =>
    t.store constructor.name (Registered.component constructor vivi)) m

/-- The registry when the four loops of the constructor have run, before a root component
is mounted. `vivi` is the registry as the Factories it builds will see it. -/
def registered (loadViviServices : List Class) (vivi : ViviView) (module : Option Module)
    (overrides : Option (List Override)) : ModuleFactory :=
  let this : ModuleFactory := { factories := [], trace := [] }
  let module := module.getD {}
  let overrides := overrides.getD []
  let this := match module.modules with
    | some modules => loadModules modules this
    | none => this
  let this := loadServices loadViviServices overrides vivi this
  let this := match module.serviceConstructors with
    | some serviceConstructors => initServices serviceConstructors vivi this
    | none => this
  match module.componentConstructors with
  | some componentConstructors => initComponents componentConstructors vivi this
  | none => this

/-- The test `if (module.rootComponent)`: a constructor, or a string that is not empty. -/
def rootGiven (module : Option Module) : Option TypeRef :=
  match (module.getD {}).rootComponent with
  | some (.name "") => none
  | other => other

/-- The constructor `new ModuleFactory(module, options, overrides)`. The options take no
part in the registry. -/
def construct (loadViviServices : List Class) (vivi : ViviView) (module : Option Module)
    (overrides : Option (List Override)) : Completion ModuleFactory :=
  let this := registered loadViviServices vivi module overrides
  match rootGiven module with
  | none => .returned this
  | some rootComponent =>
    match this.getFactory rootComponent with
    | (.threw e, _) => .threw e
    | (.returned none, _) => .threw (.typeError "undefined has no properties")
    | (.returned (some rootFactory), this) =>
      match rootFactory.createRoot with
      | .threw e => .threw e
      | .returned mounted => .returned (this.store rootComponent.instanceName mounted)

/-- The method `getComponentRegistry()`: the keys, in Map order, of the entries that are a
ComponentFactory. The two helpers it calls come from a library outside the repository. -/
def getComponentRegistry (m : ModuleFactory) : List String :=
  (m.factories.entries.filter (fun e => decide (e.2.kind = .component))).map Prod.fst

/-- The registrations the constructor makes, in the order the spec gives: merged child
modules, baked-in services with overrides, supplied services, supplied components. -/
def registrations (loadViviServices : List Class) (vivi : ViviView) (module : Option Module)
    (overrides : Option (List Override)) : List (String × Registered) :=
  (((module.getD {}).modules.getD []).flatMap (fun childModule => childModule.factories.entries)) ++
  loadViviServices.map (fun service =>
    (service.ctor.name, bakedIn (overrides.getD []) vivi service)) ++
  ((module.getD {}).serviceConstructors.getD []).map (fun c => (c.name, Registered.service c vivi)) ++
  ((module.getD {}).componentConstructors.getD []).map
    (fun c => (c.name, Registered.component c vivi))

/-- The last registration under a name, if there is one. -/
def lastRegistration (regs : List (String × Registered)) (name : String) : Option Registered :=
  (regs.reverse.find? (fun e => decide (e.1 = name))).map Prod.snd

end ModuleFactory


/-! ## ModuleFactory (module-factory.ts): the constructor -/

namespace TS

/-- A service descriptor: the constructor and, when given, the constructors of its
prerequisites. -/
structure ServiceDescriptor where
  constructor : Ctor
  prereqArr : Option (List Ctor) := none

/-- A component descriptor: the constructor and, when given, the constructors of the
services it declares. -/
structure ComponentDescriptor where
  constructor : Ctor
  services : Option (List Ctor) := none

/-- The argument `module`; a field that is not given is `none`. -/
structure ViviFactoryConstructor where
  serviceConstructors : Option (List ServiceDescriptor) := none
  componentConstructors : Option (List ComponentDescriptor) := none
  rootComponent : Option Ctor := none

/-- Modelled from the spec: ViviServiceFactory, which is not among the sources. It holds
the constructor and the resolved prerequisites, each a Factory object or undefined. `ref`
is the identity of the object: the number of Factory objects built before it. -/
structure ServiceFactory where
  ref : Nat
  construct : Ctor
  prereqArr : List (Option Nat)

/-- Modelled from the spec: ViviComponentFactory, which is not among the sources. It holds
the constructor and the resolved services, each a Factory object or undefined. -/
structure ComponentFactory where
  ref : Nat
  construct : Ctor
  serviceArr : List (Option Nat)

/-- The object under construction: the two Maps, and the number of Factory objects built
so far. -/
structure Build where
  services : JSMap String ServiceFactory
  components : JSMap String ComponentFactory
  next : Nat

/-- The expression `list.map(c => this.services.get(c.name))` for a list that is given, and
the empty array for one that is not. -/
def resolve (services : JSMap String ServiceFactory) (declared : Option (List Ctor)) :
    List (Option Nat) :=
  match declared with
  | some list => list.map (fun c => (services.get c.name).map (fun f => f.ref))
  | none => []

/-- The loop `Init Services`. -/
def initServices (serviceConstructors : List ServiceDescriptor) (b : Build) : Build :=
  serviceConstructors.foldl (fun b serviceConstructor =>
    { b with
      services := b.services.set serviceConstructor.constructor.name
        { ref := b.next, construct := serviceConstructor.constructor,
          prereqArr := resolve b.services serviceConstructor.prereqArr },
      next := b.next + 1 }) b

/-- The loop `Init Components`. -/
def initComponents (componentConstructors : List ComponentDescriptor) (b : Build) : Build :=
  componentConstructors.foldl (fun b constructor =>
    { b with
      components := b.components.set constructor.constructor.name
        { ref := b.next, construct := constructor.constructor,
          serviceArr := resolve b.services constructor.services },
      next := b.next + 1 }) b

/-- The list the loop `Init Services` runs over: the baked-in services first. -/
def mergedServices (loadViviServices : List ServiceDescriptor) (module : ViviFactoryConstructor) :
    List ServiceDescriptor :=
  match module.serviceConstructors with
  | none => loadViviServices
  | some serviceConstructors => loadViviServices ++ serviceConstructors

/-- The registry a Build holds. -/
def Build.registry (b : Build) : ModuleFactory ServiceFactory ComponentFactory :=
  { services := b.services, components := b.components }

/-- The constructor `new ModuleFactory(module)`. The list `loadViviServices` of the baked-in
services is not among the sources and is a parameter. The `get` of a Factory, `createRoot`
and `append` are calls on classes that are not among the sources: they are taken to
return, and `createRoot` to exist on a component Factory only. -/
def construct (loadViviServices : List ServiceDescriptor)
    (module : Option ViviFactoryConstructor) :
    Completion (ModuleFactory ServiceFactory ComponentFactory) :=
  match module with
  | none => .threw (.typeError "undefined has no properties")
  | some module =>
    let this : Build := { services := [], components := [], next := 0 }
    let this := initServices (mergedServices loadViviServices module) this
    -- const nodeTree = this.get(NodeTreeService)
    match getByString (fun _ _ => Completion.returned ()) (fun _ _ => Completion.returned ())
        "NodeTreeService" .undefined this.registry with
    | .threw e => .threw e
    | .returned _ =>
      match module.componentConstructors with
      | none => .threw (.typeError "undefined has no properties")
      | some componentConstructors =>
        let this := initComponents componentConstructors this
        match module.rootComponent with
        | none => .threw (.typeError "undefined has no properties")
        | some rootComponent =>
          match getFactory rootComponent this.registry with
          | .threw e => .threw e
          | .returned (.component _) => .returned this.registry
          | .returned (.service _) => .threw (.typeError "createRoot is not a function")
          | .returned .undefined => .threw (.typeError "undefined has no properties")

/-- The method `getComponentRegistry()`: `Array.from(this.components.keys())`. -/
def getComponentRegistry {SF CF : Type} (m : ModuleFactory SF CF) : List String :=
  m.components.entries.map Prod.fst

end TS

/-- A run of `set` calls on a Map, one for each pair of the list, in the order of the
list. -/
def JSMap.setAll {κ ν : Type} [DecidableEq κ] (l : List (κ × ν)) (m : JSMap κ ν) : JSMap κ ν :=
  l.foldl (fun m e => m.set e.1 e.2) m

/-! ## Sample inputs of the constructors -/

namespace Sample

/-- The event service that the comment of the constructor names next to the Logger. -/
def appEvent : Ctor := { name := "AppEvent", destroy := fun _ => .returned () }

/-- The Logger as a class without a parent. -/
def loggerClass : Class := { ref := 0, ctor := logger, parent := none }

/-- The event service as a class without a parent. -/
def appEventClass : Class := { ref := 1, ctor := appEvent, parent := none }

/-- A list of baked-in services for module-factory.js. -/
def baseline : List Class := [loggerClass, appEventClass]

/-- A service of the caller whose name does not end in Service. -/
def clock : Ctor := { name := "Clock", destroy := fun _ => .returned () }

/-- A class that extends the Logger. -/
def quietLogger : Class :=
  { ref := 2, ctor := { name := "QuietLogger", destroy := fun _ => .returned () },
    parent := some 0 }

/-- The three classes of the test file. -/
def mockComponent : Ctor := { name := "MockComponent", destroy := fun _ => .returned () }

def mockChildComponent : Ctor :=
  { name := "MockChildComponent", destroy := fun _ => .returned () }

def mockService : Ctor := { name := "MockService", destroy := fun _ => .returned () }

/-- A module for module-factory.js with one service, two components and a root. -/
def full : Module :=
  { serviceConstructors := some [mockService],
    componentConstructors := some [mockChildComponent, mockComponent],
    rootComponent := some (.ctor mockComponent) }

/-- A component class that bears the name of a service. -/
def clockPanel : Ctor := { name := "Clock", destroy := fun _ => .returned () }

/-- A module for module-factory.js whose second component bears the name of its
service. -/
def clash : Module :=
  { serviceConstructors := some [clock],
    componentConstructors := some [mockComponent, clockPanel] }

/-- The service that the constructor of module-factory.ts fetches. -/
def nodeTreeService : Ctor := { name := "NodeTreeService", destroy := fun _ => .returned () }

/-- A list of baked-in services for module-factory.ts. -/
def tsBaseline : List TS.ServiceDescriptor := [{ constructor := nodeTreeService }]

/-- The module of the test file, with the root component that module-factory.ts needs. -/
def tsFull : TS.ViviFactoryConstructor :=
  { serviceConstructors := some [{ constructor := mockService }],
    componentConstructors := some
      [{ constructor := mockChildComponent },
       { constructor := mockComponent, services := some [mockService] }],
    rootComponent := some mockComponent }

/-- A component class that bears the name of the service MockService. -/
def mockServicePanel : Ctor := { name := "MockService", destroy := fun _ => .returned () }

/-- A module for module-factory.ts whose second component bears the name of its service. -/
def tsNamesake : TS.ViviFactoryConstructor :=
  { serviceConstructors := some [{ constructor := mockService }],
    componentConstructors := some
      [{ constructor := mockComponent }, { constructor := mockServicePanel }],
    rootComponent := some mockComponent }

/-- A module for module-factory.ts with a service whose name does not end in Service. -/
def tsClock : TS.ViviFactoryConstructor :=
  { serviceConstructors := some [{ constructor := clock }],
    componentConstructors := some [{ constructor := mockComponent }],
    rootComponent := some mockComponent }

end Sample

/-! ## Cleanup hooks that call back into their Factory -/

/-- What a run has left to do: the method `destroy(id)`, the calls that a cleanup hook
still makes on its own Factory before it ends, or the loop of `destroyAll` from slot `i`
on. -/
inductive Job
  | destroy (id : JSValue)
  | hook (cs : List Call)
  | forEach (i : Nat)

/-- The methods `destroy` and `destroyAll` for cleanup hooks that call back. `script inst`
is the list of the calls that the `destroy()` hook of `inst` makes on the Factory that
holds it, in order; the hook then ends as `Ctor.destroy` says, and a call that throws
inside the hook ends the hook with that error. The slot list is read afresh at every
step of the loop, as `Map.prototype.forEach` does, so that an entry a hook appends is
walked too and one a hook empties is passed over. `none` means that the fuel ran out. -/
def exec (script : Instance → List Call) :
    Nat → Job → Factory → Option (Completion Unit × Factory)
  | 0, _, _ => none
  | fuel + 1, .destroy id, s =>
    match s.get id with
    | (.threw e, s1) => some (.threw e, s1)
    | (.returned (.inst inst), s1) =>
      let s2 : Factory := { s1 with trace := s1.trace ++ [.cleanup inst] }
      match exec script fuel (.hook (script inst)) s2 with
      | none => none
      | some (.threw e, s3) => some (.threw e, s3)
      | some (.returned _, s3) =>
        match s3.construct.destroy inst with
        | .threw e => some (.threw e, s3)
        | .returned _ => some (.returned (), { s3 with instances := s3.instances.delete id })
    | (.returned _, s1) =>
      some (s1.report
        (fun text => .warn ("Error destroying instance " ++ text ++ ". Id does not exist in factory."))
        id)
  | _ + 1, .hook [], s => some (.returned (), s)
  | fuel + 1, .hook (.create data :: cs), s => exec script fuel (.hook cs) (s.create data).2
  | fuel + 1, .hook (.get id :: cs), s =>
    match s.get id with
    | (.threw e, s1) => some (.threw e, s1)
    | (.returned _, s1) => exec script fuel (.hook cs) s1
  | fuel + 1, .hook (.destroy id :: cs), s =>
    match exec script fuel (.destroy id) s with
    | none => none
    | some (.threw e, s1) => some (.threw e, s1)
    | some (.returned _, s1) => exec script fuel (.hook cs) s1
  | fuel + 1, .forEach i, s =>
    match s.instances[i]? with
    | none => some (.returned (), s)
    | some none => exec script fuel (.forEach (i + 1)) s
    | some (some (_, inst)) =>
      match exec script fuel (.destroy inst.id) s with
      | none => none
      | some (.threw e, s1) => some (.threw e, s1)
      | some (.returned _, s1) => exec script fuel (.forEach (i + 1)) s1

/-- The method `destroyAll()` for cleanup hooks that call back, with the given fuel. -/
def destroyAllWith (script : Instance → List Call) (fuel : Nat) (s : Factory) :
    Option (Completion Unit × Factory) :=
  exec script fuel (.forEach 0) s

/-- The calls of a client one after the other, for cleanup hooks that call back. A client
may catch what a call throws and go on; `none` means that a `destroy` call did not end
within the fuel. -/
def runWith (script : Instance → List Call) (fuel : Nat) : List Call → Factory → Option Factory
  | [], s => some s
  | .create data :: cs, s => runWith script fuel cs (s.create data).2
  | .get id :: cs, s => runWith script fuel cs (s.get id).2
  | .destroy id :: cs, s =>
    match exec script fuel (.destroy id) s with
    | none => none
    | some (_, t) => runWith script fuel cs t

/-- What every call on a Factory leaves in place, from the state `s` before to the state
`t` after: the invariant, the constructor and the registry; the counter does not fall; and
an instance with an id below the counter that is not live in `s` is not live in `t`. -/
def Keeps (s t : Factory) : Prop :=
  Inv t ∧ s.counter ≤ t.counter ∧ t.construct = s.construct ∧ t.vivi = s.vivi ∧
  ∀ (y : Instance) (n : Nat), y.id = .num n → n < s.counter → y ∉ s.instances.values →
    y ∉ t.instances.values

namespace Sample

/-- Cleanup hooks of which the one of an instance with the data null creates an instance
in the same Factory. -/
def regrow (inst : Instance) : List Call :=
  if inst.data = .null then [.create .undefined] else []

/-- Cleanup hooks that each create an instance in the same Factory. -/
def hydra (_inst : Instance) : List Call := [.create .undefined]

/-- Cleanup hooks of which the one of the first instance destroys the second. -/
def sweep (inst : Instance) : List Call :=
  if inst.id = .num 1 then [.destroy (.num 2)] else []

/-- The instance that a third create call returns. -/
def third : Instance := { id := .num 3, data := .undefined }

end Sample

/-! ## Sample inputs with prerequisites -/

namespace Sample

/-- Two services of the caller; the second declares prerequisites. -/
def clockService : Ctor := { name := "ClockService", destroy := fun _ => .returned () }

def alarmService : Ctor := { name := "AlarmService", destroy := fun _ => .returned () }

/-- A module for module-factory.ts whose services are declared in dependency order. -/
def tsOrdered : TS.ViviFactoryConstructor :=
  { serviceConstructors := some
      [{ constructor := clockService },
       { constructor := alarmService, prereqArr := some [clockService, nodeTreeService] }],
    componentConstructors := some [{ constructor := mockComponent }],
    rootComponent := some mockComponent }

/-- A module for module-factory.ts whose first service declares the second, which comes
later, as its prerequisite. -/
def tsLate : TS.ViviFactoryConstructor :=
  { serviceConstructors := some
      [{ constructor := alarmService, prereqArr := some [clockService] },
       { constructor := clockService }],
    componentConstructors := some [{ constructor := mockComponent }],
    rootComponent := some mockComponent }

end Sample

/-! ## Facts about the Map -/

open Sample

namespace JSMap
variable {κ ν : Type}

@[simp]
theorem entries_nil : entries ([] : JSMap κ ν) = [] := rfl

@[simp]
theorem entries_cons_none (m : JSMap κ ν) : entries (none :: m) = entries m := by
  simp [entries, List.reduceOption_cons_of_none]

@[simp]
theorem entries_cons_some (e : κ × ν) (m : JSMap κ ν) :
    entries (some e :: m) = e :: entries m := by
  simp [entries, List.reduceOption_cons_of_some]

variable [DecidableEq κ]

theorem get_eq_none_iff (k : κ) (m : JSMap κ ν) :
    get k m = none ↔ ∀ e ∈ entries m, e.1 ≠ k := by
  induction m with
  | nil => simp [get]
  | cons a m ih =>
    cases a with
    | none => simpa [get] using ih
    | some e =>
      obtain ⟨k', v⟩ := e
      by_cases h : k' = k
      · simp [get, h]
      · simp [get, h, ih]

theorem mem_of_get_eq_some {k : κ} {v : ν} {m : JSMap κ ν} (h : get k m = some v) :
    (k, v) ∈ entries m := by
  induction m with
  | nil => simp [get] at h
  | cons a m ih =>
    cases a with
    | none => simpa [get] using ih (by simpa [get] using h)
    | some e =>
      obtain ⟨k', v'⟩ := e
      by_cases hk : k' = k
      · simp [get, hk] at h
        simp [hk, h]
      · simp [get, hk] at h
        simp [ih h]

theorem get_of_mem {k : κ} {v : ν} {m : JSMap κ ν}
    (hd : (entries m).Pairwise (fun a b => a.1 ≠ b.1)) (h : (k, v) ∈ entries m) :
    get k m = some v := by
  induction m with
  | nil => simp at h
  | cons a m ih =>
    cases a with
    | none => simpa [get] using ih (by simpa using hd) (by simpa using h)
    | some e =>
      obtain ⟨k', v'⟩ := e
      simp only [entries_cons_some, List.pairwise_cons, List.mem_cons] at hd h
      by_cases hk : k' = k
      · rcases h with h | h
        · simp [get, hk]
          exact (Prod.mk.inj h).2.symm
        · exact absurd hk (hd.1 _ h)
      · rcases h with h | h
        · exact absurd (Prod.mk.inj h).1.symm hk
        · simp [get, hk, ih hd.2 h]

theorem entries_set_of_absent (k : κ) (v : ν) (m : JSMap κ ν)
    (h : ∀ e ∈ entries m, e.1 ≠ k) : entries (set k v m) = entries m ++ [(k, v)] := by
  induction m with
  | nil => simp [set]
  | cons a m ih =>
    cases a with
    | none => simpa [set] using ih (by simpa using h)
    | some e =>
      obtain ⟨k', v'⟩ := e
      simp only [entries_cons_some, List.mem_cons, forall_eq_or_imp] at h
      simp [set, h.1, ih h.2]

theorem entries_delete (k : κ) (m : JSMap κ ν)
    (hd : (entries m).Pairwise (fun a b => a.1 ≠ b.1)) :
    entries (delete k m) = (entries m).filter (fun e => decide (e.1 ≠ k)) := by
  induction m with
  | nil => simp [delete]
  | cons a m ih =>
    cases a with
    | none => simpa [delete] using ih (by simpa using hd)
    | some e =>
      obtain ⟨k', v'⟩ := e
      simp only [entries_cons_some, List.pairwise_cons] at hd
      by_cases hk : k' = k
      · subst hk
        simp [delete]
        symm
        rw [List.filter_eq_self]
        intro e he
        simpa using fun h => hd.1 e he h.symm
      · simp [delete, hk, ih hd.2]

@[simp]
theorem length_delete (k : κ) (m : JSMap κ ν) : (delete k m).length = m.length := by
  induction m with
  | nil => rfl
  | cons a m ih =>
    cases a with
    | none => simp [delete, ih]
    | some e =>
      obtain ⟨k', v'⟩ := e
      by_cases hk : k' = k <;> simp [delete, hk, ih]

end JSMap

/-! ## Facts about the Factory methods -/

theorem Inv.congr {s t : Factory} (hc : t.counter = s.counter) (hi : t.instances = s.instances)
    (h : Inv s) : Inv t := by
  simpa [Inv, hc, hi] using h

theorem Inv.delete {s t : Factory} (k : JSValue) (hc : t.counter = s.counter)
    (hi : t.instances = s.instances.delete k) (h : Inv s) : Inv t := by
  obtain ⟨h1, h2, h3⟩ := h
  refine ⟨by omega, ?_, ?_⟩
  · rw [hi, JSMap.entries_delete k _ h2]
    exact h2.sublist (List.filter_sublist _)
  · rw [hi, JSMap.entries_delete k _ h2, hc]
    intro e he
    exact h3 e (List.mem_filter.mp he).1

namespace Factory

theorem inv_fresh (c : Ctor) (v : ViviView) : Inv (fresh c v) := by
  simp [Inv, fresh]

theorem get_of_falsy {id : JSValue} (s : Factory) (h : id.truthy = false) :
    s.get id = (.returned s.latest, s) := by
  simp [get, h]

theorem get_of_found {id : JSValue} {x : Instance} (s : Factory) (h : id.truthy = true)
    (hx : s.instances.get id = some x) : s.get id = (.returned (.inst x), s) := by
  simp [get, h, hx]

theorem report_of_text {id : JSValue} {text : String} (mk : String → Event) (s : Factory)
    (htx : id.toJSString = .returned text) :
    s.report mk id =
      match s.vivi.logger with
      | .sink => (.returned (), { s with trace := s.trace ++ [mk text] })
      | .null => (.threw (.typeError "null has no properties"), s)
      | .threw e => (.threw e, s) := by
  simp only [report, htx]

theorem report_of_unprintable {id : JSValue} {e : JSError} (mk : String → Event) (s : Factory)
    (htx : id.toJSString = .threw e) :
    s.report mk id =
      match s.vivi.logger with
      | .sink => (.threw e, s)
      | .null => (.threw (.typeError "null has no properties"), s)
      | .threw e' => (.threw e', s) := by
  simp only [report, htx]

theorem report_fields (mk : String → Event) (id : JSValue) (s : Factory) :
    (s.report mk id).2.instances = s.instances ∧ (s.report mk id).2.counter = s.counter ∧
    (s.report mk id).2.construct = s.construct ∧ (s.report mk id).2.vivi = s.vivi := by
  cases htx : id.toJSString with
  | returned text => rw [report_of_text mk s htx]; cases s.vivi.logger <;> simp
  | threw e => rw [report_of_unprintable mk s htx]; cases s.vivi.logger <;> simp

/-- A value that is falsy prints. -/
theorem toJSString_of_falsy {id : JSValue} (h : id.truthy = false) :
    ∃ text, id.toJSString = .returned text := by
  cases id with
  | bool b => cases b <;> exact ⟨_, rfl⟩
  | symbol r => simp [JSValue.truthy] at h
  | obj r p => simp [JSValue.truthy] at h
  | _ => exact ⟨_, rfl⟩

theorem get_of_missing {id : JSValue} {text : String} (s : Factory) (h : id.truthy = true)
    (hx : s.instances.get id = none) (htx : id.toJSString = .returned text) :
    s.get id =
      match s.vivi.logger with
      | .sink => (.returned .undefined, { s with trace := s.trace ++
          [.error (s.construct.name ++ ": No instance found with id: " ++ text)] })
      | .null => (.threw (.typeError "null has no properties"), s)
      | .threw e => (.threw e, s) := by
  simp only [get, h, hx, report_of_text _ s htx]
  cases s.vivi.logger <;> rfl

/-- With an id that no live instance has and that does not print, `get(id)` throws: what
the lookup of the Logger throws, or else what the conversion throws. -/
theorem get_of_unprintable {id : JSValue} {e : JSError} (s : Factory) (h : id.truthy = true)
    (hx : s.instances.get id = none) (htx : id.toJSString = .threw e) :
    s.get id =
      match s.vivi.logger with
      | .sink => (.threw e, s)
      | .null => (.threw (.typeError "null has no properties"), s)
      | .threw e' => (.threw e', s) := by
  simp only [get, h, hx, report_of_unprintable _ s htx]
  cases s.vivi.logger <;> rfl

/-- With a truthy id that no live instance has, `get(id)` returns no instance. -/
theorem get_of_not_live_ne {id : JSValue} (s : Factory) (h : id.truthy = true)
    (hx : s.instances.get id = none) (y : Instance) :
    (s.get id).1 ≠ .returned (.inst y) := by
  cases htx : id.toJSString with
  | returned text => rw [get_of_missing s h hx htx]; cases s.vivi.logger <;> simp
  | threw e => rw [get_of_unprintable s h hx htx]; cases s.vivi.logger <;> simp

/-- Whatever `get` does, it leaves every field but the trace alone. -/
theorem get_fields (id : JSValue) (s : Factory) :
    (s.get id).2.instances = s.instances ∧ (s.get id).2.counter = s.counter ∧
    (s.get id).2.construct = s.construct ∧ (s.get id).2.vivi = s.vivi := by
  cases h : id.truthy
  · simp [get_of_falsy s h]
  · cases hx : s.instances.get id with
    | some x => simp [get_of_found s h hx]
    | none =>
      cases htx : id.toJSString with
      | returned text => rw [get_of_missing s h hx htx]; cases s.vivi.logger <;> simp
      | threw e => rw [get_of_unprintable s h hx htx]; cases s.vivi.logger <;> simp

theorem latest_eq (s : Factory) :
    s.latest = match s.instances.values.getLast? with
      | some x => .inst x
      | none => .null := by
  unfold latest
  have hsz : s.instances.size = s.instances.values.length := by simp [JSMap.size, JSMap.values]
  rw [List.getLast?_eq_getElem?, hsz]
  split
  · next h => simp [List.length_eq_zero.mp h]
  · rfl

theorem destroy_of_found_returned {id : JSValue} {x : Instance} (s : Factory)
    (h : id.truthy = true) (hx : s.instances.get id = some x)
    (hk : s.construct.destroy x = .returned ()) :
    s.destroy id = (.returned (), { s with trace := s.trace ++ [.cleanup x],
                                           instances := s.instances.delete id }) := by
  simp [destroy, get_of_found s h hx, hk]

theorem destroy_of_found_threw {id : JSValue} {x : Instance} {e : JSError} (s : Factory)
    (h : id.truthy = true) (hx : s.instances.get id = some x)
    (hk : s.construct.destroy x = .threw e) :
    s.destroy id = (.threw e, { s with trace := s.trace ++ [.cleanup x] }) := by
  simp [destroy, get_of_found s h hx, hk]

theorem destroy_of_missing {id : JSValue} {text : String} (s : Factory) (h : id.truthy = true)
    (hx : s.instances.get id = none) (htx : id.toJSString = .returned text) :
    s.destroy id =
      match s.vivi.logger with
      | .sink => (.returned (), { s with trace := s.trace ++
          [.error (s.construct.name ++ ": No instance found with id: " ++ text),
           .warn ("Error destroying instance " ++ text ++
             ". Id does not exist in factory.")] })
      | .null => (.threw (.typeError "null has no properties"), s)
      | .threw e => (.threw e, s) := by
  simp only [destroy, get_of_missing s h hx htx]
  cases hl : s.vivi.logger <;> simp [hl, report_of_text _ _ htx]

/-- With an id that no live instance has and that does not print, `destroy(id)` throws
what its `get(id)` throws, and nothing is reported. -/
theorem destroy_of_unprintable {id : JSValue} {e : JSError} (s : Factory)
    (h : id.truthy = true) (hx : s.instances.get id = none) (htx : id.toJSString = .threw e) :
    s.destroy id =
      match s.vivi.logger with
      | .sink => (.threw e, s)
      | .null => (.threw (.typeError "null has no properties"), s)
      | .threw e' => (.threw e', s) := by
  simp only [destroy, get_of_unprintable s h hx htx]
  cases hl : s.vivi.logger <;> simp [hl]

theorem destroy_fields (id : JSValue) (s : Factory) :
    ((s.destroy id).2.instances = s.instances ∨
      (s.destroy id).2.instances = s.instances.delete id) ∧
    (s.destroy id).2.counter = s.counter ∧
    (s.destroy id).2.construct = s.construct ∧ (s.destroy id).2.vivi = s.vivi := by
  obtain ⟨g1, g2, g3, g4⟩ := get_fields id s
  unfold destroy
  rcases hg : s.get id with ⟨r, s1⟩
  rw [hg] at g1 g2 g3 g4
  simp only at g1 g2 g3 g4
  cases r with
  | threw e => simp [g1, g2, g3, g4]
  | returned f =>
    cases f with
    | inst x =>
      simp only
      cases s1.construct.destroy x <;> simp [g1, g2, g3, g4]
    | null =>
      obtain ⟨l1, l2, l3, l4⟩ := report_fields
        (fun text => .warn ("Error destroying instance " ++ text ++ ". Id does not exist in factory."))
        id s1
      simp [l1, l2, l3, l4, g1, g2, g3, g4]
    | undefined =>
      obtain ⟨l1, l2, l3, l4⟩ := report_fields
        (fun text => .warn ("Error destroying instance " ++ text ++ ". Id does not exist in factory."))
        id s1
      simp [l1, l2, l3, l4, g1, g2, g3, g4]

theorem create_eq (data : JSValue) (s : Factory) :
    s.create data = (⟨.num s.counter, data⟩,
      { s with counter := s.counter + 1,
               instances := s.instances.set (.num s.counter) ⟨.num s.counter, data⟩ }) := rfl

theorem entries_create (data : JSValue) (s : Factory) (h : Inv s) :
    (s.create data).2.instances.entries =
      s.instances.entries ++ [(.num s.counter, ⟨.num s.counter, data⟩)] := by
  rw [create_eq]
  apply JSMap.entries_set_of_absent
  intro e he hk
  obtain ⟨_, n, hn, _, hlt⟩ := h.2.2 e he
  rw [hn] at hk
  have := JSValue.num.inj hk
  omega

theorem inv_create (data : JSValue) (s : Factory) (h : Inv s) : Inv (s.create data).2 := by
  have he := entries_create data s h
  obtain ⟨h1, h2, h3⟩ := h
  refine ⟨by simp [create_eq], ?_, ?_⟩
  · rw [he, List.pairwise_append]
    refine ⟨h2, by simp, ?_⟩
    intro a ha b hb
    simp only [List.mem_singleton] at hb
    subst hb
    obtain ⟨_, n, hn, _, hlt⟩ := h3 a ha
    rw [hn]
    intro hk
    have := JSValue.num.inj hk
    omega
  · rw [he]
    intro e he'
    rcases List.mem_append.mp he' with he' | he'
    · obtain ⟨ha, n, hn, h1n, hlt⟩ := h3 e he'
      exact ⟨ha, n, hn, h1n, by simp [create_eq]; omega⟩
    · simp only [List.mem_singleton] at he'
      subst he'
      exact ⟨rfl, s.counter, rfl, h1, by simp [create_eq]⟩

theorem inv_get (id : JSValue) (s : Factory) (h : Inv s) : Inv (s.get id).2 :=
  h.congr (get_fields id s).2.1 (get_fields id s).1

theorem inv_destroy (id : JSValue) (s : Factory) (h : Inv s) : Inv (s.destroy id).2 := by
  obtain ⟨hi, hc, _, _⟩ := destroy_fields id s
  rcases hi with hi | hi
  · exact h.congr hc hi
  · exact h.delete id hc hi

end Factory

theorem inv_step (c : Call) (s : Factory) (h : Inv s) : Inv (c.step s) := by
  cases c with
  | create d => exact Factory.inv_create d s h
  | get id => exact Factory.inv_get id s h
  | destroy id => exact Factory.inv_destroy id s h

theorem inv_run (cs : List Call) (s : Factory) (h : Inv s) : Inv (run cs s) := by
  induction cs generalizing s with
  | nil => exact h
  | cons c cs ih => exact ih _ (inv_step c s h)

/-! ## C1: the identifiers that create hands out -/

theorem step_counter (c : Call) (s : Factory) :
    (c.step s).counter = s.counter + (match c with | .create _ => 1 | _ => 0) := by
  cases c with
  | create d => rfl
  | get id => exact (Factory.get_fields id s).2.1
  | destroy id => exact (Factory.destroy_fields id s).2.1

theorem made_ids (cs : List Call) (s : Factory) :
    (made cs s).map (·.id) =
      (List.range (made cs s).length).map (fun k => JSValue.num ((s.counter + k : Nat) : Int)) ∧
    (run cs s).counter = s.counter + (made cs s).length := by
  induction cs generalizing s with
  | nil => simp [made, run]
  | cons c cs ih =>
    cases c with
    | create d =>
      obtain ⟨h1, h2⟩ := ih (s.create d).2
      simp only [made, run, Call.step, List.map_cons, List.length_cons, List.range_succ_eq_map,
        List.map_map, h1, h2]
      refine ⟨?_, by simp [Factory.create_eq]; omega⟩
      simp [Factory.create_eq, Function.comp_def]
      intro a _
      omega
    | get id =>
      obtain ⟨h1, h2⟩ := ih ((Call.get id).step s)
      have hc := step_counter (.get id) s
      simp only [made, run]
      rw [h1, h2, hc]
      simp
    | destroy id =>
      obtain ⟨h1, h2⟩ := ih ((Call.destroy id).step s)
      have hc := step_counter (.destroy id) s
      simp only [made, run]
      rw [h1, h2, hc]
      simp

/-- C1. On a freshly constructed Factory, whatever create, get and destroy calls are made
and in whatever order, the k-th create call hands out the identifier k: the identifiers of
the returned instances are 1, 2, 3, ... in creation order, hence pairwise distinct and
strictly increasing, and none is handed out again after a destroy; the counter ends at
the number of create calls plus one. -/
theorem create_ids_count_up (c : Ctor) (v : ViviView) (cs : List Call) :
    (made cs (Factory.fresh c v)).map (·.id) =
      (List.range (made cs (Factory.fresh c v)).length).map (fun (k : Nat) => JSValue.num ((k : Int) + 1)) ∧
    ((made cs (Factory.fresh c v)).map (·.id)).Nodup ∧
    (made cs (Factory.fresh c v)).Pairwise
      (fun a b => ∃ m n : Int, a.id = .num m ∧ b.id = .num n ∧ m < n) ∧
    (reached c v cs).counter = (made cs (Factory.fresh c v)).length + 1 := by
  unfold reached
  obtain ⟨h1, h2⟩ := made_ids cs (Factory.fresh c v)
  have h1' : (made cs (Factory.fresh c v)).map (·.id) =
      (List.range (made cs (Factory.fresh c v)).length).map
        (fun (k : Nat) => JSValue.num ((k : Int) + 1)) := by
    rw [h1]
    apply List.map_congr_left
    intro k _
    simp [Factory.fresh]
    omega
  refine ⟨h1', ?_, ?_, by rw [h2]; simp [Factory.fresh]; omega⟩
  · rw [h1']
    apply List.Nodup.map _ (List.nodup_range _)
    intro a b hab
    have := JSValue.num.inj hab
    omega
  · have : ((made cs (Factory.fresh c v)).map (·.id)).Pairwise
        (fun a b => ∃ m n : Int, a = .num m ∧ b = .num n ∧ m < n) := by
      rw [h1', List.pairwise_map]
      apply (List.pairwise_lt_range _).imp
      intro a b hab
      exact ⟨_, _, rfl, rfl, by omega⟩
    rwa [List.pairwise_map] at this

/-! ## C2: get without an id -/

theorem filter_mem_of_sublist {α : Type} [DecidableEq α] {l₁ l₂ : List α}
    (h : l₁.Sublist l₂) (hn : l₂.Nodup) : l₂.filter (fun x => decide (x ∈ l₁)) = l₁ := by
  induction h with
  | slnil => rfl
  | cons a h ih =>
    rename_i k₁ k₂
    have ha : a ∉ k₁ := fun hm => (List.nodup_cons.mp hn).1 (h.subset hm)
    simp [List.filter_cons, ha, ih (List.nodup_cons.mp hn).2]
  | cons₂ a h ih =>
    rename_i k₁ k₂
    have ha : a ∉ k₂ := (List.nodup_cons.mp hn).1
    have : k₂.filter (fun x => decide (x ∈ a :: k₁)) = k₂.filter (fun x => decide (x ∈ k₁)) := by
      apply List.filter_congr
      intro x hx
      have : x ≠ a := fun hxa => ha (hxa ▸ hx)
      simp [this]
    rw [List.filter_cons, if_pos (by simp), this, ih (List.nodup_cons.mp hn).2]

namespace Factory

theorem values_create (data : JSValue) (s : Factory) (h : Inv s) :
    (s.create data).2.instances.values = s.instances.values ++ [(s.create data).1] := by
  have he := entries_create data s h
  simp only [JSMap.values, he, List.map_append]
  rfl

theorem values_delete_sublist (k : JSValue) (s : Factory) (h : Inv s) :
    (s.instances.delete k).values.Sublist s.instances.values := by
  simp only [JSMap.values, JSMap.entries_delete k _ h.2.1]
  exact (List.filter_sublist _).map _

theorem values_destroy_sublist (id : JSValue) (s : Factory) (h : Inv s) :
    (s.destroy id).2.instances.values.Sublist s.instances.values := by
  rcases (destroy_fields id s).1 with hi | hi
  · rw [hi]
  · rw [hi]; exact values_delete_sublist id s h

end Factory

/-- The live instances of a run are, in their Map order, a sublist of the instances
created so far, in the order they were created. -/
theorem values_sublist_made (cs : List Call) (s : Factory) (pre : List Instance)
    (h : Inv s) (hs : s.instances.values.Sublist pre)
    (hp : ∀ x ∈ pre, ∃ n : Nat, x.id = .num n ∧ n < s.counter) (hn : pre.Nodup) :
    (run cs s).instances.values.Sublist (pre ++ made cs s) ∧ (pre ++ made cs s).Nodup := by
  induction cs generalizing s pre with
  | nil => simpa [run, made] using ⟨hs, hn⟩
  | cons c cs ih =>
    cases c with
    | create d =>
      have key := ih (s.create d).2 (pre ++ [(s.create d).1]) (Factory.inv_create d s h)
        (by rw [Factory.values_create d s h]; exact hs.append (List.Sublist.refl _))
        (by
          intro x hx
          rcases List.mem_append.mp hx with hx | hx
          · obtain ⟨n, hn1, hn2⟩ := hp x hx
            exact ⟨n, hn1, by simp [Factory.create_eq]; omega⟩
          · simp only [List.mem_singleton] at hx
            subst hx
            exact ⟨s.counter, rfl, by simp [Factory.create_eq]⟩)
        (by
          rw [List.nodup_append]
          refine ⟨hn, List.nodup_singleton _, ?_⟩
          intro x hx hx'
          simp only [List.mem_singleton] at hx'
          subst hx'
          obtain ⟨n, hn1, hn2⟩ := hp _ hx
          simp only [Factory.create_eq] at hn1
          have := JSValue.num.inj hn1
          omega)
      simpa [run, made, Call.step, List.append_assoc] using key
    | get id =>
      have key := ih ((Call.get id).step s) pre (inv_step _ s h)
        (by simpa [Call.step, (Factory.get_fields id s).1] using hs)
        (by simpa [Call.step, (Factory.get_fields id s).2.1] using hp) hn
      simpa [run, made] using key
    | destroy id =>
      have key := ih ((Call.destroy id).step s) pre (inv_step _ s h)
        ((Factory.values_destroy_sublist id s h).trans hs)
        (by simpa [Call.step, (Factory.destroy_fields id s).2.1] using hp) hn
      simpa [run, made] using key

/-- C2. In every state a fresh Factory reaches by create, get and destroy calls, `get()`
without an id returns the instance that was created last among those still live (the
last, in creation order, of the created instances that are still in the Map), it returns
null when no instance is live, and it changes nothing. -/
theorem get_without_id_returns_latest_live (c : Ctor) (v : ViviView) (cs : List Call) :
    (reached c v cs).get .undefined =
      (.returned
        (match ((made cs (Factory.fresh c v)).filter
            (fun x => decide (x ∈ (reached c v cs).instances.values))).getLast? with
          | some x => .inst x
          | none => .null),
        reached c v cs) ∧
    ((reached c v cs).instances.values = [] →
      ((reached c v cs).get .undefined).1 = .returned .null) := by
  unfold reached
  obtain ⟨h1, h2⟩ := values_sublist_made cs (Factory.fresh c v) [] (Factory.inv_fresh c v)
    (by simp [Factory.fresh, JSMap.values]) (by simp) List.nodup_nil
  simp only [List.nil_append] at h1 h2
  rw [filter_mem_of_sublist h1 h2, @Factory.get_of_falsy .undefined _ rfl, Factory.latest_eq]
  refine ⟨rfl, ?_⟩
  intro h
  simp [h]

/-! ## Facts about cleanup hooks that call back -/

/-- One step of `destroy(id)`. -/
theorem exec_destroy_succ (script : Instance → List Call) (fuel : Nat) (id : JSValue)
    (s : Factory) :
    exec script (fuel + 1) (.destroy id) s =
      match s.get id with
      | (.threw e, s1) => some (.threw e, s1)
      | (.returned (.inst inst), s1) =>
        match exec script fuel (.hook (script inst))
            { s1 with trace := s1.trace ++ [.cleanup inst] } with
        | none => none
        | some (.threw e, s3) => some (.threw e, s3)
        | some (.returned _, s3) =>
          match s3.construct.destroy inst with
          | .threw e => some (.threw e, s3)
          | .returned _ =>
            some (.returned (), { s3 with instances := s3.instances.delete id })
      | (.returned _, s1) =>
        some (s1.report
          (fun text => .warn ("Error destroying instance " ++ text ++ ". Id does not exist in factory."))
          id) := rfl

/-- One step of the calls of a hook. -/
theorem exec_hook_succ (script : Instance → List Call) (fuel : Nat) (cs : List Call)
    (s : Factory) :
    exec script (fuel + 1) (.hook cs) s =
      match cs with
      | [] => some (.returned (), s)
      | .create data :: cs => exec script fuel (.hook cs) (s.create data).2
      | .get id :: cs =>
        match s.get id with
        | (.threw e, s1) => some (.threw e, s1)
        | (.returned _, s1) => exec script fuel (.hook cs) s1
      | .destroy id :: cs =>
        match exec script fuel (.destroy id) s with
        | none => none
        | some (.threw e, s1) => some (.threw e, s1)
        | some (.returned _, s1) => exec script fuel (.hook cs) s1 := by
  cases cs with
  | nil => rfl
  | cons c cs => cases c <;> rfl

/-- One step of the loop of `destroyAll`. -/
theorem exec_forEach_succ (script : Instance → List Call) (fuel i : Nat) (s : Factory) :
    exec script (fuel + 1) (.forEach i) s =
      match s.instances[i]? with
      | none => some (.returned (), s)
      | some none => exec script fuel (.forEach (i + 1)) s
      | some (some (_, inst)) =>
        match exec script fuel (.destroy inst.id) s with
        | none => none
        | some (.threw e, s1) => some (.threw e, s1)
        | some (.returned _, s1) => exec script fuel (.forEach (i + 1)) s1 := rfl

/-- With a hook that makes no call, `destroy(id)` of a live instance is the method of the
Factory. -/
theorem exec_destroy_of_found (script : Instance → List Call) (fuel : Nat) {id : JSValue}
    {x : Instance} (s : Factory) (h : id.truthy = true) (hx : s.instances.get id = some x)
    (hs : script x = []) :
    exec script (fuel + 2) (.destroy id) s = some (s.destroy id) := by
  simp only [exec, Factory.destroy, Factory.get_of_found s h hx, hs]
  cases s.construct.destroy x <;> rfl

/-- When `get(id)` returns no instance, no hook runs: `destroy(id)` is the method of the
Factory, whatever the hooks do. -/
theorem exec_destroy_of_not_found (script : Instance → List Call) (fuel : Nat) {id : JSValue}
    (s : Factory) (h : ∀ y, (s.get id).1 ≠ .returned (.inst y)) :
    exec script (fuel + 1) (.destroy id) s = some (s.destroy id) := by
  rw [exec_destroy_succ, Factory.destroy]
  rcases hg : s.get id with ⟨r, s1⟩
  rw [hg] at h
  cases r with
  | threw e => rfl
  | returned f =>
    cases f with
    | inst y => exact absurd rfl (h y)
    | null => rfl
    | undefined => rfl

theorem Keeps.refl {s : Factory} (h : Inv s) : Keeps s s :=
  ⟨h, Nat.le_refl _, rfl, rfl, fun _ _ _ _ hy => hy⟩

theorem Keeps.trans {s t u : Factory} (h1 : Keeps s t) (h2 : Keeps t u) : Keeps s u := by
  obtain ⟨_, a2, a3, a4, a5⟩ := h1
  obtain ⟨b1, b2, b3, b4, b5⟩ := h2
  refine ⟨b1, by omega, by rw [b3, a3], by rw [b4, a4], ?_⟩
  intro y n hn hlt hy
  exact b5 y n hn (by omega) (a5 y n hn hlt hy)

theorem Keeps.of_fields {s t : Factory} (h : Inv s) (hi : t.instances = s.instances)
    (hc : t.counter = s.counter) (hcon : t.construct = s.construct) (hv : t.vivi = s.vivi) :
    Keeps s t :=
  ⟨h.congr hc hi, by omega, hcon, hv, fun _ _ _ _ hy => by rw [hi]; exact hy⟩

theorem Keeps.of_delete {s t : Factory} (k : JSValue) (h : Inv s)
    (hi : t.instances = s.instances.delete k) (hc : t.counter = s.counter)
    (hcon : t.construct = s.construct) (hv : t.vivi = s.vivi) : Keeps s t := by
  refine ⟨h.delete k hc hi, by omega, hcon, hv, ?_⟩
  intro y _ _ _ hy hm
  rw [hi] at hm
  exact hy ((Factory.values_delete_sublist k s h).subset hm)

theorem Keeps.of_create (data : JSValue) (s : Factory) (h : Inv s) :
    Keeps s (s.create data).2 := by
  refine ⟨Factory.inv_create data s h, by simp [Factory.create_eq], rfl, rfl, ?_⟩
  intro y n hn hlt hy
  rw [Factory.values_create data s h]
  simp only [List.mem_append, List.mem_singleton, not_or]
  refine ⟨hy, ?_⟩
  intro heq
  rw [heq, Factory.create_eq] at hn
  have := JSValue.num.inj hn
  omega

theorem Keeps.of_get (id : JSValue) (s : Factory) (h : Inv s) : Keeps s (s.get id).2 :=
  Keeps.of_fields h (Factory.get_fields id s).1 (Factory.get_fields id s).2.1
    (Factory.get_fields id s).2.2.1 (Factory.get_fields id s).2.2.2

/-- Whatever the hooks do, a call that ends keeps the invariant, the constructor and the
registry of the Factory, does not lower the counter, and brings no instance back. -/
theorem exec_keeps (script : Instance → List Call) (fuel : Nat) :
    ∀ (job : Job) (s : Factory) (r : Completion Unit) (t : Factory),
      exec script fuel job s = some (r, t) → Inv s → Keeps s t := by
  induction fuel with
  | zero =>
    intro job s r t h
    simp [exec] at h
  | succ fuel ih =>
    have hdestroy : ∀ (id : JSValue) (s : Factory) (r : Completion Unit) (t : Factory),
        exec script (fuel + 1) (.destroy id) s = some (r, t) → Inv s → Keeps s t := by
      intro id s r t h hinv
      rw [exec_destroy_succ] at h
      have kg := Keeps.of_get id s hinv
      rcases hg : s.get id with ⟨g, s1⟩
      rw [hg] at h kg
      simp only at kg
      cases g with
      | threw e =>
        simp only [Option.some.injEq, Prod.mk.injEq] at h
        rw [← h.2]; exact kg
      | returned f =>
        cases f with
        | inst x =>
          simp only at h
          have k2 : Keeps s1 { s1 with trace := s1.trace ++ [.cleanup x] } :=
            Keeps.of_fields kg.1 rfl rfl rfl rfl
          cases hh : exec script fuel (.hook (script x))
              { s1 with trace := s1.trace ++ [.cleanup x] } with
          | none => rw [hh] at h; simp at h
          | some p =>
            obtain ⟨r3, s3⟩ := p
            have k3 := ih _ _ _ _ hh k2.1
            have k13 := kg.trans (k2.trans k3)
            rw [hh] at h
            cases r3 with
            | threw e =>
              simp only [Option.some.injEq, Prod.mk.injEq] at h
              rw [← h.2]; exact k13
            | returned u =>
              simp only at h
              cases hd : s3.construct.destroy x with
              | threw e =>
                rw [hd] at h
                simp only [Option.some.injEq, Prod.mk.injEq] at h
                rw [← h.2]; exact k13
              | returned u' =>
                rw [hd] at h
                simp only [Option.some.injEq, Prod.mk.injEq] at h
                rw [← h.2]
                exact k13.trans (Keeps.of_delete id k13.1 rfl rfl rfl rfl)
        | null =>
          simp only [Option.some.injEq] at h
          have hf := Factory.report_fields
            (fun text => Event.warn
              ("Error destroying instance " ++ text ++ ". Id does not exist in factory."))
            id s1
          rw [h] at hf
          exact kg.trans (Keeps.of_fields kg.1 hf.1 hf.2.1 hf.2.2.1 hf.2.2.2)
        | undefined =>
          simp only [Option.some.injEq] at h
          have hf := Factory.report_fields
            (fun text => Event.warn
              ("Error destroying instance " ++ text ++ ". Id does not exist in factory."))
            id s1
          rw [h] at hf
          exact kg.trans (Keeps.of_fields kg.1 hf.1 hf.2.1 hf.2.2.1 hf.2.2.2)
    intro job s r t h hinv
    cases job with
    | destroy id => exact hdestroy id s r t h hinv
    | hook cs =>
      rw [exec_hook_succ] at h
      cases cs with
      | nil =>
        simp only [Option.some.injEq, Prod.mk.injEq] at h
        rw [← h.2]; exact Keeps.refl hinv
      | cons c cs =>
        cases c with
        | create data =>
          simp only at h
          exact (Keeps.of_create data s hinv).trans
            (ih _ _ _ _ h (Factory.inv_create data s hinv))
        | get id =>
          simp only at h
          have kg := Keeps.of_get id s hinv
          rcases hg : s.get id with ⟨g, s1⟩
          rw [hg] at h kg
          simp only at kg
          cases g with
          | threw e =>
            simp only [Option.some.injEq, Prod.mk.injEq] at h
            rw [← h.2]; exact kg
          | returned f =>
            simp only at h
            exact kg.trans (ih _ _ _ _ h kg.1)
        | destroy id =>
          simp only at h
          cases hh : exec script fuel (.destroy id) s with
          | none => rw [hh] at h; simp at h
          | some p =>
            obtain ⟨r1, s1⟩ := p
            have k1 := ih _ _ _ _ hh hinv
            rw [hh] at h
            cases r1 with
            | threw e =>
              simp only [Option.some.injEq, Prod.mk.injEq] at h
              rw [← h.2]; exact k1
            | returned u =>
              simp only at h
              exact k1.trans (ih _ _ _ _ h k1.1)
    | forEach i =>
      rw [exec_forEach_succ] at h
      cases hslot : s.instances[i]? with
      | none =>
        rw [hslot] at h
        simp only [Option.some.injEq, Prod.mk.injEq] at h
        rw [← h.2]; exact Keeps.refl hinv
      | some slot =>
        rw [hslot] at h
        cases slot with
        | none =>
          simp only at h
          exact ih _ _ _ _ h hinv
        | some e =>
          obtain ⟨key, inst⟩ := e
          simp only at h
          cases hh : exec script fuel (.destroy inst.id) s with
          | none => rw [hh] at h; simp at h
          | some p =>
            obtain ⟨r1, s1⟩ := p
            have k1 := ih _ _ _ _ hh hinv
            rw [hh] at h
            cases r1 with
            | threw e =>
              simp only [Option.some.injEq, Prod.mk.injEq] at h
              rw [← h.2]; exact k1
            | returned u =>
              simp only at h
              exact k1.trans (ih _ _ _ _ h k1.1)

/-- The calls of a client keep what each call keeps. -/
theorem runWith_keeps (script : Instance → List Call) (fuel : Nat) (cs : List Call)
    (s t : Factory) (h : runWith script fuel cs s = some t) (hinv : Inv s) : Keeps s t := by
  induction cs generalizing s with
  | nil =>
    simp only [runWith, Option.some.injEq] at h
    rw [← h]; exact Keeps.refl hinv
  | cons c cs ih =>
    cases c with
    | create data =>
      simp only [runWith] at h
      exact (Keeps.of_create data s hinv).trans (ih _ h (Factory.inv_create data s hinv))
    | get id =>
      simp only [runWith] at h
      exact (Keeps.of_get id s hinv).trans (ih _ h (Factory.inv_get id s hinv))
    | destroy id =>
      simp only [runWith] at h
      cases hh : exec script fuel (.destroy id) s with
      | none => rw [hh] at h; simp at h
      | some p =>
        obtain ⟨r1, s1⟩ := p
        have k1 := exec_keeps script fuel _ _ _ _ hh hinv
        rw [hh] at h
        exact k1.trans (ih _ h k1.1)

/-- The states that calls of a client lead to from a freshly constructed Factory, whatever
the hooks of those calls do, have the invariant, the constructor and the registry. -/
theorem reachedWith_fields (script : Instance → List Call) (fuel : Nat) (cs : List Call)
    (c : Ctor) (v : ViviView) (s : Factory)
    (h : runWith script fuel cs (Factory.fresh c v) = some s) :
    Inv s ∧ s.construct = c ∧ s.vivi = v := by
  obtain ⟨k1, _, k3, k4, _⟩ := runWith_keeps script fuel cs _ s h (Factory.inv_fresh c v)
  exact ⟨k1, k3, k4⟩

/-- With hooks that make no call, `destroy(id)` is the method of the Factory. -/
theorem exec_destroy_of_no_calls (fuel : Nat) (id : JSValue) (s : Factory) :
    exec (fun _ => []) (fuel + 2) (.destroy id) s = some (s.destroy id) := by
  rw [exec_destroy_succ, Factory.destroy]
  rcases s.get id with ⟨r, s1⟩
  cases r with
  | threw e => rfl
  | returned f =>
    cases f with
    | inst y =>
      simp only [exec_hook_succ]
      cases s1.construct.destroy y <;> rfl
    | null => rfl
    | undefined => rfl

/-- With hooks that make no call, the calls of a client are the run of the calls: the
states of `reached` are among those that `runWith` leads to. -/
theorem runWith_of_no_calls (fuel : Nat) (cs : List Call) (s : Factory) :
    runWith (fun _ => []) (fuel + 2) cs s = some (run cs s) := by
  induction cs generalizing s with
  | nil => rfl
  | cons c cs ih =>
    cases c with
    | create data => exact ih _
    | get id => exact ih _
    | destroy id =>
      simp only [runWith, exec_destroy_of_no_calls]
      exact ih _

/-! ## C3: destroy with the id of a live instance -/

theorem JSMap.values_delete {k : JSValue} {x : Instance} (m : JSMap JSValue Instance)
    (hid : ∀ e ∈ JSMap.entries m, e.2.id = e.1) (hx : JSMap.get k m = some x) :
    JSMap.values (JSMap.delete k m) = (JSMap.values m).erase x := by
  induction m with
  | nil => simp [JSMap.get] at hx
  | cons a m ih =>
    cases a with
    | none =>
      simpa [JSMap.values, JSMap.delete] using
        ih (by simpa using hid) (by simpa [JSMap.get] using hx)
    | some e =>
      obtain ⟨k', v'⟩ := e
      simp only [JSMap.entries_cons_some, List.mem_cons, forall_eq_or_imp] at hid
      by_cases hk : k' = k
      · simp only [JSMap.get, hk, if_true, Option.some.injEq] at hx
        subst hx
        simp [JSMap.values, JSMap.delete, hk]
      · simp only [JSMap.get, hk, if_false] at hx
        have hxk : x.id = k := hid.2 _ (JSMap.mem_of_get_eq_some hx)
        have hne : v' ≠ x := by
          intro h
          apply hk
          rw [← hid.1, ← hxk, h]
        have := ih hid.2 hx
        simp only [JSMap.values] at this
        simp [JSMap.values, JSMap.delete, hk, this, List.erase_cons_tail, hne]

theorem values_nodup (s : Factory) (h : Inv s) : s.instances.values.Nodup := by
  obtain ⟨_, h2, h3⟩ := h
  unfold JSMap.values
  rw [List.Nodup, List.pairwise_map]
  apply h2.imp_of_mem
  intro a b ha hb hab heq
  apply hab
  rw [← (h3 a ha).1, ← (h3 b hb).1, heq]

theorem truthy_of_live {s : Factory} {id : JSValue} {x : Instance} (h : Inv s)
    (hx : s.instances.get id = some x) :
    id.truthy = true ∧ x.id = id ∧ ∃ n : Nat, id = .num n ∧ 1 ≤ n ∧ n < s.counter := by
  obtain ⟨hid, n, hn, h1, h2⟩ := h.2.2 _ (JSMap.mem_of_get_eq_some hx)
  simp only at hid hn
  refine ⟨?_, hid, n, hn, h1, h2⟩
  rw [hn]
  simp [JSValue.truthy]
  omega

theorem mem_values_of_get {s : Factory} {id : JSValue} {y : Instance}
    (h : (s.get id).1 = .returned (.inst y)) : y ∈ s.instances.values := by
  cases ht : id.truthy
  · rw [Factory.get_of_falsy s ht, Factory.latest_eq] at h
    simp only at h
    cases hl : s.instances.values.getLast? with
    | none => simp [hl] at h
    | some z =>
      simp only [hl, Completion.returned.injEq, Fetched.inst.injEq] at h
      subst h
      exact List.mem_of_getLast?_eq_some hl
  · cases hx : s.instances.get id with
    | some z =>
      rw [Factory.get_of_found s ht hx] at h
      simp only [Completion.returned.injEq, Fetched.inst.injEq] at h
      subst h
      have := JSMap.mem_of_get_eq_some hx
      exact List.mem_map.mpr ⟨_, this, rfl⟩
    | none => exact absurd h (Factory.get_of_not_live_ne s ht hx y)

/-- An instance that is not live and whose id lies below the counter never becomes live
again. -/
theorem not_mem_values_run (cs : List Call) (s : Factory) (x : Instance) (n : Nat)
    (h : Inv s) (hn : x.id = .num n) (hlt : n < s.counter)
    (hx : x ∉ s.instances.values) : x ∉ (run cs s).instances.values := by
  induction cs generalizing s with
  | nil => exact hx
  | cons c cs ih =>
    apply ih (c.step s) (inv_step c s h)
    · rw [step_counter]; omega
    · cases c with
      | create d =>
        simp only [Call.step, Factory.values_create d s h, List.mem_append, List.mem_singleton,
          not_or]
        refine ⟨hx, ?_⟩
        intro heq
        rw [heq, Factory.create_eq] at hn
        have := JSValue.num.inj hn
        omega
      | get id => simpa [Call.step, (Factory.get_fields id s).1] using hx
      | destroy id =>
        exact fun hm => hx ((Factory.values_destroy_sublist id s h).subset hm)

theorem run_construct (cs : List Call) (s : Factory) :
    (run cs s).construct = s.construct ∧ (run cs s).vivi = s.vivi := by
  induction cs generalizing s with
  | nil => exact ⟨rfl, rfl⟩
  | cons c cs ih =>
    obtain ⟨h1, h2⟩ := ih (c.step s)
    simp only [run, h1, h2]
    cases c with
    | create d => exact ⟨rfl, rfl⟩
    | get id => exact (Factory.get_fields id s).2.2
    | destroy id => exact (Factory.destroy_fields id s).2.2

theorem inv_reached (c : Ctor) (v : ViviView) (cs : List Call) : Inv (reached c v cs) :=
  inv_run cs _ (Factory.inv_fresh c v)

theorem reached_fields (c : Ctor) (v : ViviView) (cs : List Call) :
    (reached c v cs).construct = c ∧ (reached c v cs).vivi = v :=
  run_construct cs (Factory.fresh c v)

/-- C3, amended. In every state a fresh Factory reaches, for the id of a live instance
whose cleanup hook returns and makes no call on the Factory: `destroy(id)` ends and returns,
calls the hook of that instance once and makes no other outside call, removes that instance
and no other (the other live instances keep their order, the counter is unchanged);
afterwards the id is not in the Map, `get(id)` returns undefined when the registry resolves
a Logger, and no later `get`, with or without an id, returns the destroyed instance,
whatever calls are made in between and whatever the hooks of those calls do. -/
theorem destroy_live_removes_that_instance (c : Ctor) (v : ViviView)
    (script₀ : Instance → List Call) (fuel₀ : Nat) (cs : List Call) (s : Factory)
    (hreach : runWith script₀ fuel₀ cs (Factory.fresh c v) = some s)
    (script : Instance → List Call) (fuel : Nat) (id : JSValue) (x : Instance)
    (hx : s.instances.get id = some x)
    (hk : c.destroy x = .returned ())
    (hs : script x = []) :
    ∃ t, exec script (fuel + 2) (.destroy id) s = some (.returned (), t) ∧
      t.trace = s.trace ++ [.cleanup x] ∧
      x ∈ s.instances.values ∧
      t.instances.values = s.instances.values.erase x ∧
      x ∉ t.instances.values ∧
      t.counter = s.counter ∧
      t.instances.get id = none ∧
      (v.logger = .sink → (t.get id).1 = .returned .undefined) ∧
      ∀ (script' : Instance → List Call) (fuel' : Nat) (later : List Call) (t' : Factory),
        runWith script' fuel' later t = some t' →
        ∀ id' : JSValue, (t'.get id').1 ≠ .returned (.inst x) := by
  obtain ⟨hinv, hcon, hviv⟩ := reachedWith_fields script₀ fuel₀ cs c v s hreach
  obtain ⟨ht, hxid, n, hn, h1, hlt⟩ := truthy_of_live hinv hx
  have hk' : s.construct.destroy x = .returned () := by rw [hcon]; exact hk
  have hd := Factory.destroy_of_found_returned s ht hx hk'
  have hinv' := Factory.inv_destroy id s hinv
  have hmem : x ∈ s.instances.values :=
    List.mem_map.mpr ⟨_, JSMap.mem_of_get_eq_some hx, rfl⟩
  have hval : (s.destroy id).2.instances.values = s.instances.values.erase x := by
    rw [hd]
    exact JSMap.values_delete _ (fun e he => (hinv.2.2 e he).1) hx
  have hnot : x ∉ (s.destroy id).2.instances.values := by
    rw [hval]
    exact (values_nodup s hinv).not_mem_erase
  have hnone : (s.destroy id).2.instances.get id = none := by
    rw [JSMap.get_eq_none_iff]
    intro e he hek
    apply hnot
    have hid := (hinv'.2.2 e he).1
    have : e.2 = x := by
      have hm : (id, e.2) ∈ (s.destroy id).2.instances.entries := by
        have h2 : (id, e.2) = e := Prod.ext hek.symm rfl
        rw [h2]; exact he
      have hsub : (s.destroy id).2.instances.entries.Sublist s.instances.entries := by
        rw [hd]
        simp only
        rw [JSMap.entries_delete _ _ hinv.2.1]
        exact List.filter_sublist _
      have := JSMap.get_of_mem hinv.2.1 (hsub.subset hm)
      rw [hx] at this
      exact (Option.some.inj this).symm
    rw [← this]
    exact List.mem_map.mpr ⟨e, he, rfl⟩
  have hexec : exec script (fuel + 2) (.destroy id) s = some (.returned (), (s.destroy id).2) := by
    rw [exec_destroy_of_found script fuel s ht hx hs, hd]
  refine ⟨(s.destroy id).2, hexec, by rw [hd], hmem, hval, hnot,
    (Factory.destroy_fields id s).2.1, hnone, ?_, ?_⟩
  · intro hl
    have htx : id.toJSString = .returned (toString (n : Int)) := by rw [hn]; rfl
    rw [Factory.get_of_missing _ ht hnone htx, (Factory.destroy_fields id s).2.2.2, hviv, hl]
  · intro script' fuel' later t' hrun id' hget
    have k := runWith_keeps script' fuel' later _ t' hrun hinv'
    exact k.2.2.2.2 x n (by rw [hxid, hn])
      (by rw [(Factory.destroy_fields id s).2.1]; exact hlt) hnot (mem_values_of_get hget)

/-- C3, witness: the instance with id 1 of two live instances is destroyed. -/
theorem destroy_live_removes_that_instance_witness :
    runWith (fun _ => []) 2 calls (Factory.fresh widget logging) =
      some (reached widget logging calls) ∧
    (reached widget logging calls).instances.get (.num 1) = some first ∧
    widget.destroy first = .returned () ∧
    ∃ t, exec (fun _ => []) 2 (.destroy (.num 1)) (reached widget logging calls) =
        some (.returned (), t) ∧
      t.instances.values = (reached widget logging calls).instances.values.erase first :=
  ⟨rfl, by decide, rfl,
    (destroy_live_removes_that_instance widget logging (fun _ => []) 2 calls
      (reached widget logging calls) rfl (fun _ => []) 0 (.num 1) first
      (by decide) rfl rfl).imp (fun _ h => ⟨h.1, h.2.2.2.1⟩)⟩

/-- C3, counterexample. Two live instances, with the ids 1 and 2. When the cleanup hook
throws, `destroy(1)` throws and both instances stay live. In a registry whose Logger has
no live instance, `get(1)` after a `destroy(1)` that removed the instance throws instead of
returning. When the hook creates an instance, `destroy(1)` leaves the counter at 4 and a
third instance in the Map; when the hook of the first instance destroys the second,
`destroy(1)` removes both. -/
theorem destroy_live_counterexample :
    (exec (fun _ => []) 9 (.destroy (.num 1)) (reached brittle logging calls)).map
      (fun r => (r.1, r.2.instances.values)) =
      some (.threw (.error "cleanup failed"), [first, second]) ∧
    (exec (fun _ => []) 9 (.destroy (.num 1)) (reached widget silent calls)).map
      (fun r => (r.1, (r.2.get (.num 1)).1)) =
      some (.returned (), .threw (.typeError "null has no properties")) ∧
    (reached widget logging calls).counter = 3 ∧
    (exec hydra 9 (.destroy (.num 1)) (reached widget logging calls)).map
      (fun r => (r.1, r.2.counter, r.2.instances.values)) =
      some (.returned (), 4, [second, third]) ∧
    (exec sweep 9 (.destroy (.num 1)) (reached widget logging calls)).map
      (fun r => (r.1, r.2.trace, r.2.instances.values)) =
      some (.returned (), [.cleanup first, .cleanup second], []) := by
  decide

/-! ## C4: destroy with an id that resolves to no instance -/

theorem Factory.destroy_of_nothing_live {id : JSValue} (s : Factory) (h : id.truthy = false)
    (he : s.instances.values = []) :
    s.destroy id = s.report
      (fun text => .warn ("Error destroying instance " ++ text ++ ". Id does not exist in factory."))
      id := by
  simp [Factory.destroy, Factory.get_of_falsy s h, Factory.latest_eq, he]

/-- C4, amended. In every state a fresh Factory reaches, for an id that is truthy and is
not the key of a live instance, or that is falsy while no instance is live: `destroy(id)`
leaves the Map and the counter as they are and calls no cleanup hook, whatever the hooks
would do. For an id that prints: when the registry resolves a Logger it returns after
handing the sink the reports of `unknownIdReports` (which end with the warning); otherwise
it throws and makes no outside call; a second call ends the same way, leaves the same Map
and counter, and reports the same once more. For an id that does not print (a Symbol, an
object whose conversion throws): it throws, what the conversion threw when the registry
resolves a Logger, and leaves the Factory exactly as it was. -/
theorem destroy_unknown_id_no_effect (c : Ctor) (v : ViviView)
    (script₀ : Instance → List Call) (fuel₀ : Nat) (cs : List Call) (s : Factory)
    (hreach : runWith script₀ fuel₀ cs (Factory.fresh c v) = some s) (id : JSValue)
    (h : (id.truthy = true ∧ s.instances.get id = none) ∨
         (id.truthy = false ∧ s.instances.values = [])) :
    (s.destroy id).2.instances =
      s.instances ∧
    (s.destroy id).2.counter = s.counter ∧
    (∀ (script : Instance → List Call) (fuel : Nat),
      exec script (fuel + 1) (.destroy id) s =
        some (s.destroy id)) ∧
    (∀ text, id.toJSString = .returned text →
      (s.destroy id).2.trace = s.trace ++
        (if v.logger = .sink then unknownIdReports c id text else []) ∧
      (∀ x, Event.cleanup x ∉ unknownIdReports c id text) ∧
      (v.logger = .sink → (s.destroy id).1 = .returned ()) ∧
      (v.logger ≠ .sink → ∃ e, (s.destroy id).1 = .threw e) ∧
      ((s.destroy id).2.destroy id).1 =
        (s.destroy id).1 ∧
      ((s.destroy id).2.destroy id).2.instances =
        s.instances ∧
      ((s.destroy id).2.destroy id).2.counter =
        s.counter ∧
      ((s.destroy id).2.destroy id).2.trace =
        (s.destroy id).2.trace ++
          (if v.logger = .sink then unknownIdReports c id text else [])) ∧
    (∀ e, id.toJSString = .threw e →
      (s.destroy id).2 = s ∧
      (∃ e', (s.destroy id).1 = .threw e') ∧
      (v.logger = .sink → (s.destroy id).1 = .threw e)) := by
  obtain ⟨_, hcon, hviv⟩ := reachedWith_fields script₀ fuel₀ cs c v s hreach
  have hfields := Factory.destroy_fields id s
  have hinst : (s.destroy id).2.instances = s.instances := by
    rcases h with ⟨ht, hx⟩ | ⟨ht, hx⟩
    · cases htx : id.toJSString with
      | returned text =>
        rw [Factory.destroy_of_missing s ht hx htx]; cases s.vivi.logger <;> rfl
      | threw e =>
        rw [Factory.destroy_of_unprintable s ht hx htx]; cases s.vivi.logger <;> rfl
    · rw [Factory.destroy_of_nothing_live s ht hx]
      exact (Factory.report_fields _ id s).1
  have hnoinst : ∀ y, (s.get id).1 ≠ .returned (.inst y) := by
    intro y
    rcases h with ⟨ht, hx⟩ | ⟨ht, hx⟩
    · exact Factory.get_of_not_live_ne s ht hx y
    · rw [Factory.get_of_falsy s ht, Factory.latest_eq, hx]
      simp
  refine ⟨hinst, hfields.2.1, fun script fuel => exec_destroy_of_not_found script fuel s hnoinst,
    ?_, ?_⟩
  · intro text htx
    have hno : ∀ x, Event.cleanup x ∉ unknownIdReports c id text := by
      intro x
      unfold unknownIdReports
      split <;> simp
    have key : ∀ t : Factory, t.instances = s.instances → t.construct = c → t.vivi = v →
        (t.destroy id).2.instances = s.instances ∧ (t.destroy id).2.counter = t.counter ∧
        (t.destroy id).2.construct = c ∧ (t.destroy id).2.vivi = v ∧
        (t.destroy id).2.trace = t.trace ++
          (if v.logger = .sink then unknownIdReports c id text else []) ∧
        (t.destroy id).1 = (match v.logger with
          | .sink => .returned ()
          | .null => .threw (.typeError "null has no properties")
          | .threw e => .threw e) := by
      intro t hi hc hv
      rcases h with ⟨ht, hx⟩ | ⟨ht, hx⟩
      · rw [Factory.destroy_of_missing t ht (by rw [hi]; exact hx) htx, hv, hc]
        cases hl : v.logger <;> simp [unknownIdReports, ht, hi, hc, hv]
      · rw [Factory.destroy_of_nothing_live t ht (by rw [hi]; exact hx),
          Factory.report_of_text _ t htx, hv]
        cases hl : v.logger <;> simp [unknownIdReports, ht, hi, hc, hv]
    obtain ⟨a1, a2, a3, a4, a5, a6⟩ := key s rfl hcon hviv
    obtain ⟨b1, b2, b3, b4, b5, b6⟩ := key (s.destroy id).2 a1 a3 a4
    refine ⟨a5, hno, ?_, ?_, by rw [b6, a6], b1, by rw [b2, a2], b5⟩
    · intro hl
      rw [a6, hl]
    · intro hl
      rw [a6]
      cases hv : v.logger with
      | sink => exact absurd hv hl
      | null => exact ⟨_, rfl⟩
      | threw e => exact ⟨_, rfl⟩
  · intro e htx
    rcases h with ⟨ht, hx⟩ | ⟨ht, hx⟩
    · rw [Factory.destroy_of_unprintable s ht hx htx, hviv]
      cases hl : v.logger with
      | sink => exact ⟨rfl, ⟨_, rfl⟩, fun _ => rfl⟩
      | null => exact ⟨rfl, ⟨_, rfl⟩, fun h => nomatch h⟩
      | threw e' => exact ⟨rfl, ⟨_, rfl⟩, fun h => nomatch h⟩
    · obtain ⟨text, htext⟩ := Factory.toJSString_of_falsy ht
      rw [htext] at htx
      exact nomatch htx

/-- C4, witness: an id that was never handed out, and a Symbol, on a Factory with two live
instances. -/
theorem destroy_unknown_id_no_effect_witness :
    runWith (fun _ => []) 2 calls (Factory.fresh widget logging) =
      some (reached widget logging calls) ∧
    ((JSValue.num 7).truthy = true ∧
      (reached widget logging calls).instances.get (.num 7) = none) ∧
    ((reached widget logging calls).destroy (.num 7)).2.instances =
      (reached widget logging calls).instances ∧
    ((reached widget logging calls).destroy (.num 7)).1 = .returned () ∧
    ((reached widget logging calls).destroy (.symbol 0)).2 = reached widget logging calls :=
  ⟨rfl, by decide,
    (destroy_unknown_id_no_effect widget logging (fun _ => []) 2 calls
      (reached widget logging calls) rfl (.num 7) (Or.inl (by decide))).1,
    ((destroy_unknown_id_no_effect widget logging (fun _ => []) 2 calls
      (reached widget logging calls) rfl (.num 7) (Or.inl (by decide))).2.2.2.1
        "7" rfl).2.2.1 rfl,
    ((destroy_unknown_id_no_effect widget logging (fun _ => []) 2 calls
      (reached widget logging calls) rfl (.symbol 0)
      (Or.inl ⟨rfl, by decide⟩)).2.2.2.2 _ rfl).1⟩

/-- C4, counterexample. On a Factory with two live instances, `destroy()` without an id
(and likewise with 0 or with the empty string, none of which is the id of an instance)
returns, calls the cleanup hook of the latest instance, reports no warning and leaves that
instance in the Map; a second call runs the same hook again. In a registry whose Logger has
no live instance `destroy(7)` throws instead of warning. And `destroy` of a Symbol throws a
TypeError and reports nothing. -/
theorem destroy_unknown_id_counterexample :
    ((reached widget logging calls).destroy .undefined).1 = .returned () ∧
    ((reached widget logging calls).destroy .undefined).2.trace =
      [.cleanup second] ∧
    ((reached widget logging calls).destroy .undefined).2.instances.values =
      [first, second] ∧
    ((reached widget logging calls).destroy (.num 0)).2.trace = [.cleanup second] ∧
    ((reached widget logging calls).destroy (.str "")).2.trace = [.cleanup second] ∧
    (((reached widget logging calls).destroy .undefined).2.destroy .undefined).2.trace =
      [.cleanup second, .cleanup second] ∧
    ((reached widget silent calls).destroy (.num 7)).1 =
      .threw (.typeError "null has no properties") ∧
    ((reached widget logging calls).destroy (.symbol 0)).1 =
      .threw (.typeError "Cannot convert a Symbol value to a string") ∧
    ((reached widget logging calls).destroy (.symbol 0)).2.trace = [] := by
  decide

/-! ## C5: a cleanup hook that throws -/

/-- C5, amended. In every state a fresh Factory reaches, for the id of a live instance
whose cleanup hook throws without having made a call on the Factory: `destroy(id)` ends and
throws what the hook threw. Nothing is caught and nothing is reported (the one outside call
is the hook itself), the Map and the counter are unchanged, and the instance is still live:
`get(id)` returns it. -/
theorem destroy_rethrows_hook_failure (c : Ctor) (v : ViviView)
    (script₀ : Instance → List Call) (fuel₀ : Nat) (cs : List Call) (s : Factory)
    (hreach : runWith script₀ fuel₀ cs (Factory.fresh c v) = some s)
    (script : Instance → List Call) (fuel : Nat) (id : JSValue) (x : Instance) (e : JSError)
    (hx : s.instances.get id = some x)
    (hk : c.destroy x = .threw e)
    (hs : script x = []) :
    ∃ t, exec script (fuel + 2) (.destroy id) s = some (.threw e, t) ∧
      t.trace = s.trace ++ [.cleanup x] ∧
      t.instances = s.instances ∧
      t.counter = s.counter ∧
      (t.get id).1 = .returned (.inst x) := by
  obtain ⟨hinv, hcon, _⟩ := reachedWith_fields script₀ fuel₀ cs c v s hreach
  obtain ⟨ht, _⟩ := truthy_of_live hinv hx
  have hk' : s.construct.destroy x = .threw e := by rw [hcon]; exact hk
  refine ⟨{ s with trace := s.trace ++ [.cleanup x] }, ?_, rfl, rfl, rfl, ?_⟩
  · rw [exec_destroy_of_found script fuel s ht hx hs,
      Factory.destroy_of_found_threw s ht hx hk']
  · rw [Factory.get_of_found _ ht (by exact hx)]

/-- C5, witness: the only live instance has a cleanup hook that throws. -/
theorem destroy_rethrows_hook_failure_witness :
    runWith (fun _ => []) 2 [.create .undefined] (Factory.fresh brittle logging) =
      some (reached brittle logging [.create .undefined]) ∧
    (reached brittle logging [.create .undefined]).instances.get (.num 1) =
      some first ∧
    brittle.destroy first = .threw (.error "cleanup failed") ∧
    ∃ t, exec (fun _ => []) 2 (.destroy (.num 1)) (reached brittle logging [.create .undefined]) =
        some (.threw (.error "cleanup failed"), t) ∧
      t.instances = (reached brittle logging [.create .undefined]).instances :=
  ⟨rfl, by decide, rfl,
    (destroy_rethrows_hook_failure brittle logging (fun _ => []) 2 [.create .undefined]
      (reached brittle logging [.create .undefined]) rfl (fun _ => []) 0
      (.num 1) first (.error "cleanup failed") (by decide) rfl rfl).imp
      (fun _ h => ⟨h.1, h.2.2.1⟩)⟩

/-- C5, counterexample. The cleanup hook of the only live instance throws: `destroy(1)`
throws the same error, the one outside call is the hook (nothing is reported), and the
instance is still in the Factory. -/
theorem destroy_hook_failure_counterexample :
    (exec (fun _ => []) 9 (.destroy (.num 1))
      (reached brittle logging [.create .undefined])).map
        (fun r => (r.1, r.2.trace, r.2.instances.values)) =
      some (.threw (.error "cleanup failed"), [.cleanup first], [first]) := by
  decide

/-! ## C6: destroyAll -/

theorem JSMap.mem_entries_of_getElem? {κ ν : Type} {m : JSMap κ ν} {i : Nat} {e : κ × ν}
    (h : m[i]? = some (some e)) : e ∈ JSMap.entries m :=
  List.reduceOption_mem_iff.mpr (List.getElem?_mem h)

theorem JSMap.delete_eq_set {κ ν : Type} [DecidableEq κ] {m : JSMap κ ν} {i : Nat} {k : κ} {v : ν}
    (hd : (JSMap.entries m).Pairwise (fun a b => a.1 ≠ b.1))
    (h : m[i]? = some (some (k, v))) : JSMap.delete k m = List.set m i none := by
  induction m generalizing i with
  | nil => simp at h
  | cons a m ih =>
    cases i with
    | zero =>
      simp only [List.getElem?_cons_zero, Option.some.injEq] at h
      subst h
      simp [JSMap.delete]
    | succ j =>
      simp only [List.getElem?_cons_succ] at h
      cases a with
      | none =>
        simp only [JSMap.entries_cons_none] at hd
        simp [JSMap.delete, ih hd h]
      | some e =>
        obtain ⟨k', v'⟩ := e
        simp only [JSMap.entries_cons_some, List.pairwise_cons] at hd
        have hne : k' ≠ k := hd.1 _ (JSMap.mem_entries_of_getElem? h)
        simp [JSMap.delete, hne, ih hd.2 h]

theorem take_succ_set {α : Type} (l : List α) (i : Nat) (a : α) (h : i < l.length) :
    (l.set i a).take (i + 1) = l.take i ++ [a] := by
  rw [List.take_succ, List.set_take, List.set_eq_of_length_le (by simp), List.getElem?_set_self h]
  rfl

/-- The loop of `destroyAll` from slot `i` on, when every live cleanup hook returns: it
ends with enough fuel, empties every slot from `i` on and calls the hooks of those slots
in slot order. -/
theorem forEachDestroy_spec (k i : Nat) (s : Factory) (fuel : Nat) (h : Inv s)
    (hlen : s.instances.length ≤ i + k) (hf : k < fuel)
    (hall : ∀ x ∈ s.instances.values, s.construct.destroy x = .returned ()) :
    ∃ t, Factory.forEachDestroy fuel i s = some (.returned (), t) ∧
      t.instances = s.instances.take i ++ (s.instances.drop i).map (fun _ => none) ∧
      t.trace = s.trace ++ (JSMap.values (s.instances.drop i)).map Event.cleanup ∧
      t.counter = s.counter ∧ t.construct = s.construct ∧ t.vivi = s.vivi := by
  induction k generalizing i s fuel with
  | zero =>
    obtain ⟨f, rfl⟩ : ∃ f, fuel = f + 1 := ⟨fuel - 1, by omega⟩
    have hi : s.instances.length ≤ i := by omega
    refine ⟨s, ?_, ?_, ?_, rfl, rfl, rfl⟩
    · simp [Factory.forEachDestroy, List.getElem?_eq_none hi]
    · simp [List.drop_eq_nil_of_le hi, List.take_of_length_le hi]
    · simp [List.drop_eq_nil_of_le hi, JSMap.values]
  | succ k ih =>
    obtain ⟨f, rfl⟩ : ∃ f, fuel = f + 1 := ⟨fuel - 1, by omega⟩
    cases hslot : s.instances[i]? with
    | none =>
      have hi : s.instances.length ≤ i := List.getElem?_eq_none_iff.mp hslot
      refine ⟨s, ?_, ?_, ?_, rfl, rfl, rfl⟩
      · simp [Factory.forEachDestroy, hslot]
      · simp [List.drop_eq_nil_of_le hi, List.take_of_length_le hi]
      · simp [List.drop_eq_nil_of_le hi, JSMap.values]
    | some slot =>
      have hlt : i < s.instances.length := by
        by_contra hc
        rw [List.getElem?_eq_none (by omega)] at hslot
        exact Option.noConfusion hslot
      have hdrop : s.instances.drop i = slot :: s.instances.drop (i + 1) := by
        rw [List.drop_eq_getElem_cons hlt]
        congr 1
        have := List.getElem?_eq_getElem hlt
        rw [hslot] at this
        exact (Option.some.inj this).symm
      have htake : s.instances.take (i + 1) = s.instances.take i ++ [slot] := by
        rw [List.take_succ, hslot]; rfl
      cases slot with
      | none =>
        obtain ⟨t, h1, h2, h3, h4, h5, h6⟩ := ih (i + 1) s f h (by omega) (by omega) hall
        refine ⟨t, ?_, ?_, ?_, h4, h5, h6⟩
        · simp [Factory.forEachDestroy, hslot, h1]
        · rw [h2, htake, hdrop]; simp
        · rw [h3, hdrop]; simp [JSMap.values]
      | some e =>
        obtain ⟨key, inst⟩ := e
        have hmem := JSMap.mem_entries_of_getElem? hslot
        obtain ⟨hid, n, hn, h1n, hnc⟩ := h.2.2 _ hmem
        simp only at hid hn
        have hget : s.instances.get inst.id = some inst := by
          rw [hid]; exact JSMap.get_of_mem h.2.1 hmem
        have ht := (truthy_of_live h hget).1
        have hk := hall inst (List.mem_map.mpr ⟨_, hmem, rfl⟩)
        have hd := Factory.destroy_of_found_returned s ht hget hk
        have hdel : s.instances.delete inst.id = List.set s.instances i none := by
          rw [hid]; exact JSMap.delete_eq_set h.2.1 hslot
        have hinv' := Factory.inv_destroy inst.id s h
        rw [hd] at hinv'
        obtain ⟨t, h1, h2, h3, h4, h5, h6⟩ := ih (i + 1) _ f hinv'
          (by simp only [JSMap.length_delete]; omega) (by omega)
          (by
            intro x hx
            apply hall x
            have := Factory.values_delete_sublist inst.id s h
            exact this.subset hx)
        simp only [hdel] at h2 h3
        refine ⟨t, ?_, ?_, ?_, h4, h5, h6⟩
        · simp [Factory.forEachDestroy, hslot, hd, h1]
        · rw [h2, hdrop, take_succ_set _ _ _ hlt, List.drop_set_of_lt _ _ (by omega)]
          simp
        · rw [h3, hdrop, List.drop_set_of_lt _ _ (by omega)]
          simp [JSMap.values]

theorem JSMap.entries_map_none {κ ν : Type} (m : JSMap κ ν) :
    JSMap.entries (m.map (fun _ => (none : Option (κ × ν)))) = [] := by
  induction m with
  | nil => rfl
  | cons a m ih => simpa using ih

theorem JSMap.map_none_of_entries_nil {κ ν : Type} (m : JSMap κ ν)
    (h : JSMap.entries m = []) : m.map (fun _ => (none : Option (κ × ν))) = m := by
  induction m with
  | nil => rfl
  | cons a m ih =>
    cases a with
    | none => simpa using ih (by simpa using h)
    | some e => simp at h

theorem JSMap.set_of_absent {κ ν : Type} [DecidableEq κ] (k : κ) (v : ν) (m : JSMap κ ν)
    (h : ∀ e ∈ JSMap.entries m, e.1 ≠ k) : JSMap.set k v m = m ++ [some (k, v)] := by
  induction m with
  | nil => rfl
  | cons a m ih =>
    cases a with
    | none => simpa [JSMap.set] using ih (by simpa using h)
    | some e =>
      obtain ⟨k', v'⟩ := e
      simp only [JSMap.entries_cons_some, List.mem_cons, forall_eq_or_imp] at h
      simp [JSMap.set, h.1, ih h.2]

/-- The method `destroy(id)` of a live instance whose hook creates one instance: it does
not end with less than three units of fuel, and with more it returns, with the new
instance appended and the slot of the old one emptied. -/
theorem exec_hydra_destroy (fuel : Nat) {id : JSValue} {x : Instance} (s : Factory)
    (h : id.truthy = true) (hx : s.instances.get id = some x)
    (hk : s.construct.destroy x = .returned ()) :
    exec hydra fuel (.destroy id) s = none ∨
    exec hydra fuel (.destroy id) s = some (.returned (),
      { s with counter := s.counter + 1,
               instances := (s.instances.set (.num s.counter)
                 ⟨.num s.counter, .undefined⟩).delete id,
               trace := s.trace ++ [.cleanup x] }) := by
  match fuel with
  | 0 => exact Or.inl rfl
  | 1 => left; simp [exec, Factory.get_of_found s h hx]
  | 2 => left; simp [exec, Factory.get_of_found s h hx, hydra]
  | f + 3 =>
    right
    simp only [exec, Factory.get_of_found s h hx, hydra, Factory.create_eq, hk]

/-- The loop of `destroyAll` does not end, whatever the fuel, when every hook creates an
instance, every hook returns, and the slot the loop stands at and all later ones are
live. -/
theorem exec_hydra_forEach (fuel i : Nat) (s : Factory) (h : Inv s)
    (hk : ∀ x, s.construct.destroy x = .returned ()) (hi : i < s.instances.length)
    (hlive : ∀ j, i ≤ j → j < s.instances.length → ∃ e, s.instances[j]? = some (some e)) :
    exec hydra fuel (.forEach i) s = none := by
  induction fuel generalizing i s with
  | zero => rfl
  | succ fuel ih =>
    obtain ⟨⟨key, inst⟩, hslot⟩ := hlive i (Nat.le_refl i) hi
    have hmem := JSMap.mem_entries_of_getElem? hslot
    obtain ⟨hid, _⟩ := h.2.2 _ hmem
    simp only at hid
    have hget : s.instances.get inst.id = some inst := by
      rw [hid]; exact JSMap.get_of_mem h.2.1 hmem
    have ht := (truthy_of_live h hget).1
    rw [exec_forEach_succ]
    simp only [hslot]
    rcases exec_hydra_destroy fuel s ht hget (hk inst) with hd | hd
    · rw [hd]
    · rw [hd]
      simp only
      have habs : ∀ e ∈ s.instances.entries, e.1 ≠ JSValue.num s.counter := by
        intro e he hek
        obtain ⟨_, n, hn, _, hlt⟩ := h.2.2 e he
        rw [hn] at hek
        have := JSValue.num.inj hek
        omega
      have hset := JSMap.set_of_absent (JSValue.num s.counter)
        (⟨.num s.counter, .undefined⟩ : Instance) s.instances habs
      have hinv1 : Inv (s.create .undefined).2 := Factory.inv_create .undefined s h
      have hslot1 : (s.instances ++ [some (JSValue.num s.counter,
          (⟨.num s.counter, .undefined⟩ : Instance))])[i]? = some (some (inst.id, inst)) := by
        rw [List.getElem?_append_left hi, hslot, hid]
      have hdel : JSMap.delete inst.id (s.instances ++ [some (JSValue.num s.counter,
          (⟨.num s.counter, .undefined⟩ : Instance))]) =
          List.set (s.instances ++ [some (JSValue.num s.counter,
            (⟨.num s.counter, .undefined⟩ : Instance))]) i none := by
        apply JSMap.delete_eq_set _ hslot1
        have := hinv1.2.1
        rw [Factory.create_eq] at this
        simp only [hset] at this
        exact this
      apply ih
      · apply Inv.delete inst.id _ _ hinv1
        · rfl
        · rfl
      · exact hk
      · simp only [hset, hdel, List.length_set, List.length_append, List.length_singleton]
        omega
      · intro j hj hjl
        simp only [hset, hdel, List.length_set, List.length_append, List.length_singleton] at hjl ⊢
        rw [List.getElem?_set_ne (by omega)]
        by_cases hjs : j < s.instances.length
        · rw [List.getElem?_append_left hjs]
          exact hlive j (by omega) hjs
        · have : j = s.instances.length := by omega
          subst this
          exact ⟨(JSValue.num s.counter, ⟨.num s.counter, .undefined⟩), by simp⟩

/-- When no hook of a live instance makes a call, the loop of `destroyAll` is the loop of
the Factory. -/
theorem exec_forEach_of_no_calls (script : Instance → List Call) (fuel i : Nat) (s : Factory)
    (h : Inv s) (hs : ∀ x ∈ s.instances.values, script x = [])
    (r : Completion Unit × Factory) (hr : Factory.forEachDestroy fuel i s = some r) :
    exec script (fuel + 2) (.forEach i) s = some r := by
  induction fuel generalizing i s with
  | zero => simp [Factory.forEachDestroy] at hr
  | succ fuel ih =>
    cases hslot : s.instances[i]? with
    | none =>
      simp only [Factory.forEachDestroy, hslot] at hr
      rw [exec_forEach_succ]
      simp only [hslot, hr]
    | some slot =>
      cases slot with
      | none =>
        simp only [Factory.forEachDestroy, hslot] at hr
        rw [exec_forEach_succ]
        simp only [hslot]
        exact ih (i + 1) s h hs hr
      | some e =>
        obtain ⟨key, inst⟩ := e
        have hmem := JSMap.mem_entries_of_getElem? hslot
        obtain ⟨hid, _⟩ := h.2.2 _ hmem
        simp only at hid
        have hget : s.instances.get inst.id = some inst := by
          rw [hid]; exact JSMap.get_of_mem h.2.1 hmem
        have ht := (truthy_of_live h hget).1
        have hd := exec_destroy_of_found script fuel s ht hget
          (hs inst (List.mem_map.mpr ⟨_, hmem, rfl⟩))
        simp only [Factory.forEachDestroy, hslot] at hr
        rw [exec_forEach_succ]
        simp only [hslot]
        rw [hd]
        rcases hdes : s.destroy inst.id with ⟨c, s1⟩
        rw [hdes] at hr
        cases c with
        | threw e => simpa using hr
        | returned u =>
          simp only at hr ⊢
          apply ih (i + 1) s1 _ _ hr
          · have := Factory.inv_destroy inst.id s h
            rwa [hdes] at this
          · intro x hx
            apply hs x
            have := Factory.values_destroy_sublist inst.id s h
            rw [hdes] at this
            exact this.subset hx

/-- C6, amended. In every state a fresh Factory reaches in which the cleanup hook of every
live instance returns and makes no call on the Factory, and with more fuel than the Map has
slots plus two: `destroyAll()` ends and returns, leaves no live instance (size 0, `get()`
returns null), keeps the counter, and has called the hook of each instance that was live
once, in creation order, and nothing else. With no live instance it leaves the Factory
exactly as it was. -/
theorem destroyAll_leaves_no_instance (c : Ctor) (v : ViviView)
    (script₀ : Instance → List Call) (fuel₀ : Nat) (cs : List Call) (s : Factory)
    (hreach : runWith script₀ fuel₀ cs (Factory.fresh c v) = some s)
    (script : Instance → List Call) (fuel : Nat)
    (hall : ∀ x ∈ s.instances.values, c.destroy x = .returned ())
    (hs : ∀ x ∈ s.instances.values, script x = [])
    (hf : s.instances.length + 2 < fuel) :
    ∃ t, destroyAllWith script fuel s = some (.returned (), t) ∧
      t.instances.values = [] ∧ t.instances.size = 0 ∧
      t.get .undefined = (.returned .null, t) ∧
      t.counter = s.counter ∧
      t.trace = s.trace ++
        s.instances.values.map Event.cleanup ∧
      (s.instances.values = [] → t = s) := by
  obtain ⟨hinv, hcon, _⟩ := reachedWith_fields script₀ fuel₀ cs c v s hreach
  obtain ⟨f, rfl⟩ : ∃ f, fuel = f + 2 := ⟨fuel - 2, by omega⟩
  obtain ⟨t, h1, h2, h3, h4, h5, h6⟩ := forEachDestroy_spec s.instances.length 0 s f hinv
    (by omega) (by omega) (by rw [hcon]; exact hall)
  simp only [List.take_zero, List.drop_zero, List.nil_append] at h2 h3
  have hent : t.instances.entries = [] := by rw [h2]; exact JSMap.entries_map_none _
  have hval : t.instances.values = [] := by simp [JSMap.values, hent]
  refine ⟨t, exec_forEach_of_no_calls script f 0 s hinv hs _ h1, hval,
    by simp [JSMap.size, hent], ?_, h4, h3, ?_⟩
  · rw [@Factory.get_of_falsy .undefined t rfl, Factory.latest_eq, hval]
    rfl
  · intro hnil
    have he : s.instances.entries = [] := by
      simpa [JSMap.values] using hnil
    rw [JSMap.map_none_of_entries_nil _ he] at h2
    rw [hnil] at h3
    simp only [List.map_nil, List.append_nil] at h3
    cases t; cases s
    simp_all

/-- C6, witness: two live instances whose hooks return and make no call, five units of
fuel. -/
theorem destroyAll_leaves_no_instance_witness :
    runWith (fun _ => []) 2 calls (Factory.fresh widget logging) =
      some (reached widget logging calls) ∧
    (∀ x ∈ (reached widget logging calls).instances.values,
      widget.destroy x = .returned ()) ∧
    (reached widget logging calls).instances.length + 2 < 5 ∧
    ∃ t, destroyAllWith (fun _ => []) 5 (reached widget logging calls) =
        some (.returned (), t) ∧
      t.instances.values = [] :=
  ⟨rfl, fun _ _ => rfl, by decide,
    (destroyAll_leaves_no_instance widget logging (fun _ => []) 2 calls
      (reached widget logging calls) rfl (fun _ => []) 5 (fun _ _ => rfl)
      (fun _ _ => rfl) (by decide)).imp (fun _ h => ⟨h.1, h.2.1⟩)⟩

/-- C6, counterexample. With two live instances whose cleanup hook throws, `destroyAll()`
ends by throwing at the first instance, with 5 units of fuel as with 50, and both
instances stay live. With two live instances whose hooks return after each has created an
instance, it does not end, whatever the fuel. -/
theorem destroyAll_counterexample :
    (destroyAllWith (fun _ => []) 5 (reached brittle logging calls)).map
      (fun r => (r.1, r.2.instances.values)) =
      some (.threw (.error "cleanup failed"), [first, second]) ∧
    (destroyAllWith (fun _ => []) 50 (reached brittle logging calls)).map
      (fun r => (r.1, r.2.instances.values)) =
      some (.threw (.error "cleanup failed"), [first, second]) ∧
    (∀ x, widget.destroy x = .returned ()) ∧
    ∀ fuel, (destroyAllWith hydra fuel (reached widget logging calls)).isNone = true := by
  refine ⟨by decide, by decide, fun _ => rfl, ?_⟩
  intro fuel
  rw [destroyAllWith, exec_hydra_forEach fuel 0 _ (inv_reached widget logging calls)
    (fun _ => rfl) (by decide)]
  · rfl
  · intro j _ hj
    have hj2 : j < 2 := hj
    match j, hj2 with
    | 0, _ => exact ⟨_, rfl⟩
    | 1, _ => exact ⟨_, rfl⟩

/-! ## C7: get with an id -/

/-- C7, amended. In every state a fresh Factory reaches: for a truthy id, when a live
instance has exactly this identifier, `get(id)` returns that instance and makes no outside
call; when no live instance has it and the registry resolves a Logger, `get(id)` hands one
error to the sink and returns undefined if the id prints, and throws what the conversion
threw, with nothing reported, if it does not (a Symbol, an object whose conversion throws).
A falsy id is taken as omitted: `get(id)` is then `get()`. In every case the Map and the
counter are unchanged. -/
theorem get_with_id (c : Ctor) (v : ViviView)
    (script₀ : Instance → List Call) (fuel₀ : Nat) (cs : List Call) (s : Factory)
    (hreach : runWith script₀ fuel₀ cs (Factory.fresh c v) = some s) (id : JSValue) :
    (id.truthy = true → ∀ x ∈ s.instances.values, x.id = id →
      s.get id = (.returned (.inst x), s)) ∧
    (id.truthy = true → (∀ x ∈ s.instances.values, x.id ≠ id) →
      v.logger = .sink →
      (∀ text, id.toJSString = .returned text →
        (s.get id).1 = .returned .undefined ∧
        (s.get id).2.trace = s.trace ++
          [.error (c.name ++ ": No instance found with id: " ++ text)]) ∧
      (∀ e, id.toJSString = .threw e →
        s.get id = (.threw e, s))) ∧
    (id.truthy = false → s.get id = s.get .undefined) ∧
    (s.get id).2.instances = s.instances ∧
    (s.get id).2.counter = s.counter := by
  obtain ⟨hinv, hcon, hviv⟩ := reachedWith_fields script₀ fuel₀ cs c v s hreach
  refine ⟨?_, ?_, ?_, (Factory.get_fields id s).1, (Factory.get_fields id s).2.1⟩
  · intro ht x hx hid
    obtain ⟨e, he, rfl⟩ := List.mem_map.mp hx
    have hk : e.1 = id := by rw [← (hinv.2.2 e he).1]; exact hid
    have : s.instances.get id = some e.2 :=
      JSMap.get_of_mem hinv.2.1 (by rw [← hk]; exact he)
    rw [Factory.get_of_found s ht this]
  · intro ht hno hl
    have hx : s.instances.get id = none := by
      rw [JSMap.get_eq_none_iff]
      intro e he hk
      exact hno e.2 (List.mem_map.mpr ⟨e, he, rfl⟩) (by rw [(hinv.2.2 e he).1]; exact hk)
    constructor
    · intro text htx
      rw [Factory.get_of_missing s ht hx htx, hviv, hl, hcon]
      exact ⟨rfl, rfl⟩
    · intro e htx
      rw [Factory.get_of_unprintable s ht hx htx, hviv, hl]
  · intro hf
    rw [Factory.get_of_falsy s hf, @Factory.get_of_falsy .undefined s rfl]

/-- C7, witness: the id 1 of a live instance, the id 7 that no instance has, and a
Symbol. -/
theorem get_with_id_witness :
    runWith (fun _ => []) 2 calls (Factory.fresh widget logging) =
      some (reached widget logging calls) ∧
    (JSValue.num 1).truthy = true ∧ first ∈ (reached widget logging calls).instances.values ∧
    (reached widget logging calls).get (.num 1) =
      (.returned (.inst first), reached widget logging calls) ∧
    ((reached widget logging calls).get (.num 7)).1 = .returned .undefined ∧
    (reached widget logging calls).get (.symbol 0) =
      (.threw (.typeError "Cannot convert a Symbol value to a string"),
        reached widget logging calls) :=
  ⟨rfl, by decide, by decide,
    (get_with_id widget logging (fun _ => []) 2 calls (reached widget logging calls) rfl
      (.num 1)).1 (by decide) first (by decide) rfl,
    (((get_with_id widget logging (fun _ => []) 2 calls (reached widget logging calls) rfl
      (.num 7)).2.1 (by decide) (by decide) rfl).1 "7" rfl).1,
    ((get_with_id widget logging (fun _ => []) 2 calls (reached widget logging calls) rfl
      (.symbol 0)).2.1 rfl (by decide) rfl).2 _ rfl⟩

/-- C7, counterexample. With two live instances, of ids 1 and 2, `get(0)` is given an id
that no live instance has, yet it returns the instance with id 2 and reports nothing (the
same for the empty string, null, NaN and false). In a registry whose Logger has no live
instance `get(7)` throws. And `get` of a Symbol throws a TypeError and reports nothing. -/
theorem get_with_id_counterexample :
    ((reached widget logging calls).get (.num 0)).1 = .returned (.inst second) ∧
    ((reached widget logging calls).get (.num 0)).2.trace = [] ∧
    ((reached widget logging calls).get (.str "")).1 = .returned (.inst second) ∧
    ((reached widget logging calls).get .null).1 = .returned (.inst second) ∧
    ((reached widget logging calls).get .nan).1 = .returned (.inst second) ∧
    ((reached widget logging calls).get (.bool false)).1 = .returned (.inst second) ∧
    ((reached widget silent calls).get (.num 7)).1 =
      .threw (.typeError "null has no properties") ∧
    ((reached widget logging calls).get (.symbol 0)).1 =
      .threw (.typeError "Cannot convert a Symbol value to a string") ∧
    ((reached widget logging calls).get (.symbol 0)).2.trace = [] := by
  decide

/-! ## C8: the constructor of Factory -/

/-- C8. The constructor of Factory throws not only when the registry reference is missing
but also when the registry is given and the constructor reference is missing: the error
branch reads the field `this.vivi`, which has not been assigned yet, so a TypeError leaves
the constructor and neither a report nor a Factory results. Construction throws exactly
when one of the two arguments is missing. -/
theorem new_throws_without_constructor :
    (∀ v : ViviView, Factory.new none (some v) = .threw (.typeError "this.vivi is undefined")) ∧
    (∀ c : Option Ctor, Factory.new c none =
      .threw (.referenceError "ModuleFactory is required.")) ∧
    (∀ (c : Ctor) (v : ViviView),
      Factory.new (some c) (some v) = .returned (.ready (Factory.fresh c v))) ∧
    ∀ (c : Option Ctor) (v : Option ViviView),
      (∃ e, Factory.new c v = .threw e) ↔ (v = none ∨ c = none) := by
  refine ⟨fun _ => rfl, fun _ => rfl, fun _ _ => rfl, ?_⟩
  intro c v
  cases v with
  | none => simp [Factory.new]
  | some v =>
    cases c with
    | none => simp [Factory.new]
    | some c => simp [Factory.new]

/-! ## C9: getFactory -/

/-- C9, amended. For every registry and every lookup key with name n: when a Factory is
registered under n, `getFactory` returns it and does nothing else. When none is and n is
the name Logger, it throws the error whose message ends with n. When none is and n is
another name: if the Logger factory is registered and has a live instance, it hands one
error that names n to that Logger and returns undefined; if the Logger factory is
registered and has no live instance, the report fails with a TypeError; if no Logger
factory is registered, it throws the error that names Logger and reports nothing. The
registry Map is never changed. -/
theorem getFactory_lookup (m : ModuleFactory) (ref : TypeRef) :
    (∀ f, m.factories.get ref.instanceName = some f →
      m.getFactory ref = (.returned (some f), m)) ∧
    (m.factories.get ref.instanceName = none → ref.instanceName = "Logger" →
      m.getFactory ref = (.threw (.error (ModuleFactory.notFound ref.instanceName)), m)) ∧
    (m.factories.get ref.instanceName = none → ref.instanceName ≠ "Logger" →
      (∀ L x, m.factories.get "Logger" = some L → L.factory.latest = .inst x →
        m.getFactory ref = (.returned none,
          { m with trace := m.trace ++ [.error (ModuleFactory.notFound ref.instanceName)] })) ∧
      (∀ L, m.factories.get "Logger" = some L → L.factory.latest = .null →
        m.getFactory ref = (.threw (.typeError "null has no properties"), m)) ∧
      (m.factories.get "Logger" = none →
        m.getFactory ref = (.threw (.error (ModuleFactory.notFound "Logger")), m))) ∧
    (m.getFactory ref).2.factories = m.factories := by
  refine ⟨?_, ?_, ?_, ?_⟩
  · intro f hf
    simp [ModuleFactory.getFactory, hf]
  · intro hf hn
    rw [hn] at hf
    simp [ModuleFactory.getFactory, hf, hn]
  · intro hf hn
    refine ⟨?_, ?_, ?_⟩
    · intro L x hL hx
      simp [ModuleFactory.getFactory, hf, hn, ModuleFactory.getLogger,
        ModuleFactory.getFactoryOfLogger, hL, @Factory.get_of_falsy .undefined L.factory rfl, hx]
    · intro L hL hx
      simp [ModuleFactory.getFactory, hf, hn, ModuleFactory.getLogger,
        ModuleFactory.getFactoryOfLogger, hL, @Factory.get_of_falsy .undefined L.factory rfl, hx]
    · intro hL
      simp [ModuleFactory.getFactory, hf, hn, ModuleFactory.getLogger,
        ModuleFactory.getFactoryOfLogger, hL]
  · unfold ModuleFactory.getFactory
    simp only
    split
    · rfl
    · split
      · rfl
      · split <;> rfl

/-- C9, witness: the absent name Gadget in a registry with a live Logger. -/
theorem getFactory_lookup_witness :
    (wired.getFactory (.name "Gadget")).2.factories = wired.factories ∧
    wired.getFactory (.name "Gadget") = (.returned none,
      { wired with trace := wired.trace ++ [.error (ModuleFactory.notFound "Gadget")] }) :=
  ⟨(getFactory_lookup wired (.name "Gadget")).2.2.2,
    ((getFactory_lookup wired (.name "Gadget")).2.2.1 rfl (by decide)).1
      { kind := .service, factory := run [.create .undefined] (Factory.fresh logger logging) }
      first rfl rfl⟩

/-- C9, counterexample. In a registry without a Logger factory the lookup of the absent
name Gadget throws (the error names Logger) and nothing is reported; in a registry whose
Logger factory has no live instance the same lookup throws a TypeError. -/
theorem getFactory_counterexample :
    (unwired.getFactory (.name "Gadget")).1 =
      .threw (.error "No service factory or component factory found for Logger") ∧
    (unwired.getFactory (.name "Gadget")).2.trace = [] ∧
    (mute.getFactory (.name "Gadget")).1 = .threw (.typeError "null has no properties") ∧
    (mute.getFactory (.name "Gadget")).2.trace = [] := by
  refine ⟨rfl, rfl, rfl, rfl⟩

/-! ## C10: ModuleFactory.get -/

theorem JSMap.get_set_self {κ ν : Type} [DecidableEq κ] (k : κ) (v : ν) (m : JSMap κ ν) :
    JSMap.get k (JSMap.set k v m) = some v := by
  induction m with
  | nil => simp [JSMap.set, JSMap.get]
  | cons a m ih =>
    cases a with
    | none => simpa [JSMap.set, JSMap.get] using ih
    | some e =>
      obtain ⟨k', v'⟩ := e
      by_cases hk : k' = k <;> simp [JSMap.set, JSMap.get, hk, ih]

theorem Factory.latest_create (data : JSValue) (s : Factory) (h : Inv s) :
    (s.create data).2.latest = .inst (s.create data).1 := by
  rw [Factory.latest_eq, Factory.values_create data s h]
  simp

/-- C10. For every registry and every type registered in it, given as constructor or as
name, and every id, given or not: `getFactory` returns the registered Factory, and
`ModuleFactory.get(T, id)` returns what the `get(id)` of that Factory returns and leaves
that Factory as its `get(id)` leaves it. Right after `create()` on the registered Factory
(one that calls on a fresh Factory have produced) has returned x, `get(T)` without an id
returns x. In the TypeScript variant `get` and `getByString` likewise end exactly as
`get(id)` applied to what `getFactory` and `getFactoryByString` return. -/
theorem module_get_is_factory_get {SF CF R : Type} (m : ModuleFactory) (ref : TypeRef)
    (id : JSValue) (f : Registered) (hreg : m.factories.get ref.instanceName = some f) :
    m.getFactory ref = (.returned (some f), m) ∧
    m.get ref id = ((f.factory.get id).1,
      m.store ref.instanceName { f with factory := (f.factory.get id).2 }) ∧
    (∀ (c : Ctor) (v : ViviView) (cs : List Call) (data : JSValue),
      f.factory = reached c v cs →
      ((m.store ref.instanceName { f with factory := (f.factory.create data).2 }).get ref
        .undefined).1 = .returned (.inst (f.factory.create data).1)) ∧
    (∀ (sget : SF → JSValue → Completion R) (cget : CF → JSValue → Completion R)
      (tm : TS.ModuleFactory SF CF) (k : Ctor) (name : String),
      TS.get sget cget k id tm =
        (match TS.getFactory k tm with
          | .threw e => .threw e
          | .returned r => r.get sget cget id) ∧
      TS.getByString sget cget name id tm =
        (match TS.getFactoryByString name tm with
          | .threw e => .threw e
          | .returned r => r.get sget cget id)) := by
  have hgf : m.getFactory ref = (.returned (some f), m) := by
    simp [ModuleFactory.getFactory, hreg]
  refine ⟨hgf, ?_, ?_, ?_⟩
  · simp [ModuleFactory.get, hgf]
  · intro c v cs data hreach
    have hinv : Inv f.factory := by rw [hreach]; exact inv_reached c v cs
    have hget : (m.store ref.instanceName
        { f with factory := (f.factory.create data).2 }).factories.get ref.instanceName =
        some { f with factory := (f.factory.create data).2 } := by
      simp [ModuleFactory.store, JSMap.get_set_self]
    simp only [ModuleFactory.get, ModuleFactory.getFactory, hget]
    rw [@Factory.get_of_falsy .undefined _ rfl, Factory.latest_create data _ hinv]
  · intro sget cget tm k name
    have key : ∀ n : String, TS.getByString sget cget n id tm =
        (match TS.getFactoryByString n tm with
          | .threw e => .threw e
          | .returned r => r.get sget cget id) := by
      intro n
      unfold TS.getByString TS.getFactoryByString
      cases TS.suffixOf n with
      | none => rfl
      | some kind =>
        cases kind with
        | service => cases tm.services.get n <;> rfl
        | component => cases tm.components.get n <;> rfl
    exact ⟨key k.name, key name⟩

/-- C10, witness: the Widget factory of the sample registry, looked up by name. -/
theorem module_get_is_factory_get_witness :
    wired.factories.get (TypeRef.name "Widget").instanceName =
      some { kind := .component, factory := reached widget logging calls } ∧
    (wired.get (.name "Widget") .undefined).1 = .returned (.inst second) :=
  ⟨rfl, by
    have h := (@module_get_is_factory_get Unit Unit Unit wired (.name "Widget") .undefined
      { kind := .component, factory := reached widget logging calls } rfl).2.1
    rw [h]
    rfl⟩

/-! ## C11: ModuleFactory.get with a name that is not registered -/

/-- C11. For every registry and every name that is not registered and is not Logger,
`ModuleFactory.get(name, id)` throws, whatever the id: `getFactory` returns undefined after
its report and `get` calls `.get(id)` on that undefined. With a Logger factory that has a
live instance the one error is reported first and a TypeError follows; the registry Map
is unchanged. So the call is not recoverable for its caller. -/
theorem module_get_absent_name_throws (m : ModuleFactory) (ref : TypeRef) (id : JSValue)
    (habs : m.factories.get ref.instanceName = none) (hn : ref.instanceName ≠ "Logger") :
    (∃ e, (m.get ref id).1 = .threw e) ∧
    (∀ L x, m.factories.get "Logger" = some L → L.factory.latest = .inst x →
      m.get ref id = (.threw (.typeError "undefined has no properties"),
        { m with trace := m.trace ++ [.error (ModuleFactory.notFound ref.instanceName)] })) ∧
    (m.get ref id).2.factories = m.factories := by
  have hgf : m.getFactory ref = (match m.getLogger with
      | .threw e => (.threw e, m)
      | .returned (.inst _) =>
        (.returned none,
          { m with trace := m.trace ++ [.error (ModuleFactory.notFound ref.instanceName)] })
      | .returned _ => (.threw (.typeError "null has no properties"), m)) := by
    simp [ModuleFactory.getFactory, habs, hn]
  refine ⟨?_, ?_, ?_⟩
  · rw [ModuleFactory.get, hgf]
    cases hl : m.getLogger with
    | threw e => exact ⟨_, rfl⟩
    | returned f => cases f <;> exact ⟨_, rfl⟩
  · intro L x hL hx
    have hlog : m.getLogger = .returned (.inst x) := by
      simp [ModuleFactory.getLogger, ModuleFactory.getFactoryOfLogger, hL,
        @Factory.get_of_falsy .undefined L.factory rfl, hx]
    rw [ModuleFactory.get, hgf, hlog]
  · rw [ModuleFactory.get, hgf]
    cases hl : m.getLogger with
    | threw e => rfl
    | returned f => cases f <;> rfl

/-- C11, witness: the name Gadget in the sample registry, which has a live Logger. The
call reports the miss and then throws. -/
theorem module_get_absent_name_throws_witness :
    wired.factories.get (TypeRef.name "Gadget").instanceName = none ∧
    (TypeRef.name "Gadget").instanceName ≠ "Logger" ∧
    (wired.get (.name "Gadget") (.num 1)).1 =
      .threw (.typeError "undefined has no properties") ∧
    (wired.get (.name "Gadget") (.num 1)).2.trace =
      [.error "No service factory or component factory found for Gadget"] :=
  ⟨rfl, by decide,
    by rw [(module_get_absent_name_throws wired (.name "Gadget") (.num 1) rfl (by decide)).2.1
      { kind := .service, factory := run [.create .undefined] (Factory.fresh logger logging) }
      first rfl rfl],
    by rw [(module_get_absent_name_throws wired (.name "Gadget") (.num 1) rfl (by decide)).2.1
      { kind := .service, factory := run [.create .undefined] (Factory.fresh logger logging) }
      first rfl rfl]; rfl⟩

/-! ## C19: how many reports an unknown id causes -/

/-- C19, amended. In every state a fresh Factory reaches, for a truthy id that no live
instance has, and a registry that resolves a Logger. When the id prints, `get(id)` hands
the sink exactly one entry, an error, and `destroy(id)` hands it exactly two, the error of
the `get` it calls and then its own warning. When the id does not print (a Symbol, an
object whose conversion throws), both calls throw what the conversion threw and hand the
sink nothing. No cleanup hook runs in `destroy(id)`, so the hooks make no difference. -/
theorem unknown_id_reports (c : Ctor) (v : ViviView)
    (script₀ : Instance → List Call) (fuel₀ : Nat) (cs : List Call) (s : Factory)
    (hreach : runWith script₀ fuel₀ cs (Factory.fresh c v) = some s) (id : JSValue)
    (ht : id.truthy = true) (hx : s.instances.get id = none)
    (hl : v.logger = .sink) :
    (∀ text, id.toJSString = .returned text →
      (s.get id).2.trace = s.trace ++
        [.error (c.name ++ ": No instance found with id: " ++ text)] ∧
      (s.get id).2.trace.length = s.trace.length + 1 ∧
      (s.destroy id).2.trace = s.trace ++
        [.error (c.name ++ ": No instance found with id: " ++ text),
         .warn ("Error destroying instance " ++ text ++
           ". Id does not exist in factory.")] ∧
      (s.destroy id).2.trace.length = s.trace.length + 2) ∧
    (∀ e, id.toJSString = .threw e →
      s.get id = (.threw e, s) ∧
      s.destroy id = (.threw e, s)) ∧
    (∀ (script : Instance → List Call) (fuel : Nat),
      exec script (fuel + 1) (.destroy id) s =
        some (s.destroy id)) := by
  obtain ⟨_, hcon, hviv⟩ := reachedWith_fields script₀ fuel₀ cs c v s hreach
  refine ⟨?_, ?_, fun script fuel =>
    exec_destroy_of_not_found script fuel s (Factory.get_of_not_live_ne s ht hx)⟩
  · intro text htx
    have hg : (s.get id).2.trace = s.trace ++
        [.error (c.name ++ ": No instance found with id: " ++ text)] := by
      rw [Factory.get_of_missing s ht hx htx, hviv, hl, hcon]
    have hd : (s.destroy id).2.trace = s.trace ++
        [.error (c.name ++ ": No instance found with id: " ++ text),
         .warn ("Error destroying instance " ++ text ++
           ". Id does not exist in factory.")] := by
      rw [Factory.destroy_of_missing s ht hx htx, hviv, hl, hcon]
    exact ⟨hg, by rw [hg]; simp, hd, by rw [hd]; simp⟩
  · intro e htx
    constructor
    · rw [Factory.get_of_unprintable s ht hx htx, hviv, hl]
    · rw [Factory.destroy_of_unprintable s ht hx htx, hviv, hl]

/-- C19, witness: the id 7 and a Symbol on a Factory with the live ids 1 and 2. -/
theorem unknown_id_reports_witness :
    runWith (fun _ => []) 2 calls (Factory.fresh widget logging) =
      some (reached widget logging calls) ∧
    (JSValue.num 7).truthy = true ∧
    (reached widget logging calls).instances.get (.num 7) = none ∧
    logging.logger = .sink ∧
    ((reached widget logging calls).destroy (.num 7)).2.trace.length =
      (reached widget logging calls).trace.length + 2 ∧
    (reached widget logging calls).destroy (.symbol 0) =
      (.threw (.typeError "Cannot convert a Symbol value to a string"),
        reached widget logging calls) :=
  ⟨rfl, by decide, by decide, rfl,
    ((unknown_id_reports widget logging (fun _ => []) 2 calls (reached widget logging calls)
      rfl (.num 7) (by decide) (by decide) rfl).1 "7" rfl).2.2.2,
    ((unknown_id_reports widget logging (fun _ => []) 2 calls (reached widget logging calls)
      rfl (.symbol 0) rfl (by decide) rfl).2.1 _ rfl).2⟩

/-- C19, counterexample. On a Factory with the live ids 1 and 2, `destroy(7)` produces two
log entries, an error and then a warning, not one; and `get` and `destroy` of a Symbol
produce none. -/
theorem unknown_id_reports_counterexample :
    ((reached widget logging calls).destroy (.num 7)).2.trace =
      [.error "Widget: No instance found with id: 7",
       .warn "Error destroying instance 7. Id does not exist in factory."] ∧
    ((reached widget logging calls).get (.symbol 0)).2.trace = [] ∧
    ((reached widget logging calls).destroy (.symbol 0)).2.trace = [] := by
  decide

/-! ## C13: the suffix rule of the TypeScript lookups -/

namespace TS

theorem matchWord_sound {rest w : List Char} (h : matchWord rest = some w) :
    w = rest ∧ w ∈ words := by
  unfold matchWord at h
  have h1 := List.find?_some h
  have h2 := List.mem_of_find?_eq_some h
  exact ⟨by simpa using h1, h2⟩

theorem matchHere_sound {s g1 g2 : List Char} (h : matchHere s = some (g1, g2)) :
    s = g1 ++ g2 ∧ g2 ∈ words := by
  induction s generalizing g1 g2 with
  | nil =>
    simp only [matchHere, Option.map_eq_some'] at h
    obtain ⟨w, hw, he⟩ := h
    obtain ⟨h1, h2⟩ := matchWord_sound hw
    simp only [Prod.mk.injEq] at he
    obtain ⟨rfl, rfl⟩ := he
    exact ⟨by simp [h1], h2⟩
  | cons c cs ih =>
    have tail : ∀ {g1 g2 : List Char},
        (matchWord (c :: cs)).map (fun w => (([] : List Char), w)) = some (g1, g2) →
        c :: cs = g1 ++ g2 ∧ g2 ∈ words := by
      intro g1 g2 h
      simp only [Option.map_eq_some'] at h
      obtain ⟨w, hw, he⟩ := h
      obtain ⟨h1, h2⟩ := matchWord_sound hw
      simp only [Prod.mk.injEq] at he
      obtain ⟨rfl, rfl⟩ := he
      exact ⟨by simp [h1], h2⟩
    unfold matchHere at h
    split at h
    · exact tail h
    · cases hm : matchHere cs with
      | none =>
        rw [hm] at h
        exact tail h
      | some r =>
        obtain ⟨a, b⟩ := r
        rw [hm] at h
        simp only [Option.some.injEq, Prod.mk.injEq] at h
        obtain ⟨rfl, rfl⟩ := h
        obtain ⟨h1, h2⟩ := ih hm
        exact ⟨by simp [h1], h2⟩

theorem regexMatch_sound {s g1 g2 : List Char} (h : regexMatch s = some (g1, g2)) :
    g2 <:+ s ∧ g2 ∈ words := by
  induction s with
  | nil =>
    obtain ⟨h1, h2⟩ := matchHere_sound (by simpa [regexMatch] using h)
    exact ⟨⟨g1, h1.symm⟩, h2⟩
  | cons c cs ih =>
    unfold regexMatch at h
    cases hm : matchHere (c :: cs) with
    | some r =>
      rw [hm] at h
      simp only [Option.some.injEq] at h
      subst h
      obtain ⟨h1, h2⟩ := matchHere_sound hm
      exact ⟨⟨g1, h1.symm⟩, h2⟩
    | none =>
      rw [hm] at h
      obtain ⟨h1, h2⟩ := ih h
      exact ⟨h1.trans (List.suffix_cons c cs), h2⟩

theorem matchHere_word {w : List Char} (h : w ∈ words) : (matchHere w).isSome = true := by
  simp only [words, List.mem_cons, List.mem_singleton, List.not_mem_nil, or_false] at h
  rcases h with rfl | rfl <;> decide

theorem regexMatch_complete {s w : List Char} (hw : w ∈ words) (hs : w <:+ s) :
    (regexMatch s).isSome = true := by
  obtain ⟨pre, rfl⟩ := hs
  induction pre with
  | nil =>
    have hne : w ≠ [] := by
      simp only [words, List.mem_cons, List.mem_singleton, List.not_mem_nil, or_false] at hw
      rcases hw with rfl | rfl <;> decide
    obtain ⟨c, cs, rfl⟩ := List.exists_cons_of_ne_nil hne
    have := matchHere_word hw
    simp only [List.nil_append, regexMatch]
    cases hm : matchHere (c :: cs) with
    | some r => rfl
    | none => rw [hm] at this; exact absurd this (by simp)
  | cons c pre ih =>
    simp only [List.cons_append, regexMatch]
    cases hm : matchHere (c :: (pre ++ w)) with
    | some r => rfl
    | none => exact ih

theorem not_both_words {s : List Char} (h1 : "Service".toList <:+ s)
    (h2 : "Component".toList <:+ s) : False := by
  have h := List.suffix_of_suffix_length_le h1 h2 (by decide)
  revert h
  decide

theorem suffixOf_service (name : String) :
    suffixOf name = some .service ↔ endsWith name "Service" = true := by
  unfold suffixOf endsWith
  rw [List.isSuffixOf_iff_suffix]
  constructor
  · intro h
    cases hm : regexMatch name.toList with
    | none => rw [hm] at h; exact absurd h (by simp)
    | some r =>
      obtain ⟨g1, g2⟩ := r
      rw [hm] at h
      obtain ⟨hs, _⟩ := regexMatch_sound hm
      by_cases hg : g2 = "Service".toList
      · rw [← hg]; exact hs
      · simp only [hg, if_false] at h
        split at h <;> simp at h
  · intro h
    have hsome := @regexMatch_complete name.toList "Service".toList (by simp [words]) h
    cases hm : regexMatch name.toList with
    | none => rw [hm] at hsome; exact absurd hsome (by simp)
    | some r =>
      obtain ⟨g1, g2⟩ := r
      obtain ⟨hs, hw⟩ := regexMatch_sound hm
      simp only [words, List.mem_cons, List.mem_singleton, List.not_mem_nil, or_false] at hw
      rcases hw with rfl | rfl
      · exact absurd hs (fun hc => not_both_words h hc)
      · simp

theorem suffixOf_component (name : String) :
    suffixOf name = some .component ↔ endsWith name "Component" = true := by
  unfold suffixOf endsWith
  rw [List.isSuffixOf_iff_suffix]
  constructor
  · intro h
    cases hm : regexMatch name.toList with
    | none => rw [hm] at h; exact absurd h (by simp)
    | some r =>
      obtain ⟨g1, g2⟩ := r
      rw [hm] at h
      obtain ⟨hs, _⟩ := regexMatch_sound hm
      by_cases hg : g2 = "Service".toList
      · simp [hg] at h
      · by_cases hg2 : g2 = "Component".toList
        · rw [← hg2]; exact hs
        · simp only [if_neg hg, if_neg hg2] at h
          exact absurd h (by simp)
  · intro h
    have hsome := @regexMatch_complete name.toList "Component".toList (by simp [words]) h
    cases hm : regexMatch name.toList with
    | none => rw [hm] at hsome; exact absurd hsome (by simp)
    | some r =>
      obtain ⟨g1, g2⟩ := r
      obtain ⟨hs, hw⟩ := regexMatch_sound hm
      simp only [words, List.mem_cons, List.mem_singleton, List.not_mem_nil, or_false] at hw
      rcases hw with rfl | rfl
      · have : ¬ ("Component".toList = "Service".toList) := by decide
        simp [this]
      · exact absurd h (fun hc => not_both_words hs hc)

theorem suffixOf_eq_classify (name : String) : suffixOf name = classify name := by
  unfold classify
  by_cases h1 : endsWith name "Service" = true
  · rw [if_pos h1]; exact (suffixOf_service name).mpr h1
  · rw [if_neg h1]
    by_cases h2 : endsWith name "Component" = true
    · rw [if_pos h2]; exact (suffixOf_component name).mpr h2
    · rw [if_neg h2]
      cases hs : suffixOf name with
      | none => rfl
      | some k =>
        cases k with
        | service => exact absurd ((suffixOf_service name).mp hs) h1
        | component => exact absurd ((suffixOf_component name).mp hs) h2

end TS

/-- C13. In the TypeScript variant, for every name: the second group of the regular
expression says Service exactly when the name ends in Service, Component exactly when it
ends in Component, and nothing exactly when it ends in neither (this is the rule as the
spec words it, `classify`). A name that ends in Service is looked up in the Service map by
`getFactoryByString` and by `getByString`, one that ends in Component in the Component map,
and `getFactoryByString` throws exactly when the name ends in neither, and what it throws
then is the string `No service or component for ` followed by the name, as does
`getByString` whatever the Factory classes do; Foo is such a name. -/
theorem lookup_by_suffix {SF CF R : Type} (m : TS.ModuleFactory SF CF) (name : String)
    (id : JSValue) :
    TS.suffixOf name = TS.classify name ∧
    (TS.suffixOf name = some .service ↔ TS.endsWith name "Service" = true) ∧
    (TS.suffixOf name = some .component ↔ TS.endsWith name "Component" = true) ∧
    (TS.suffixOf name = none ↔
      (TS.endsWith name "Service" = false ∧ TS.endsWith name "Component" = false)) ∧
    (TS.endsWith name "Service" = true →
      TS.getFactoryByString name m = .returned (match m.services.get name with
        | some f => .service f
        | none => .undefined) ∧
      ∀ (sget : SF → JSValue → Completion R) (cget : CF → JSValue → Completion R),
        TS.getByString sget cget name id m = (match m.services.get name with
          | some f => sget f id
          | none => .threw (.typeError "undefined has no properties"))) ∧
    (TS.endsWith name "Component" = true →
      TS.getFactoryByString name m = .returned (match m.components.get name with
        | some f => .component f
        | none => .undefined) ∧
      ∀ (sget : SF → JSValue → Completion R) (cget : CF → JSValue → Completion R),
        TS.getByString sget cget name id m = (match m.components.get name with
          | some f => cget f id
          | none => .threw (.typeError "undefined has no properties"))) ∧
    (TS.getFactoryByString name m =
        .threw (.thrown (.str ("No service or component for " ++ name))) ↔
      (TS.endsWith name "Service" = false ∧ TS.endsWith name "Component" = false)) ∧
    ((∀ (sget : SF → JSValue → Completion R) (cget : CF → JSValue → Completion R),
        TS.getByString sget cget name id m =
          .threw (.thrown (.str ("No service or component for " ++ name)))) ↔
      (TS.endsWith name "Service" = false ∧ TS.endsWith name "Component" = false)) ∧
    ((∃ e, TS.getFactoryByString name m = .threw e) ↔
      (TS.endsWith name "Service" = false ∧ TS.endsWith name "Component" = false)) ∧
    TS.getFactoryByString "Foo" m = .threw (.thrown (.str "No service or component for Foo")) := by
  have hS := TS.suffixOf_service name
  have hC := TS.suffixOf_component name
  have hN : TS.suffixOf name = none ↔
      (TS.endsWith name "Service" = false ∧ TS.endsWith name "Component" = false) := by
    constructor
    · intro h
      refine ⟨?_, ?_⟩
      · cases he : TS.endsWith name "Service" with
        | false => rfl
        | true => rw [hS.mpr he] at h; exact absurd h (by simp)
      · cases he : TS.endsWith name "Component" with
        | false => rfl
        | true => rw [hC.mpr he] at h; exact absurd h (by simp)
    · intro ⟨h1, h2⟩
      cases hs : TS.suffixOf name with
      | none => rfl
      | some k =>
        cases k with
        | service => rw [hS.mp hs] at h1; exact absurd h1 (by simp)
        | component => rw [hC.mp hs] at h2; exact absurd h2 (by simp)
  refine ⟨TS.suffixOf_eq_classify name, hS, hC, hN, ?_, ?_, ?_, ?_, ?_, ?_⟩
  · intro h
    have hs := hS.mpr h
    refine ⟨by simp [TS.getFactoryByString, hs], ?_⟩
    intro sget cget
    simp [TS.getByString, hs]
  · intro h
    have hs := hC.mpr h
    refine ⟨by simp [TS.getFactoryByString, hs], ?_⟩
    intro sget cget
    simp [TS.getByString, hs]
  · rw [← hN]
    constructor
    · intro h
      cases hs : TS.suffixOf name with
      | none => rfl
      | some k => cases k <;> simp [TS.getFactoryByString, hs] at h
    · intro hs
      simp [TS.getFactoryByString, hs, TS.noSuch]
  · rw [← hN]
    constructor
    · intro h
      have h' := h (fun _ _ => .threw (.typeError "")) (fun _ _ => .threw (.typeError ""))
      cases hs : TS.suffixOf name with
      | none => rfl
      | some k =>
        cases k with
        | service =>
          simp only [TS.getByString, hs] at h'
          cases hg : m.services.get name <;> simp [hg, TS.noSuch] at h'
        | component =>
          simp only [TS.getByString, hs] at h'
          cases hg : m.components.get name <;> simp [hg, TS.noSuch] at h'
    · intro hs sget cget
      simp [TS.getByString, hs, TS.noSuch]
  · rw [← hN]
    constructor
    · intro ⟨e, h⟩
      cases hs : TS.suffixOf name with
      | none => rfl
      | some k => cases k <;> simp [TS.getFactoryByString, hs] at h
    · intro hs
      exact ⟨TS.noSuch name, by simp [TS.getFactoryByString, hs]⟩
  · have : TS.suffixOf "Foo" = none := by decide
    simp [TS.getFactoryByString, this, TS.noSuch]

/-! ## Facts about runs of `set` -/

theorem JSMap.keys_nodup_iff {κ ν : Type} (m : JSMap κ ν) :
    (JSMap.entries m).Pairwise (fun a b => a.1 ≠ b.1) ↔
      ((JSMap.entries m).map Prod.fst).Nodup := by
  rw [List.Nodup, List.pairwise_map]

namespace JSMap

variable {κ ν : Type} [DecidableEq κ]

theorem get_set_ne {k k' : κ} (v : ν) (m : JSMap κ ν) (h : k' ≠ k) :
    get k (set k' v m) = get k m := by
  induction m with
  | nil => simp [set, get, h]
  | cons a m ih =>
    cases a with
    | none => simpa [set, get] using ih
    | some e =>
      obtain ⟨k₀, v₀⟩ := e
      by_cases h0 : k₀ = k'
      · subst h0
        simp [set, get, h]
      · by_cases h1 : k₀ = k
        · subst h1
          simp [set, get, h0]
        · simp [set, get, h0, h1, ih]

theorem get_isSome_iff (k : κ) (m : JSMap κ ν) :
    (get k m).isSome = true ↔ k ∈ (entries m).map Prod.fst := by
  rw [← not_iff_not]
  simp only [Bool.not_eq_true, Option.not_isSome, Option.isNone_iff_eq_none, get_eq_none_iff,
    List.mem_map, not_exists, not_and]

/-- The entries after `set` on a key that is present: the value is replaced in place. -/
theorem entries_set_of_present (k : κ) (v : ν) (m : JSMap κ ν)
    (hd : (entries m).Pairwise (fun a b => a.1 ≠ b.1)) (h : k ∈ (entries m).map Prod.fst) :
    entries (set k v m) = (entries m).map (fun e => if e.1 = k then (k, v) else e) := by
  induction m with
  | nil => simp at h
  | cons a m ih =>
    cases a with
    | none => simpa [set] using ih (by simpa using hd) (by simpa using h)
    | some e =>
      obtain ⟨k₀, v₀⟩ := e
      simp only [entries_cons_some, List.pairwise_cons] at hd
      by_cases h0 : k₀ = k
      · subst h0
        simp only [set, if_true, entries_cons_some, List.map_cons, List.cons.injEq, true_and]
        have : ∀ e ∈ entries m, (fun e : κ × ν => if e.1 = k₀ then (k₀, v) else e) e = id e := by
          intro e he
          simp [(hd.1 e he).symm]
        rw [List.map_congr_left this, List.map_id]
      · have hm : k ∈ (entries m).map Prod.fst := by
          simp only [entries_cons_some, List.map_cons, List.mem_cons] at h
          rcases h with h | h
          · exact absurd h.symm h0
          · exact h
        simp [set, h0, ih hd.2 hm]

theorem keys_set (k : κ) (v : ν) (m : JSMap κ ν)
    (hd : (entries m).Pairwise (fun a b => a.1 ≠ b.1)) :
    (entries (set k v m)).map Prod.fst =
      if k ∈ (entries m).map Prod.fst then (entries m).map Prod.fst
      else (entries m).map Prod.fst ++ [k] := by
  split
  · next h =>
    rw [entries_set_of_present k v m hd h, List.map_map]
    apply List.map_congr_left
    intro e _
    by_cases he : e.1 = k <;> simp [he]
  · next h =>
    rw [entries_set_of_absent k v m (fun e he hk => h (List.mem_map.mpr ⟨e, he, hk⟩))]
    simp

theorem pairwise_set (k : κ) (v : ν) (m : JSMap κ ν)
    (hd : (entries m).Pairwise (fun a b => a.1 ≠ b.1)) :
    (entries (set k v m)).Pairwise (fun a b => a.1 ≠ b.1) := by
  rw [keys_nodup_iff, keys_set k v m hd]
  rw [keys_nodup_iff] at hd
  split
  · exact hd
  · next h =>
    rw [List.nodup_append]
    refine ⟨hd, List.nodup_singleton _, ?_⟩
    intro a ha hb
    simp only [List.mem_singleton] at hb
    exact h (hb ▸ ha)

end JSMap

namespace JSMap

variable {κ ν : Type} [DecidableEq κ]

theorem setAll_nil (m : JSMap κ ν) : setAll [] m = m := rfl

theorem setAll_cons (e : κ × ν) (l : List (κ × ν)) (m : JSMap κ ν) :
    setAll (e :: l) m = setAll l (m.set e.1 e.2) := rfl

theorem setAll_append (l₁ l₂ : List (κ × ν)) (m : JSMap κ ν) :
    setAll (l₁ ++ l₂) m = setAll l₂ (setAll l₁ m) := by
  simp [setAll, List.foldl_append]

/-- After a run of `set` calls a key holds the value of the last call for it, and what it
held before when there was no call for it. -/
theorem get_setAll (k : κ) (l : List (κ × ν)) (m : JSMap κ ν) :
    get k (setAll l m) =
      match l.reverse.find? (fun e => decide (e.1 = k)) with
      | some e => some e.2
      | none => get k m := by
  induction l generalizing m with
  | nil => rfl
  | cons e l ih =>
    rw [setAll_cons, ih, List.reverse_cons, List.find?_append]
    cases hf : l.reverse.find? (fun e => decide (e.1 = k)) with
    | some e' => rfl
    | none =>
      by_cases hk : e.1 = k
      · simp [hk, get_set_self]
      · simp [hk, get_set_ne _ _ hk]

theorem pairwise_setAll (l : List (κ × ν)) (m : JSMap κ ν)
    (hd : (entries m).Pairwise (fun a b => a.1 ≠ b.1)) :
    (entries (setAll l m)).Pairwise (fun a b => a.1 ≠ b.1) := by
  induction l generalizing m with
  | nil => exact hd
  | cons e l ih => exact ih _ (pairwise_set e.1 e.2 m hd)

/-- A run of `set` calls for keys that are new and pairwise distinct appends its pairs. -/
theorem entries_setAll_fresh (l : List (κ × ν)) (m : JSMap κ ν)
    (hl : (l.map Prod.fst).Nodup) (hm : ∀ k ∈ l.map Prod.fst, k ∉ (entries m).map Prod.fst) :
    entries (setAll l m) = entries m ++ l := by
  induction l generalizing m with
  | nil => simp [setAll_nil]
  | cons e l ih =>
    simp only [List.map_cons, List.nodup_cons, List.mem_cons, forall_eq_or_imp] at hl hm
    have he : entries (m.set e.1 e.2) = entries m ++ [e] :=
      entries_set_of_absent e.1 e.2 m (fun a ha hk => hm.1 (List.mem_map.mpr ⟨a, ha, hk⟩))
    rw [setAll_cons, ih _ hl.2, he]
    · simp
    · intro k hk
      rw [he]
      simp only [List.map_append, List.map_cons, List.map_nil, List.mem_append,
        List.mem_singleton, not_or]
      exact ⟨hm.2 k hk, fun h => hl.1 (h ▸ hk)⟩

/-- A run of `set` calls keeps a property that every value set has. -/
theorem forall_setAll (p : ν → Prop) (l : List (κ × ν)) (m : JSMap κ ν)
    (hd : (entries m).Pairwise (fun a b => a.1 ≠ b.1))
    (hm : ∀ e ∈ entries m, p e.2) (hl : ∀ e ∈ l, p e.2) :
    ∀ e ∈ entries (setAll l m), p e.2 := by
  induction l generalizing m with
  | nil => exact hm
  | cons a l ih =>
    simp only [List.mem_cons, forall_eq_or_imp] at hl
    apply ih _ (pairwise_set a.1 a.2 m hd) _ hl.2
    intro e he
    by_cases hk : a.1 ∈ (entries m).map Prod.fst
    · rw [entries_set_of_present a.1 a.2 m hd hk] at he
      obtain ⟨e', he', rfl⟩ := List.mem_map.mp he
      by_cases h : e'.1 = a.1
      · simpa [h] using hl.1
      · simpa [h] using hm e' he'
    · rw [entries_set_of_absent a.1 a.2 m
        (fun x hx hxk => hk (List.mem_map.mpr ⟨x, hx, hxk⟩))] at he
      rcases List.mem_append.mp he with he | he
      · exact hm e he
      · simp only [List.mem_singleton] at he
        subst he
        exact hl.1

end JSMap

/-! ## Facts about the constructor of ModuleFactory (module-factory.js) -/

namespace ModuleFactory

theorem foldl_store (l : List (String × Registered)) (m : ModuleFactory) :
    l.foldl (fun t e => t.store e.1 e.2) m =
      { m with factories := JSMap.setAll l m.factories } := by
  induction l generalizing m with
  | nil => rfl
  | cons e l ih => rw [List.foldl_cons, ih]; rfl

theorem loadModules_eq (modules : List ModuleFactory) (m : ModuleFactory) :
    loadModules modules m =
      { m with factories := (JSMap.setAll
          (modules.flatMap (fun childModule => childModule.factories.entries)) m.factories) } := by
  unfold loadModules
  induction modules generalizing m with
  | nil => rfl
  | cons c cs ih =>
    rw [List.foldl_cons, ih, foldl_store, List.flatMap_cons, JSMap.setAll_append]

theorem loadServices_eq (lvs : List Class) (overrides : List Override) (v : ViviView)
    (m : ModuleFactory) :
    loadServices lvs overrides v m =
      { m with factories := (JSMap.setAll
          (lvs.map (fun service => (service.ctor.name, bakedIn overrides v service)))
          m.factories) } := by
  unfold loadServices
  rw [← foldl_store, List.foldl_map]

theorem initServices_eq (l : List Ctor) (v : ViviView) (m : ModuleFactory) :
    initServices l v m =
      { m with factories := (JSMap.setAll
          (l.map (fun c => (c.name, Registered.service c v))) m.factories) } := by
  unfold initServices
  rw [← foldl_store, List.foldl_map]

theorem initComponents_eq (l : List Ctor) (v : ViviView) (m : ModuleFactory) :
    initComponents l v m =
      { m with factories := (JSMap.setAll
          (l.map (fun c => (c.name, Registered.component c v))) m.factories) } := by
  unfold initComponents
  rw [← foldl_store, List.foldl_map]

/-- The four loops of the constructor are one run of `set` calls over the registrations. -/
theorem registered_eq (lvs : List Class) (v : ViviView) (module : Option Module)
    (overrides : Option (List Override)) :
    registered lvs v module overrides =
      { factories := JSMap.setAll (registrations lvs v module overrides) [], trace := [] } := by
  unfold registered registrations
  simp only [JSMap.setAll_append]
  cases hm : (module.getD {}).modules <;> cases hs : (module.getD {}).serviceConstructors <;>
    cases hc : (module.getD {}).componentConstructors <;>
    simp [loadModules_eq, loadServices_eq, initServices_eq, initComponents_eq,
      JSMap.setAll_nil]

end ModuleFactory

namespace ModuleFactory

theorem registered_get (lvs : List Class) (v : ViviView) (module : Option Module)
    (overrides : Option (List Override)) (name : String) :
    (registered lvs v module overrides).factories.get name =
      lastRegistration (registrations lvs v module overrides) name := by
  rw [registered_eq, lastRegistration]
  simp only
  rw [JSMap.get_setAll]
  cases (registrations lvs v module overrides).reverse.find? (fun e => decide (e.1 = name)) <;>
    rfl

theorem registered_pairwise (lvs : List Class) (v : ViviView) (module : Option Module)
    (overrides : Option (List Override)) :
    (registered lvs v module overrides).factories.entries.Pairwise (fun a b => a.1 ≠ b.1) := by
  rw [registered_eq]
  exact JSMap.pairwise_setAll _ _ (by simp)

theorem construct_of_no_root (lvs : List Class) (v : ViviView) (module : Option Module)
    (overrides : Option (List Override)) (h : rootGiven module = none) :
    construct lvs v module overrides = .returned (registered lvs v module overrides) := by
  simp [construct, h]

theorem getFactory_of_found {m : ModuleFactory} {ref : TypeRef} {rf : Registered}
    (hg : m.factories.get ref.instanceName = some rf) :
    m.getFactory ref = (.returned (some rf), m) := by
  simp [getFactory, hg]

theorem getFactory_of_absent {m : ModuleFactory} {ref : TypeRef}
    (hg : m.factories.get ref.instanceName = none) :
    (∃ e, (m.getFactory ref).1 = .threw e) ∨ (m.getFactory ref).1 = .returned none := by
  simp only [getFactory, hg]
  split
  · exact Or.inl ⟨_, rfl⟩
  · cases m.getLogger with
    | threw e => exact Or.inl ⟨_, rfl⟩
    | returned f => cases f <;> first | exact Or.inr rfl | exact Or.inl ⟨_, rfl⟩

/-- When a root component is given and the constructor returns, the root is registered
as a component and the registry is the one of the four loops with the root mounted. -/
theorem construct_of_root (lvs : List Class) (v : ViviView) (module : Option Module)
    (overrides : Option (List Override)) (root : TypeRef) (m : ModuleFactory)
    (h : rootGiven module = some root) (hm : construct lvs v module overrides = .returned m) :
    ∃ rf, (registered lvs v module overrides).factories.get root.instanceName = some rf ∧
      rf.kind = .component ∧
      m = (registered lvs v module overrides).store root.instanceName
        { rf with factory := (rf.factory.create .undefined).2 } := by
  simp only [construct, h] at hm
  cases hg : (registered lvs v module overrides).factories.get root.instanceName with
  | none =>
    exfalso
    rcases hgf : (registered lvs v module overrides).getFactory root with ⟨r, m1⟩
    rw [hgf] at hm
    rcases getFactory_of_absent hg with ⟨e, he⟩ | he
    · rw [hgf] at he
      simp only at he
      subst he
      simp at hm
    · rw [hgf] at he
      simp only at he
      subst he
      simp at hm
  | some rf =>
    rw [getFactory_of_found hg] at hm
    simp only at hm
    refine ⟨rf, rfl, ?_, ?_⟩
    · cases hk : rf.kind with
      | component => rfl
      | service => simp [Registered.createRoot, hk] at hm
    · cases hk : rf.kind with
      | component =>
        simp only [Registered.createRoot, hk, Completion.returned.injEq] at hm
        exact hm.symm
      | service => simp [Registered.createRoot, hk] at hm

end ModuleFactory

/-! ## C16: one Factory per name, the last registration -/

/-- C16. The registry that the four loops of the constructor build holds every name once,
and under every name the Factory of the last registration of that name in the order:
merged child modules, baked-in services with overrides, supplied services, supplied
components. Without a root component the constructor returns exactly this registry. With
one, whenever it returns, the names and their order are the same, every other name holds
the same Factory, and the name of the root holds the Factory of its last registration, a
component Factory, in which the root instance has been created. -/
theorem registry_holds_last_registration (lvs : List Class) (v : ViviView)
    (module : Option Module) (overrides : Option (List Override)) :
    ((ModuleFactory.registered lvs v module overrides).factories.entries.map Prod.fst).Nodup ∧
    (∀ name, (ModuleFactory.registered lvs v module overrides).factories.get name =
      ModuleFactory.lastRegistration (ModuleFactory.registrations lvs v module overrides) name) ∧
    (ModuleFactory.rootGiven module = none →
      ModuleFactory.construct lvs v module overrides =
        .returned (ModuleFactory.registered lvs v module overrides)) ∧
    (∀ root m, ModuleFactory.rootGiven module = some root →
      ModuleFactory.construct lvs v module overrides = .returned m →
      m.factories.entries.map Prod.fst =
        (ModuleFactory.registered lvs v module overrides).factories.entries.map Prod.fst ∧
      (∀ name, name ≠ root.instanceName → m.factories.get name =
        ModuleFactory.lastRegistration (ModuleFactory.registrations lvs v module overrides)
          name) ∧
      ∃ rf, ModuleFactory.lastRegistration (ModuleFactory.registrations lvs v module overrides)
          root.instanceName = some rf ∧ rf.kind = .component ∧
        m.factories.get root.instanceName =
          some { rf with factory := (rf.factory.create .undefined).2 }) := by
  have hp := ModuleFactory.registered_pairwise lvs v module overrides
  refine ⟨(JSMap.keys_nodup_iff _).mp hp, ModuleFactory.registered_get lvs v module overrides,
    ModuleFactory.construct_of_no_root lvs v module overrides, ?_⟩
  intro root m hr hm
  obtain ⟨rf, hg, hk, rfl⟩ := ModuleFactory.construct_of_root lvs v module overrides root m hr hm
  refine ⟨?_, ?_, rf, ?_, hk, ?_⟩
  · simp only [ModuleFactory.store]
    rw [JSMap.keys_set _ _ _ hp, if_pos ((JSMap.get_isSome_iff _ _).mp (by rw [hg]; rfl))]
  · intro name hne
    simp only [ModuleFactory.store]
    rw [JSMap.get_set_ne _ _ (Ne.symm hne), ModuleFactory.registered_get]
  · rw [← ModuleFactory.registered_get, hg]
  · simp only [ModuleFactory.store]
    rw [JSMap.get_set_self]

namespace ModuleFactory

theorem lastRegistration_append_of_none (l₁ l₂ : List (String × Registered)) (name : String)
    (h : ∀ e ∈ l₂, e.1 ≠ name) :
    lastRegistration (l₁ ++ l₂) name = lastRegistration l₁ name := by
  unfold lastRegistration
  rw [List.reverse_append, List.find?_append]
  have : l₂.reverse.find? (fun e => decide (e.1 = name)) = none := by
    rw [List.find?_eq_none]
    intro e he
    simpa using h e (List.mem_reverse.mp he)
  rw [this]
  rfl

theorem lastRegistration_append_of_some (l₁ l₂ : List (String × Registered)) (name : String)
    (r : Registered) (h : lastRegistration l₂ name = some r) :
    lastRegistration (l₁ ++ l₂) name = some r := by
  unfold lastRegistration at h ⊢
  rw [List.reverse_append, List.find?_append]
  cases hf : l₂.reverse.find? (fun e => decide (e.1 = name)) with
  | none => rw [hf] at h; simp at h
  | some e => rw [hf] at h; simpa using h

theorem lastRegistration_map_of_nodup {α : Type} (l : List α) (key : α → String)
    (val : α → Registered) (hn : (l.map key).Nodup) (s : α) (hs : s ∈ l) :
    lastRegistration (l.map (fun x => (key x, val x))) (key s) = some (val s) := by
  induction l with
  | nil => simp at hs
  | cons a l ih =>
    simp only [List.map_cons, List.nodup_cons] at hn
    rcases List.mem_cons.mp hs with rfl | hs'
    · have : lastRegistration ([(key s, val s)] ++ l.map (fun x => (key x, val x))) (key s) =
          lastRegistration [(key s, val s)] (key s) := by
        apply lastRegistration_append_of_none
        intro e he
        obtain ⟨x, hx, rfl⟩ := List.mem_map.mp he
        exact fun h => hn.1 (List.mem_map.mpr ⟨x, hx, h⟩)
      simp only [List.map_cons]
      rw [← List.singleton_append, this]
      simp [lastRegistration]
    · simp only [List.map_cons]
      rw [← List.singleton_append]
      exact lastRegistration_append_of_some _ _ _ _ (ih hn.2 hs')

end ModuleFactory

/-! ## C15: overrides of the baked-in services -/

/-- C15. Let the baked-in services have pairwise distinct names, let s be one of them
with a name that is not empty, and let no supplied service or component bear the name of
s. An entry of `overrides` fits s when it is a class that extends s or an object
`{key, override}` whose key is the name of s. When the loops of the constructor have run,
the name of s holds a service Factory that constructs: the class, when the first entry
that fits s is a class; `override`, when it is an object `{key, override}`; and s itself,
when no entry fits s (so an entry leaves every service alone that it does not fit).
Whenever the constructor of ModuleFactory returns, the name of s still holds that
Factory. -/
theorem baked_in_service_or_override (lvs : List Class) (v : ViviView) (module : Option Module)
    (overrides : Option (List Override)) (s : Class) (hs : s ∈ lvs)
    (hn : (lvs.map (fun t => t.ctor.name)).Nodup) (hne : s.ctor.name ≠ "")
    (hsvc : ∀ c ∈ (module.getD {}).serviceConstructors.getD [], c.name ≠ s.ctor.name)
    (hcmp : ∀ c ∈ (module.getD {}).componentConstructors.getD [], c.name ≠ s.ctor.name) :
    (∀ c : Class, (Override.cls c).fits s = true ↔ c.parent = some s.ref) ∧
    (∀ (key : String) (o : Ctor), (Override.keyed key o).fits s = true ↔ key = s.ctor.name) ∧
    (∀ c : Class, (overrides.getD []).find? (Override.fits s) = some (.cls c) →
      (ModuleFactory.registered lvs v module overrides).factories.get s.ctor.name =
        some (Registered.service c.ctor v)) ∧
    (∀ (key : String) (o : Ctor),
      (overrides.getD []).find? (Override.fits s) = some (.keyed key o) →
      (ModuleFactory.registered lvs v module overrides).factories.get s.ctor.name =
        some (Registered.service o v)) ∧
    ((∀ o ∈ overrides.getD [], Override.fits s o = false) →
      (ModuleFactory.registered lvs v module overrides).factories.get s.ctor.name =
        some (Registered.service s.ctor v)) ∧
    (∀ m, ModuleFactory.construct lvs v module overrides = .returned m →
      m.factories.get s.ctor.name =
        (ModuleFactory.registered lvs v module overrides).factories.get s.ctor.name) := by
  have key : (ModuleFactory.registered lvs v module overrides).factories.get s.ctor.name =
      some (ModuleFactory.bakedIn (overrides.getD []) v s) := by
    rw [ModuleFactory.registered_get, ModuleFactory.registrations,
      ModuleFactory.lastRegistration_append_of_none, ModuleFactory.lastRegistration_append_of_none]
    · apply ModuleFactory.lastRegistration_append_of_some
      exact ModuleFactory.lastRegistration_map_of_nodup lvs (fun t => t.ctor.name)
        (fun t => ModuleFactory.bakedIn (overrides.getD []) v t) hn s hs
    · intro e he
      obtain ⟨c, hc, rfl⟩ := List.mem_map.mp he
      exact hsvc c hc
    · intro e he
      obtain ⟨c, hc, rfl⟩ := List.mem_map.mp he
      exact hcmp c hc
  refine ⟨?_, ?_, ?_, ?_, ?_, ?_⟩
  · intro c
    simp [Override.fits]
  · intro k o
    simp [Override.fits]
  · intro c ho
    rw [key, ModuleFactory.bakedIn, ho]
    rfl
  · intro k o ho
    have hk : k = s.ctor.name := by
      have := List.find?_some ho
      simpa [Override.fits] using this
    rw [key, ModuleFactory.bakedIn, ho]
    simp [Override.constructorFn, hk, hne]
  · intro hno
    have : (overrides.getD []).find? (Override.fits s) = none := by
      rw [List.find?_eq_none]
      intro o ho
      simp [hno o ho]
    rw [key, ModuleFactory.bakedIn, this]
  · intro m hm
    cases hr : ModuleFactory.rootGiven module with
    | none =>
      rw [ModuleFactory.construct_of_no_root lvs v module overrides hr] at hm
      rw [← Completion.returned.inj hm]
    | some root =>
      obtain ⟨rf, hg, hk, rfl⟩ :=
        ModuleFactory.construct_of_root lvs v module overrides root m hr hm
      by_cases hname : root.instanceName = s.ctor.name
      · exfalso
        rw [hname, key] at hg
        have := Option.some.inj hg
        rw [← this] at hk
        unfold ModuleFactory.bakedIn at hk
        split at hk <;> simp [Registered.service] at hk
      · simp only [ModuleFactory.store]
        rw [JSMap.get_set_ne _ _ hname]

/-- C15, witness: two baked-in services, Logger and AppEvent, and one override, a class
that extends the Logger. The name Logger holds a Factory that constructs the override, and
the name AppEvent one that constructs AppEvent. -/
theorem baked_in_service_or_override_witness :
    loggerClass ∈ baseline ∧ appEventClass ∈ baseline ∧
    (baseline.map (fun t => t.ctor.name)).Nodup ∧
    (ModuleFactory.registered baseline logging (some full)
      (some [.cls quietLogger])).factories.get "Logger" =
        some (Registered.service quietLogger.ctor logging) ∧
    (ModuleFactory.registered baseline logging (some full)
      (some [.cls quietLogger])).factories.get "AppEvent" =
        some (Registered.service appEvent logging) :=
  ⟨List.mem_cons_self _ _, List.mem_cons_of_mem _ (List.mem_cons_self _ _), by decide,
    (baked_in_service_or_override baseline logging (some full) (some [.cls quietLogger])
      loggerClass (List.mem_cons_self _ _) (by decide) (by decide) (by decide) (by decide)).2.2.1
      quietLogger rfl,
    (baked_in_service_or_override baseline logging (some full) (some [.cls quietLogger])
      appEventClass (List.mem_cons_of_mem _ (List.mem_cons_self _ _)) (by decide) (by decide) (by decide) (by decide)).2.2.2.2.1
      (by decide)⟩

/-! ## Facts about the constructor of ModuleFactory (module-factory.ts) -/

namespace TS

theorem initServices_nil (b : Build) : initServices [] b = b := rfl

theorem initServices_cons (d : ServiceDescriptor) (l : List ServiceDescriptor) (b : Build) :
    initServices (d :: l) b = initServices l
      { b with
        services := b.services.set d.constructor.name
          { ref := b.next, construct := d.constructor,
            prereqArr := resolve b.services d.prereqArr },
        next := b.next + 1 } := rfl

theorem initServices_append (l₁ l₂ : List ServiceDescriptor) (b : Build) :
    initServices (l₁ ++ l₂) b = initServices l₂ (initServices l₁ b) := by
  simp [initServices, List.foldl_append]

theorem initComponents_nil (b : Build) : initComponents [] b = b := rfl

theorem initComponents_cons (d : ComponentDescriptor) (l : List ComponentDescriptor)
    (b : Build) :
    initComponents (d :: l) b = initComponents l
      { b with
        components := b.components.set d.constructor.name
          { ref := b.next, construct := d.constructor,
            serviceArr := resolve b.services d.services },
        next := b.next + 1 } := rfl

theorem initComponents_append (l₁ l₂ : List ComponentDescriptor) (b : Build) :
    initComponents (l₁ ++ l₂) b = initComponents l₂ (initComponents l₁ b) := by
  simp [initComponents, List.foldl_append]

theorem initServices_fields (l : List ServiceDescriptor) (b : Build) :
    (initServices l b).components = b.components ∧
    (initServices l b).next = b.next + l.length := by
  induction l generalizing b with
  | nil => exact ⟨rfl, rfl⟩
  | cons d l ih =>
    rw [initServices_cons]
    obtain ⟨h1, h2⟩ := ih
      { b with
        services := b.services.set d.constructor.name
          { ref := b.next, construct := d.constructor,
            prereqArr := resolve b.services d.prereqArr },
        next := b.next + 1 }
    exact ⟨h1, by rw [h2]; simp; omega⟩

theorem initComponents_fields (l : List ComponentDescriptor) (b : Build) :
    (initComponents l b).services = b.services ∧
    (initComponents l b).next = b.next + l.length := by
  induction l generalizing b with
  | nil => exact ⟨rfl, rfl⟩
  | cons d l ih =>
    rw [initComponents_cons]
    obtain ⟨h1, h2⟩ := ih
      { b with
        components := b.components.set d.constructor.name
          { ref := b.next, construct := d.constructor,
            serviceArr := resolve b.services d.services },
        next := b.next + 1 }
    exact ⟨h1, by rw [h2]; simp; omega⟩

/-- A name that no descriptor of the list bears holds after the loop what it held before. -/
theorem initServices_get_of_not_mem (l : List ServiceDescriptor) (b : Build) (name : String)
    (h : ∀ d ∈ l, d.constructor.name ≠ name) :
    (initServices l b).services.get name = b.services.get name := by
  induction l generalizing b with
  | nil => rfl
  | cons d l ih =>
    simp only [List.mem_cons, forall_eq_or_imp] at h
    rw [initServices_cons, ih _ h.2]
    exact JSMap.get_set_ne _ _ h.1

theorem initComponents_get_of_not_mem (l : List ComponentDescriptor) (b : Build) (name : String)
    (h : ∀ d ∈ l, d.constructor.name ≠ name) :
    (initComponents l b).components.get name = b.components.get name := by
  induction l generalizing b with
  | nil => rfl
  | cons d l ih =>
    simp only [List.mem_cons, forall_eq_or_imp] at h
    rw [initComponents_cons, ih _ h.2]
    exact JSMap.get_set_ne _ _ h.1

/-- The Factory built for a descriptor that no later descriptor shares its name with is
the one its name holds after the loop. -/
theorem initServices_get_built (l₁ l₂ : List ServiceDescriptor) (d : ServiceDescriptor)
    (b : Build) (h : ∀ e ∈ l₂, e.constructor.name ≠ d.constructor.name) :
    (initServices (l₁ ++ d :: l₂) b).services.get d.constructor.name =
      some { ref := b.next + l₁.length, construct := d.constructor,
             prereqArr := resolve (initServices l₁ b).services d.prereqArr } := by
  rw [initServices_append, initServices_cons, initServices_get_of_not_mem _ _ _ h]
  simp only
  rw [JSMap.get_set_self, (initServices_fields l₁ b).2]

theorem initComponents_get_built (l₁ l₂ : List ComponentDescriptor) (d : ComponentDescriptor)
    (b : Build) (h : ∀ e ∈ l₂, e.constructor.name ≠ d.constructor.name) :
    (initComponents (l₁ ++ d :: l₂) b).components.get d.constructor.name =
      some { ref := b.next + l₁.length, construct := d.constructor,
             serviceArr := resolve b.services d.services } := by
  rw [initComponents_append, initComponents_cons, initComponents_get_of_not_mem _ _ _ h]
  simp only
  rw [JSMap.get_set_self, (initComponents_fields l₁ b).2, (initComponents_fields l₁ b).1]

/-- Every name of a descriptor holds a Factory after the loop. -/
theorem initServices_get_isSome (l : List ServiceDescriptor) (b : Build) (name : String)
    (h : (∃ d ∈ l, d.constructor.name = name) ∨ (b.services.get name).isSome = true) :
    ((initServices l b).services.get name).isSome = true := by
  induction l generalizing b with
  | nil =>
    rcases h with ⟨d, hd, _⟩ | h
    · simp at hd
    · exact h
  | cons d l ih =>
    rw [initServices_cons]
    apply ih
    by_cases hk : d.constructor.name = name
    · right
      simp only
      rw [hk, JSMap.get_set_self]
      rfl
    · rcases h with ⟨d', hd', hn⟩ | h
      · rcases List.mem_cons.mp hd' with rfl | hd'
        · exact absurd hn hk
        · exact Or.inl ⟨d', hd', hn⟩
      · right
        simp only
        rw [JSMap.get_set_ne _ _ hk]
        exact h

/-- What a name holds after the loop over the component descriptors: what it held before,
or the Factory built for a descriptor of that name, with the services of that descriptor
resolved in the Service map. -/
theorem initComponents_get (l : List ComponentDescriptor) (b : Build) (name : String)
    (f : ComponentFactory) (h : (initComponents l b).components.get name = some f) :
    b.components.get name = some f ∨
    ∃ d ∈ l, d.constructor.name = name ∧ f.construct = d.constructor ∧
      f.serviceArr = resolve b.services d.services := by
  induction l generalizing b with
  | nil => exact Or.inl h
  | cons d l ih =>
    rw [initComponents_cons] at h
    rcases ih _ h with h' | ⟨d', hd', hn, hc, hs⟩
    · simp only at h'
      by_cases hk : d.constructor.name = name
      · rw [hk, JSMap.get_set_self] at h'
        have := Option.some.inj h'
        subst this
        exact Or.inr ⟨d, List.mem_cons_self _ _, hk, rfl, rfl⟩
      · rw [JSMap.get_set_ne _ _ hk] at h'
        exact Or.inl h'
    · exact Or.inr ⟨d', List.mem_cons_of_mem _ hd', hn, hc, hs⟩

theorem initComponents_pairwise (l : List ComponentDescriptor) (b : Build)
    (hd : b.components.entries.Pairwise (fun a b => a.1 ≠ b.1)) :
    (initComponents l b).components.entries.Pairwise (fun a b => a.1 ≠ b.1) := by
  induction l generalizing b with
  | nil => exact hd
  | cons d l ih =>
    rw [initComponents_cons]
    exact ih _ (JSMap.pairwise_set _ _ _ hd)

/-- The keys of the Component map after the loop, for descriptors with new and pairwise
distinct names: the keys before, then the names in the order of the descriptors. -/
theorem initComponents_keys (l : List ComponentDescriptor) (b : Build)
    (hn : (l.map (fun d => d.constructor.name)).Nodup)
    (hb : ∀ d ∈ l, d.constructor.name ∉ b.components.entries.map Prod.fst) :
    (initComponents l b).components.entries.map Prod.fst =
      b.components.entries.map Prod.fst ++ l.map (fun d => d.constructor.name) := by
  induction l generalizing b with
  | nil => simp [initComponents_nil]
  | cons d l ih =>
    simp only [List.map_cons, List.nodup_cons, List.mem_cons, forall_eq_or_imp] at hn hb
    have he := JSMap.entries_set_of_absent d.constructor.name
      ({ ref := b.next, construct := d.constructor,
         serviceArr := resolve b.services d.services } : ComponentFactory) b.components
      (fun a ha hk => hb.1 (List.mem_map.mpr ⟨a, ha, hk⟩))
    rw [initComponents_cons, ih _ hn.2]
    · simp only [he]
      simp
    · intro d' hd'
      simp only [he, List.map_append, List.map_cons, List.map_nil, List.mem_append,
        List.mem_singleton, not_or]
      exact ⟨hb.2 d' hd', fun h => hn.1 (List.mem_map.mpr ⟨d', hd', h⟩)⟩

/-- When the constructor returns, the module, its component list and its root were given,
and the registry is the one the two loops leave. -/
theorem construct_returned (lvs : List ServiceDescriptor) (module : Option ViviFactoryConstructor)
    (m : ModuleFactory ServiceFactory ComponentFactory)
    (h : construct lvs module = .returned m) :
    ∃ mod cs root, module = some mod ∧ mod.componentConstructors = some cs ∧
      mod.rootComponent = some root ∧
      m = (initComponents cs
        (initServices (mergedServices lvs mod)
          { services := [], components := [], next := 0 })).registry := by
  cases module with
  | none => simp [construct] at h
  | some mod =>
    simp only [construct] at h
    split at h
    · simp at h
    · cases hc : mod.componentConstructors with
      | none => simp [hc] at h
      | some cs =>
        cases hr : mod.rootComponent with
        | none => simp [hc, hr] at h
        | some root =>
          simp only [hc, hr] at h
          split at h <;> simp at h
          exact ⟨mod, cs, root, rfl, hc, hr, h.symm⟩

end TS

namespace TS

theorem suffixOf_nodeTreeService : suffixOf "NodeTreeService" = some .service := by decide

/-- Without a list of component descriptors the constructor throws, whatever the baked-in
services are. -/
theorem construct_throws_of_no_components (lvs : List ServiceDescriptor) (mod : ViviFactoryConstructor)
    (h : mod.componentConstructors = none) :
    construct lvs (some mod) = .threw (.typeError "undefined has no properties") := by
  simp only [construct, getByString, suffixOf_nodeTreeService, h]
  cases (initServices (mergedServices lvs mod)
    { services := [], components := [], next := 0 }).registry.services.get "NodeTreeService" <;> rfl

/-- Without a root component the constructor throws, whatever the baked-in services are. -/
theorem construct_throws_of_no_root (lvs : List ServiceDescriptor) (mod : ViviFactoryConstructor)
    (h : mod.rootComponent = none) :
    construct lvs (some mod) = .threw (.typeError "undefined has no properties") := by
  simp only [construct, getByString, suffixOf_nodeTreeService, h]
  cases (initServices (mergedServices lvs mod)
    { services := [], components := [], next := 0 }).registry.services.get "NodeTreeService"
  · rfl
  · cases mod.componentConstructors <;> rfl

end TS

namespace ModuleFactory

theorem lastRegistration_map_of_mem {α : Type} (l : List α) (key : α → String)
    (val : α → Registered) (s : α) (hs : s ∈ l) :
    ∃ t ∈ l, key t = key s ∧
      lastRegistration (l.map (fun x => (key x, val x))) (key s) = some (val t) := by
  unfold lastRegistration
  cases hf : (l.map (fun x => (key x, val x))).reverse.find? (fun e => decide (e.1 = key s)) with
  | none =>
    rw [List.find?_eq_none] at hf
    have := hf (key s, val s) (List.mem_reverse.mpr (List.mem_map.mpr ⟨s, hs, rfl⟩))
    simp at this
  | some e =>
    have hp := List.find?_some hf
    have hm := List.mem_reverse.mp (List.mem_of_find?_eq_some hf)
    obtain ⟨t, ht, rfl⟩ := List.mem_map.mp hm
    exact ⟨t, ht, by simpa using hp, rfl⟩

end ModuleFactory

/-! ## C17: construction without the optional inputs -/

/-- C17. The constructor of module-factory.js returns when it is called with no module or
with the empty module `{}`, whatever the overrides: the registry it returns is the one the
loop over the baked-in services leaves, and the name of every baked-in service holds a
service Factory in it. The constructor of module-factory.ts throws a TypeError on the same
two inputs, whatever the baked-in services are: it reads fields of `undefined`, and with
`{}` it calls `forEach` on the component list that is not there. -/
theorem construct_without_optional_inputs (lvs : List Class) (v : ViviView)
    (overrides : Option (List Override)) (tlvs : List TS.ServiceDescriptor) :
    ModuleFactory.construct lvs v none overrides =
      .returned (ModuleFactory.registered lvs v none overrides) ∧
    ModuleFactory.construct lvs v (some {}) overrides =
      .returned (ModuleFactory.registered lvs v none overrides) ∧
    (∀ s ∈ lvs, ∃ t ∈ lvs, t.ctor.name = s.ctor.name ∧
      (ModuleFactory.registered lvs v none overrides).factories.get s.ctor.name =
        some (ModuleFactory.bakedIn (overrides.getD []) v t) ∧
      (ModuleFactory.bakedIn (overrides.getD []) v t).kind = .service) ∧
    TS.construct tlvs none = .threw (.typeError "undefined has no properties") ∧
    TS.construct tlvs (some {}) = .threw (.typeError "undefined has no properties") := by
  refine ⟨ModuleFactory.construct_of_no_root lvs v none overrides rfl,
    ModuleFactory.construct_of_no_root lvs v (some {}) overrides rfl, ?_, rfl,
    TS.construct_throws_of_no_components tlvs {} rfl⟩
  intro s hs
  obtain ⟨t, ht, hn, hl⟩ := ModuleFactory.lastRegistration_map_of_mem lvs
    (fun t => t.ctor.name) (fun t => ModuleFactory.bakedIn (overrides.getD []) v t) s hs
  refine ⟨t, ht, hn, ?_, ?_⟩
  · rw [ModuleFactory.registered_get, ModuleFactory.registrations]
    simpa using hl
  · unfold ModuleFactory.bakedIn
    split <;> rfl

/-! ## Facts about the component names of a registry -/

namespace JSMap

variable {κ ν : Type} [DecidableEq κ]

/-- Every key after a run of `set` calls on the empty Map is the key of one of the calls. -/
theorem keys_setAll_subset (l : List (κ × ν)) (k : κ)
    (h : k ∈ (entries (setAll l ([] : JSMap κ ν))).map Prod.fst) : k ∈ l.map Prod.fst := by
  rw [← get_isSome_iff, get_setAll] at h
  cases hf : l.reverse.find? (fun e => decide (e.1 = k)) with
  | none => rw [hf] at h; simp [get] at h
  | some e =>
    have hp := List.find?_some hf
    have hm := List.mem_reverse.mp (List.mem_of_find?_eq_some hf)
    exact List.mem_map.mpr ⟨e, hm, by simpa using hp⟩

end JSMap

namespace ModuleFactory

/-- The component names of a registry do not change when a component Factory is written
back under the name it already has. -/
theorem getComponentRegistry_store (m : ModuleFactory) (name : String) (rf r : Registered)
    (hd : m.factories.entries.Pairwise (fun a b => a.1 ≠ b.1))
    (hg : m.factories.get name = some rf) (hk : r.kind = rf.kind) :
    (m.store name r).getComponentRegistry = m.getComponentRegistry := by
  have hmem : name ∈ m.factories.entries.map Prod.fst :=
    (JSMap.get_isSome_iff _ _).mp (by rw [hg]; rfl)
  simp only [getComponentRegistry, store]
  rw [JSMap.entries_set_of_present name r m.factories hd hmem, List.filter_map, List.map_map]
  have hfil : ∀ e ∈ m.factories.entries,
      ((fun e : String × Registered => decide (e.2.kind = .component)) ∘
        (fun e : String × Registered => if e.1 = name then (name, r) else e)) e =
      (fun e : String × Registered => decide (e.2.kind = .component)) e := by
    intro e he
    by_cases hn : e.1 = name
    · have : m.factories.get name = some e.2 := by
        rw [← hn]
        exact JSMap.get_of_mem hd he
      rw [hg] at this
      simp [hn, hk, Option.some.inj this]
    · simp [hn]
  rw [List.filter_congr hfil]
  apply List.map_congr_left
  intro e _
  by_cases hn : e.1 = name <;> simp [hn]

/-- The component names after the four loops, when no child module is merged and the
supplied components bear pairwise distinct names, none of them the name of a baked-in or
supplied service: the names of the components as supplied. -/
theorem getComponentRegistry_registered (lvs : List Class) (v : ViviView) (mod : Module)
    (overrides : Option (List Override)) (hmod : mod.modules.getD [] = [])
    (hn : ((mod.componentConstructors.getD []).map (fun c => c.name)).Nodup)
    (hb : ∀ c ∈ mod.componentConstructors.getD [], ∀ s ∈ lvs, c.name ≠ s.ctor.name)
    (hs : ∀ c ∈ mod.componentConstructors.getD [],
      ∀ s ∈ mod.serviceConstructors.getD [], c.name ≠ s.name) :
    (registered lvs v (some mod) overrides).getComponentRegistry =
      (mod.componentConstructors.getD []).map (fun c => c.name) := by
  rw [registered_eq, registrations]
  simp only [Option.getD_some, hmod, List.flatMap_nil, List.nil_append, getComponentRegistry]
  rw [JSMap.setAll_append, JSMap.entries_setAll_fresh]
  · rw [List.filter_append, List.map_append]
    have h1 : (JSMap.entries (JSMap.setAll
        (lvs.map (fun service => (service.ctor.name, bakedIn (overrides.getD []) v service)) ++
          (mod.serviceConstructors.getD []).map (fun c => (c.name, Registered.service c v)))
        ([] : JSMap String Registered))).filter
          (fun e => decide (e.2.kind = .component)) = [] := by
      rw [List.filter_eq_nil_iff]
      intro e he
      have := JSMap.forall_setAll (fun r : Registered => r.kind = .service) _
        ([] : JSMap String Registered) (by simp) (by simp) (by
          intro e he
          rcases List.mem_append.mp he with he | he
          · obtain ⟨s, _, rfl⟩ := List.mem_map.mp he
            simp only [bakedIn]
            split <;> rfl
          · obtain ⟨c, _, rfl⟩ := List.mem_map.mp he
            rfl) e he
      simp [this]
    rw [h1, List.filter_eq_self.mpr]
    · simp [List.map_map, Function.comp_def]
    · intro e he
      obtain ⟨c, _, rfl⟩ := List.mem_map.mp he
      simp [Registered.component]
  · simpa [List.map_map, Function.comp_def] using hn
  · intro k hk hmem
    have := JSMap.keys_setAll_subset _ k hmem
    simp only [List.map_map, List.map_append, List.mem_append, List.mem_map,
      Function.comp_apply] at hk this
    obtain ⟨c, hc, rfl⟩ := hk
    rcases this with ⟨s, hs', h⟩ | ⟨s, hs', h⟩
    · exact hb c hc s hs' h.symm
    · exact hs c hc s hs' h.symm

end ModuleFactory

/-! ## C12: getComponentRegistry -/

/-- C12, amended. For component lists with pairwise distinct names. module-factory.js:
when no child module is merged and no component bears the name of a baked-in or supplied
service, every registry the constructor returns gives as its component registry the names
of the supplied components, in the order they were supplied, and no name in it is the name
of a baked-in or supplied service. module-factory.ts: every registry the constructor
returns gives the names of the component descriptors, in the order they were supplied; no
name in it is the name of a service descriptor when no component bears such a name. -/
theorem component_registry_in_supplied_order (lvs : List Class) (v : ViviView) (mod : Module)
    (overrides : Option (List Override)) (tlvs : List TS.ServiceDescriptor)
    (tmod : TS.ViviFactoryConstructor) :
    (mod.modules.getD [] = [] →
      ((mod.componentConstructors.getD []).map (fun c => c.name)).Nodup →
      (∀ c ∈ mod.componentConstructors.getD [], ∀ s ∈ lvs, c.name ≠ s.ctor.name) →
      (∀ c ∈ mod.componentConstructors.getD [],
        ∀ s ∈ mod.serviceConstructors.getD [], c.name ≠ s.name) →
      ∀ m, ModuleFactory.construct lvs v (some mod) overrides = .returned m →
        m.getComponentRegistry = (mod.componentConstructors.getD []).map (fun c => c.name) ∧
        ∀ n ∈ m.getComponentRegistry,
          (∀ s ∈ lvs, n ≠ s.ctor.name) ∧
          (∀ s ∈ mod.serviceConstructors.getD [], n ≠ s.name)) ∧
    (((tmod.componentConstructors.getD []).map (fun d => d.constructor.name)).Nodup →
      ∀ m, TS.construct tlvs (some tmod) = .returned m →
        TS.getComponentRegistry m =
          (tmod.componentConstructors.getD []).map (fun d => d.constructor.name) ∧
        ((∀ d ∈ tmod.componentConstructors.getD [], ∀ e ∈ TS.mergedServices tlvs tmod,
            d.constructor.name ≠ e.constructor.name) →
          ∀ n ∈ TS.getComponentRegistry m, ∀ e ∈ TS.mergedServices tlvs tmod,
            n ≠ e.constructor.name)) := by
  constructor
  · intro hmod hn hb hs m hm
    have key : m.getComponentRegistry =
        (mod.componentConstructors.getD []).map (fun c => c.name) := by
      rw [← ModuleFactory.getComponentRegistry_registered lvs v mod overrides hmod hn hb hs]
      cases hr : ModuleFactory.rootGiven (some mod) with
      | none =>
        rw [ModuleFactory.construct_of_no_root lvs v (some mod) overrides hr] at hm
        rw [← Completion.returned.inj hm]
      | some root =>
        obtain ⟨rf, hg, _, rfl⟩ :=
          ModuleFactory.construct_of_root lvs v (some mod) overrides root m hr hm
        exact ModuleFactory.getComponentRegistry_store _ _ rf _
          (ModuleFactory.registered_pairwise lvs v (some mod) overrides) hg rfl
    refine ⟨key, ?_⟩
    intro n hn'
    rw [key] at hn'
    obtain ⟨c, hc, rfl⟩ := List.mem_map.mp hn'
    exact ⟨hb c hc, hs c hc⟩
  · intro hn m hm
    have key : TS.getComponentRegistry m =
        (tmod.componentConstructors.getD []).map (fun d => d.constructor.name) := by
      obtain ⟨mod', cs, root, hmod, hcs, _, rfl⟩ := TS.construct_returned tlvs (some tmod) m hm
      cases Option.some.inj hmod
      rw [hcs] at hn ⊢
      simp only [Option.getD_some] at hn ⊢
      simp only [TS.getComponentRegistry, TS.Build.registry]
      rw [TS.initComponents_keys cs _ hn]
      · rw [(TS.initServices_fields _ _).1]
        simp
      · intro d _
        rw [(TS.initServices_fields _ _).1]
        simp
    refine ⟨key, ?_⟩
    intro hdis n hn'
    rw [key] at hn'
    obtain ⟨d, hd, rfl⟩ := List.mem_map.mp hn'
    exact hdis d hd

/-- C12, witness: the module of the test file. Both constructors return, and both
registries give the two names of the components in the order of the module. -/
theorem component_registry_in_supplied_order_witness :
    (∃ m, ModuleFactory.construct baseline logging (some full) none = .returned m ∧
      m.getComponentRegistry = ["MockChildComponent", "MockComponent"]) ∧
    (∃ m, TS.construct tsBaseline (some tsFull) = .returned m ∧
      TS.getComponentRegistry m = ["MockChildComponent", "MockComponent"]) :=
  ⟨⟨_, rfl,
      ((component_registry_in_supplied_order baseline logging full none tsBaseline tsFull).1
        rfl (by decide) (by decide) (by decide) _ rfl).1⟩,
    ⟨_, rfl,
      ((component_registry_in_supplied_order baseline logging full none tsBaseline tsFull).2
        (by decide) _ rfl).1⟩⟩

/-- C12, counterexample. module-factory.js, two components with distinct names of which
the second bears the name of the supplied service Clock: the constructor returns, and the
component registry gives Clock first, which is not the order of the module. And
module-factory.ts, two components with distinct names of which the second bears the name
of the supplied service MockService: the component registry holds that service name. -/
theorem component_registry_counterexample :
    (clash.componentConstructors.getD []).map (fun c => c.name) = ["MockComponent", "Clock"] ∧
    (∃ m, ModuleFactory.construct baseline logging (some clash) none = .returned m ∧
      m.getComponentRegistry = ["Clock", "MockComponent"]) ∧
    (TS.mergedServices tsBaseline tsNamesake).map (fun e => e.constructor.name) =
      ["NodeTreeService", "MockService"] ∧
    ∃ m, TS.construct tsBaseline (some tsNamesake) = .returned m ∧
      TS.getComponentRegistry m = ["MockComponent", "MockService"] :=
  ⟨rfl, ⟨_, rfl, by decide⟩, rfl, _, rfl, by decide⟩

namespace TS

/-- The registry that a returning constructor leaves, field by field. -/
theorem construct_returned_fields (lvs : List ServiceDescriptor) (mod : ViviFactoryConstructor)
    (m : ModuleFactory ServiceFactory ComponentFactory)
    (h : construct lvs (some mod) = .returned m) :
    ∃ cs, mod.componentConstructors = some cs ∧
      m.services = (initServices (mergedServices lvs mod)
        { services := [], components := [], next := 0 }).services ∧
      m.components = (initComponents cs
        { services := m.services, components := [],
          next := (mergedServices lvs mod).length }).components := by
  obtain ⟨mod', cs, root, hmod, hcs, _, rfl⟩ := construct_returned lvs (some mod) m h
  cases Option.some.inj hmod
  have hf := initServices_fields (mergedServices lvs mod)
    { services := [], components := [], next := 0 }
  have hs := (initComponents_fields cs (initServices (mergedServices lvs mod)
    { services := [], components := [], next := 0 })).1
  refine ⟨cs, hcs, hs, ?_⟩
  simp only [Build.registry, hs]
  congr 2
  rcases hB : initServices (mergedServices lvs mod)
    { services := [], components := [], next := 0 } with ⟨s, c, n⟩
  rw [hB] at hf
  simp only [Nat.zero_add] at hf
  rw [hf.1, hf.2]

end TS

/-! ## C14: a Factory is reachable by its constructor and by its name -/

/-- C14, amended. In every registry that the constructor of module-factory.ts returns:
for every descriptor of the service list (baked-in services first, then the supplied ones)
whose name ends in Service and is not the name of a later descriptor of that list,
`getFactory(constructor)` and `getFactoryByString(name)` both return the service Factory
built for that descriptor; and for every component descriptor whose name ends in Component
and is not the name of a later component descriptor, both return the component Factory
built for that descriptor. The Factory built for a descriptor is the one with the
constructor of the descriptor, allocated at the place of the descriptor. -/
theorem built_factory_reachable (tlvs : List TS.ServiceDescriptor)
    (mod : TS.ViviFactoryConstructor)
    (m : TS.ModuleFactory TS.ServiceFactory TS.ComponentFactory)
    (hm : TS.construct tlvs (some mod) = .returned m) :
    (∀ l₁ d l₂, TS.mergedServices tlvs mod = l₁ ++ d :: l₂ →
      (∀ e ∈ l₂, e.constructor.name ≠ d.constructor.name) →
      TS.endsWith d.constructor.name "Service" = true →
      ∃ f : TS.ServiceFactory, f.ref = l₁.length ∧ f.construct = d.constructor ∧
        TS.getFactory d.constructor m = .returned (.service f) ∧
        TS.getFactoryByString d.constructor.name m = .returned (.service f)) ∧
    (∀ l₁ d l₂, mod.componentConstructors = some (l₁ ++ d :: l₂) →
      (∀ e ∈ l₂, e.constructor.name ≠ d.constructor.name) →
      TS.endsWith d.constructor.name "Component" = true →
      ∃ f : TS.ComponentFactory, f.ref = (TS.mergedServices tlvs mod).length + l₁.length ∧
        f.construct = d.constructor ∧
        TS.getFactory d.constructor m = .returned (.component f) ∧
        TS.getFactoryByString d.constructor.name m = .returned (.component f)) := by
  obtain ⟨cs, hcs, hsv, hcm⟩ := TS.construct_returned_fields tlvs mod m hm
  constructor
  · intro l₁ d l₂ hl hlast hend
    have hg : m.services.get d.constructor.name = some
        { ref := l₁.length, construct := d.constructor,
          prereqArr := TS.resolve (TS.initServices l₁
            { services := [], components := [], next := 0 }).services d.prereqArr } := by
      rw [hsv, hl, TS.initServices_get_built l₁ l₂ d _ hlast]
      simp
    have hq : TS.getFactoryByString d.constructor.name m = .returned (.service
        { ref := l₁.length, construct := d.constructor,
          prereqArr := TS.resolve (TS.initServices l₁
            { services := [], components := [], next := 0 }).services d.prereqArr }) := by
      simp only [TS.getFactoryByString, (TS.suffixOf_service _).mpr hend, hg]
    exact ⟨_, rfl, rfl, hq, hq⟩
  · intro l₁ d l₂ hl hlast hend
    rw [hl] at hcs
    cases Option.some.inj hcs
    have hg : m.components.get d.constructor.name = some
        { ref := (TS.mergedServices tlvs mod).length + l₁.length, construct := d.constructor,
          serviceArr := TS.resolve m.services d.services } := by
      rw [hcm, TS.initComponents_get_built l₁ l₂ d _ hlast]
    have hq : TS.getFactoryByString d.constructor.name m = .returned (.component
        { ref := (TS.mergedServices tlvs mod).length + l₁.length, construct := d.constructor,
          serviceArr := TS.resolve m.services d.services }) := by
      simp only [TS.getFactoryByString, (TS.suffixOf_component _).mpr hend, hg]
    exact ⟨_, rfl, rfl, hq, hq⟩

/-- C14, witness: the module of the test file. The constructor returns, and the lookups
of MockService give the service Factory allocated second, after the one of the baked-in
service. -/
theorem built_factory_reachable_witness :
    ∃ m, TS.construct tsBaseline (some tsFull) = .returned m ∧
      ∃ f : TS.ServiceFactory, f.ref = 1 ∧ f.construct = mockService ∧
        TS.getFactory mockService m = .returned (.service f) ∧
        TS.getFactoryByString "MockService" m = .returned (.service f) :=
  ⟨_, rfl, (built_factory_reachable tsBaseline tsFull _ rfl).1
    [{ constructor := nodeTreeService }] { constructor := mockService } [] rfl
    (by simp) (by decide)⟩

/-- C14, counterexample. A supplied service descriptor with the constructor Clock: the
constructor returns and the Service map holds a Factory under Clock, but `getFactory(Clock)`
throws, because the name ends in neither Service nor Component. -/
theorem built_factory_counterexample :
    ∃ m, TS.construct tsBaseline (some tsClock) = .returned m ∧
      (m.services.get "Clock").map (fun f => f.ref) = some 1 ∧
      TS.getFactory clock m = .threw (.thrown (.str "No service or component for Clock")) ∧
      TS.getFactoryByString "Clock" m =
        .threw (.thrown (.str "No service or component for Clock")) :=
  ⟨_, rfl, by decide, rfl, rfl⟩

namespace TS

theorem resolve_eq (services : JSMap String ServiceFactory) (declared : Option (List Ctor)) :
    resolve services declared =
      (declared.getD []).map (fun c => (services.get c.name).map (fun f => f.ref)) := by
  cases declared <;> rfl

end TS

/-! ## C18: the services of a component are resolved when all services are registered -/

/-- C18. In every registry that the constructor of module-factory.ts returns, every
component Factory was built for a component descriptor of its name, and its resolved
service list is the list of the services the descriptor declares, read in the Service map
of the final registry: the same length, the same order, each entry the Factory object
(or undefined) that the final registry holds under the name of the declared service. The
entry is a Factory object for every declared service that bears the name of a baked-in or
supplied service descriptor, wherever that descriptor stands in the service list. -/
theorem component_services_resolved (tlvs : List TS.ServiceDescriptor)
    (mod : TS.ViviFactoryConstructor)
    (m : TS.ModuleFactory TS.ServiceFactory TS.ComponentFactory)
    (hm : TS.construct tlvs (some mod) = .returned m) (name : String)
    (f : TS.ComponentFactory) (hf : m.components.get name = some f) :
    ∃ d ∈ mod.componentConstructors.getD [], d.constructor.name = name ∧
      f.construct = d.constructor ∧
      f.serviceArr =
        (d.services.getD []).map (fun c => (m.services.get c.name).map (fun g => g.ref)) ∧
      f.serviceArr.length = (d.services.getD []).length ∧
      (∀ (i : Nat) (c : Ctor), (d.services.getD [])[i]? = some c →
        f.serviceArr[i]? = some ((m.services.get c.name).map (fun g => g.ref))) ∧
      (∀ c ∈ d.services.getD [],
        (∃ e ∈ TS.mergedServices tlvs mod, e.constructor.name = c.name) →
        ∃ g, m.services.get c.name = some g ∧ some g.ref ∈ f.serviceArr) := by
  obtain ⟨cs, hcs, hsv, hcm⟩ := TS.construct_returned_fields tlvs mod m hm
  rw [hcm] at hf
  rcases TS.initComponents_get cs _ name f hf with h | ⟨d, hd, hn, hc, hs⟩
  · simp [JSMap.get] at h
  · simp only at hs
    rw [TS.resolve_eq] at hs
    refine ⟨d, by rw [hcs]; exact hd, hn, hc, hs, by rw [hs, List.length_map], ?_, ?_⟩
    · intro i c hi
      rw [hs, List.getElem?_map, hi]
      rfl
    · intro c hc' ⟨e, he, hen⟩
      have hsome : (m.services.get c.name).isSome = true := by
        rw [hsv]
        exact TS.initServices_get_isSome _ _ _ (Or.inl ⟨e, he, hen⟩)
      obtain ⟨g, hg⟩ := Option.isSome_iff_exists.mp hsome
      refine ⟨g, hg, ?_⟩
      rw [hs]
      exact List.mem_map.mpr ⟨c, hc', by rw [hg]; rfl⟩

/-- C18, witness: the module of the test file. The constructor returns; the Factory of
MockComponent, allocated fourth, holds one resolved service, the Factory of MockService,
which was allocated second. -/
theorem component_services_resolved_witness :
    ∃ m, TS.construct tsBaseline (some tsFull) = .returned m ∧
      m.components.get "MockComponent" =
        some { ref := 3, construct := mockComponent, serviceArr := [some 1] } ∧
      (m.services.get "MockService").map (fun g => g.ref) = some 1 ∧
      ∃ d ∈ tsFull.componentConstructors.getD [], d.constructor.name = "MockComponent" ∧
        mockComponent = d.constructor ∧
        [some 1] =
          (d.services.getD []).map (fun c => (m.services.get c.name).map (fun g => g.ref)) :=
  ⟨_, rfl, rfl, rfl,
    (component_services_resolved tsBaseline tsFull _ rfl "MockComponent"
      { ref := 3, construct := mockComponent, serviceArr := [some 1] } rfl).imp
      (fun _ h => ⟨h.1, h.2.1, h.2.2.1, h.2.2.2.1⟩)⟩

/-! ## C20: destroyAll and cleanup hooks that call back -/

/-- C20, amended. `destroyAll()` walks the live Map, not a snapshot. In every state a fresh
Factory reaches in which the cleanup hook of every live instance returns and makes no call
on the Factory, and with more fuel than the Map has slots plus two: `destroyAll()` ends and
returns, it has called the hook of each instance that was live at the call once, in
creation order, and nothing else, and it leaves no live instance. -/
theorem destroyAll_walks_live_map (c : Ctor) (v : ViviView) (cs : List Call)
    (script : Instance → List Call) (fuel : Nat)
    (hall : ∀ x ∈ (reached c v cs).instances.values, c.destroy x = .returned ())
    (hs : ∀ x ∈ (reached c v cs).instances.values, script x = [])
    (hf : (reached c v cs).instances.length + 2 < fuel) :
    ∃ t, destroyAllWith script fuel (reached c v cs) = some (.returned (), t) ∧
      t.trace = (reached c v cs).trace ++
        (reached c v cs).instances.values.map Event.cleanup ∧
      (reached c v cs).instances.values.Nodup ∧
      t.instances.values = [] ∧
      t.counter = (reached c v cs).counter := by
  have hinv := inv_reached c v cs
  obtain ⟨hcon, _⟩ := reached_fields c v cs
  generalize reached c v cs = s at hall hs hf hinv hcon ⊢
  obtain ⟨f, rfl⟩ : ∃ f, fuel = f + 2 := ⟨fuel - 2, by omega⟩
  obtain ⟨t, h1, h2, h3, h4, _, _⟩ := forEachDestroy_spec s.instances.length 0 s f hinv
    (by omega) (by omega) (by rw [hcon]; exact hall)
  simp only [List.take_zero, List.drop_zero, List.nil_append] at h2 h3
  have hent : t.instances.entries = [] := by rw [h2]; exact JSMap.entries_map_none _
  exact ⟨t, exec_forEach_of_no_calls script f 0 s hinv hs _ h1, h3, values_nodup s hinv,
    by simp [JSMap.values, hent], h4⟩

/-- C20, witness: two live instances whose hooks return and make no call, five units of
fuel. -/
theorem destroyAll_walks_live_map_witness :
    (∀ x ∈ (reached widget logging calls).instances.values,
      widget.destroy x = .returned ()) ∧
    (∀ x ∈ (reached widget logging calls).instances.values,
      (fun _ => ([] : List Call)) x = []) ∧
    (reached widget logging calls).instances.length + 2 < 5 ∧
    ∃ t, destroyAllWith (fun _ => []) 5 (reached widget logging calls) =
        some (.returned (), t) ∧
      t.trace = (reached widget logging calls).trace ++
        (reached widget logging calls).instances.values.map Event.cleanup :=
  ⟨fun _ _ => rfl, fun _ _ => rfl, by decide,
    (destroyAll_walks_live_map widget logging calls (fun _ => []) 5 (fun _ _ => rfl)
      (fun _ _ => rfl) (by decide)).imp (fun _ h => ⟨h.1, h.2.1⟩)⟩

/-- C20, counterexample. Two live instances, with the ids 1 and 2. When the hook of the
second creates an instance, `destroyAll()` also calls the hook of that third instance,
which was not live at the call. When every hook creates an instance, `destroyAll()` does
not end, whatever the fuel. -/
theorem destroyAll_callback_counterexample :
    (reached widget logging calls).instances.values = [first, second] ∧
    (destroyAllWith regrow 9 (reached widget logging calls)).map
      (fun r => (r.1, r.2.trace)) =
      some (.returned (), [.cleanup first, .cleanup second, .cleanup third]) ∧
    ∀ fuel, (destroyAllWith hydra fuel (reached widget logging calls)).isNone = true := by
  refine ⟨by decide, by decide, ?_⟩
  intro fuel
  rw [destroyAllWith, exec_hydra_forEach fuel 0 _ (inv_reached widget logging calls)
    (fun _ => rfl) (by decide)]
  · rfl
  · intro j _ hj
    have hj2 : j < 2 := hj
    match j, hj2 with
    | 0, _ => exact ⟨_, rfl⟩
    | 1, _ => exact ⟨_, rfl⟩

/-! ## C21: the prerequisites of a service -/

namespace TS

/-- What a name holds after the loop over the service descriptors: what it held before, or
the Factory of a descriptor of that name. -/
theorem initServices_get_mem (l : List ServiceDescriptor) (b : Build) (name : String)
    (h : ((initServices l b).services.get name).isSome = true) :
    (b.services.get name).isSome = true ∨ ∃ d ∈ l, d.constructor.name = name := by
  induction l generalizing b with
  | nil => exact Or.inl h
  | cons d l ih =>
    rw [initServices_cons] at h
    rcases ih _ h with h' | ⟨e, he, hn⟩
    · by_cases hk : d.constructor.name = name
      · exact Or.inr ⟨d, List.mem_cons_self _ _, hk⟩
      · simp only at h'
        rw [JSMap.get_set_ne _ _ hk] at h'
        exact Or.inl h'
    · exact Or.inr ⟨e, List.mem_cons_of_mem _ he, hn⟩

end TS

/-- C21. No sort is made: in every registry that the constructor of module-factory.ts
returns for a service list (baked-in services first, then the supplied ones) with pairwise
distinct names, the name of every descriptor holds the Factory built for it, and every
service Factory is that of a descriptor. The resolved prerequisites of that Factory are the
declared ones, read in the Service map as it stood when the loop reached the descriptor:
the same length and order; for a prerequisite that an earlier descriptor bears the entry is
the Factory that the final registry holds under that name; for one that the descriptor
itself or a later one bears, or none at all, the entry is undefined. So when every declared
prerequisite stands earlier in the list, no entry is undefined. -/
theorem prerequisites_resolved_in_list_order (tlvs : List TS.ServiceDescriptor)
    (mod : TS.ViviFactoryConstructor)
    (m : TS.ModuleFactory TS.ServiceFactory TS.ComponentFactory)
    (hm : TS.construct tlvs (some mod) = .returned m)
    (hn : ((TS.mergedServices tlvs mod).map (fun d => d.constructor.name)).Nodup) :
    (∀ l₁ d l₂, TS.mergedServices tlvs mod = l₁ ++ d :: l₂ →
      ∃ f : TS.ServiceFactory, m.services.get d.constructor.name = some f ∧
        f.ref = l₁.length ∧ f.construct = d.constructor ∧
        f.prereqArr = (d.prereqArr.getD []).map (fun c =>
          ((TS.initServices l₁ { services := [], components := [], next := 0 }).services.get
            c.name).map (fun g => g.ref)) ∧
        f.prereqArr.length = (d.prereqArr.getD []).length ∧
        (∀ (i : Nat) (c : Ctor), (d.prereqArr.getD [])[i]? = some c →
          ((∃ e ∈ l₁, e.constructor.name = c.name) →
            ∃ g, m.services.get c.name = some g ∧ f.prereqArr[i]? = some (some g.ref)) ∧
          ((∃ e ∈ d :: l₂, e.constructor.name = c.name) → f.prereqArr[i]? = some none) ∧
          ((∀ e ∈ l₁, e.constructor.name ≠ c.name) → f.prereqArr[i]? = some none)) ∧
        ((∀ c ∈ d.prereqArr.getD [], ∃ e ∈ l₁, e.constructor.name = c.name) →
          ∀ x ∈ f.prereqArr, ∃ g, x = some g.ref ∧ ∃ c ∈ d.prereqArr.getD [],
            m.services.get c.name = some g)) ∧
    (∀ name f, m.services.get name = some f →
      ∃ l₁ d l₂, TS.mergedServices tlvs mod = l₁ ++ d :: l₂ ∧ d.constructor.name = name) := by
  obtain ⟨cs, _, hsv, _⟩ := TS.construct_returned_fields tlvs mod m hm
  constructor
  · intro l₁ d l₂ hl
    rw [hl] at hn
    simp only [List.map_append, List.map_cons] at hn
    obtain ⟨_, hn2, hdisj⟩ := List.nodup_append.mp hn
    obtain ⟨hd2, _⟩ := List.nodup_cons.mp hn2
    have hlast : ∀ e ∈ l₂, e.constructor.name ≠ d.constructor.name := by
      intro e he heq
      exact hd2 (List.mem_map.mpr ⟨e, he, heq⟩)
    -- a name that no descriptor before `d` bears is still free when the loop reaches `d`
    have hfree : ∀ c : Ctor, (∀ e ∈ l₁, e.constructor.name ≠ c.name) →
        (TS.initServices l₁ { services := [], components := [], next := 0 }).services.get
          c.name = none := by
      intro c hc
      rw [TS.initServices_get_of_not_mem l₁ _ c.name hc]
      rfl
    -- a name that a descriptor before `d` bears holds in the end what it held then
    have hkeep : ∀ c : Ctor, (∃ e ∈ l₁, e.constructor.name = c.name) →
        ∃ g, m.services.get c.name = some g ∧
          (TS.initServices l₁ { services := [], components := [], next := 0 }).services.get
            c.name = some g := by
      intro c ⟨e, he, hec⟩
      have hnot : ∀ e' ∈ d :: l₂, e'.constructor.name ≠ c.name := by
        intro e' he' heq
        have h1 : c.name ∈ l₁.map (fun d => d.constructor.name) :=
          List.mem_map.mpr ⟨e, he, hec⟩
        have h2 : c.name ∈ (d :: l₂).map (fun d => d.constructor.name) :=
          List.mem_map.mpr ⟨e', he', heq⟩
        exact hdisj h1 (by simpa using h2)
      have hsome := TS.initServices_get_isSome l₁
        { services := [], components := [], next := 0 } c.name (Or.inl ⟨e, he, hec⟩)
      obtain ⟨g, hg⟩ := Option.isSome_iff_exists.mp hsome
      refine ⟨g, ?_, hg⟩
      rw [hsv, hl, TS.initServices_append, TS.initServices_get_of_not_mem _ _ _ hnot, hg]
    have hg : m.services.get d.constructor.name = some
        { ref := l₁.length, construct := d.constructor,
          prereqArr := (d.prereqArr.getD []).map (fun c =>
            ((TS.initServices l₁ { services := [], components := [], next := 0 }).services.get
              c.name).map (fun g => g.ref)) } := by
      rw [hsv, hl, TS.initServices_get_built l₁ l₂ d _ hlast, TS.resolve_eq]
      simp
    refine ⟨_, hg, rfl, rfl, rfl, by simp, ?_, ?_⟩
    · intro i c hi
      refine ⟨?_, ?_, ?_⟩
      · intro hearly
        obtain ⟨g, hfin, hthen⟩ := hkeep c hearly
        refine ⟨g, hfin, ?_⟩
        simp only [List.getElem?_map, hi, Option.map_some', hthen]
      · intro ⟨e, he, hec⟩
        have hno : ∀ e' ∈ l₁, e'.constructor.name ≠ c.name := by
          intro e' he' heq
          have h1 : c.name ∈ l₁.map (fun d => d.constructor.name) :=
            List.mem_map.mpr ⟨e', he', heq⟩
          have h2 : c.name ∈ (d :: l₂).map (fun d => d.constructor.name) :=
            List.mem_map.mpr ⟨e, he, hec⟩
          exact hdisj h1 (by simpa using h2)
        simp only [List.getElem?_map, hi, Option.map_some', hfree c hno, Option.map_none']
      · intro hno
        simp only [List.getElem?_map, hi, Option.map_some', hfree c hno, Option.map_none']
    · intro hall x hx
      simp only [List.mem_map] at hx
      obtain ⟨c, hc, rfl⟩ := hx
      obtain ⟨g, hfin, hthen⟩ := hkeep c (hall c hc)
      exact ⟨g, by rw [hthen]; rfl, c, hc, hfin⟩
  · intro name f hf
    have hsome : ((TS.initServices (TS.mergedServices tlvs mod)
        { services := [], components := [], next := 0 }).services.get name).isSome = true := by
      rw [← hsv, hf]; rfl
    rcases TS.initServices_get_mem _ _ name hsome with h | ⟨d, hd, hdn⟩
    · simp [JSMap.get] at h
    · obtain ⟨l₁, l₂, hl⟩ := List.append_of_mem hd
      exact ⟨l₁, d, l₂, hl, hdn⟩

/-- C21, witness. Services declared in dependency order: the Factory of AlarmService,
allocated third, holds the Factories of ClockService and NodeTreeService, allocated second
and first. Declared the other way round, its one prerequisite is undefined. -/
theorem prerequisites_resolved_in_list_order_witness :
    (∃ m, TS.construct tsBaseline (some tsOrdered) = .returned m ∧
      ((TS.mergedServices tsBaseline tsOrdered).map (fun d => d.constructor.name)).Nodup ∧
      m.services.get "AlarmService" =
        some { ref := 2, construct := alarmService, prereqArr := [some 1, some 0] } ∧
      ∃ f : TS.ServiceFactory, m.services.get "AlarmService" = some f ∧
        ∀ x ∈ f.prereqArr, ∃ g, x = some g.ref ∧
          ∃ c ∈ [clockService, nodeTreeService], m.services.get c.name = some g) ∧
    (∃ m, TS.construct tsBaseline (some tsLate) = .returned m ∧
      m.services.get "AlarmService" =
        some { ref := 1, construct := alarmService, prereqArr := [none] } ∧
      ∃ f : TS.ServiceFactory, m.services.get "AlarmService" = some f ∧
        f.prereqArr[0]? = some none) :=
  ⟨⟨_, rfl, by decide, rfl,
      ((prerequisites_resolved_in_list_order tsBaseline tsOrdered _ rfl (by decide)).1
        [{ constructor := nodeTreeService }, { constructor := clockService }]
        { constructor := alarmService, prereqArr := some [clockService, nodeTreeService] }
        [] rfl).imp (fun _ h => ⟨h.1, h.2.2.2.2.2.2
          (by
            intro c hc
            simp only [Option.getD_some, List.mem_cons, List.mem_singleton,
              List.not_mem_nil, or_false] at hc
            rcases hc with rfl | rfl
            · exact ⟨{ constructor := clockService }, by simp, rfl⟩
            · exact ⟨{ constructor := nodeTreeService }, by simp, rfl⟩)⟩)⟩,
    ⟨_, rfl, rfl,
      ((prerequisites_resolved_in_list_order tsBaseline tsLate _ rfl (by decide)).1
        [{ constructor := nodeTreeService }]
        { constructor := alarmService, prereqArr := some [clockService] }
        [{ constructor := clockService }] rfl).imp (fun _ h => ⟨h.1,
          (h.2.2.2.2.2.1 0 clockService rfl).2.1
            ⟨{ constructor := clockService }, by simp, rfl⟩⟩)⟩⟩

end Vivi
